import Mathlib

/-!
# Modern_Cpp: the worker-queue / future-result pattern of the concurrency chapter, and the
containers of the STL chapter

Shallow embedding of
* `src/0x07-concurrency/0x19-packaged_task_real_example.cpp` (task queue, three workers, main),
* `src/0x07-concurrency/0x13-condition_variables.cpp` (producer, consumer, shared buffer),
* `src/0x07-concurrency/0x14-future_async_promise/0x01-example.cpp` and `0x02-example.cpp`
  (promise / future handshake), `0x00-example.cpp` and `0x18-packaged_task.cpp` (`factorial`),
  `0x03-example.cpp` (one promise, three readers of a `shared_future`),
* `src/0x07-concurrency/0x04-thread.cpp` (`ThreadRAII`),
* `src/0x05-standard_template_library_STL/0x00-sequence_containers/0x01-my_template_array.cpp`
  (`MyArray<T, N>`), `0x07-allocators/0x00-my_vector.cpp` (`MyVector` on `std::allocator`),
  `0x00-sequence_containers/myVector.hpp` with `0x03-my_vector.cpp` (`MyVector` on `new[]`),
  `0x03-Iterators/0x03-myArray.hpp` with `0x03-myArray.cpp` (`MyArray<T>` and its iterator),
* `src/0x02-OOP/0x02-More_OOP/0x01-templates_oop_interfaces.cpp` (`ArrayStack`).

Threads are embedded as a labelled step function on an explicit program state: every label is one
scheduling decision, every program counter is one source line.  The standard-library primitives
(`std::deque`, `std::mutex`, `std::condition_variable`, `std::promise`, `std::future`,
`std::packaged_task`) are embedded with the behaviour the C++ standard gives them.

Sequential code is embedded as functions into `Option` / `Except`: an exception or undefined
behaviour is a result of its own, memory that `new` or an allocator hands out is an explicit
value, and `size_t` / `int` arithmetic is bounded where the source can reach the bound.

The file has two parts: all definitions (the embedding, the invariants, the schedules used as
concrete inputs), then all theorems.
-/

set_option linter.unnecessarySeqFocus false
set_option linter.unreachableTactic false
set_option linter.unusedTactic false

namespace ModernCpp

/-! # Part 1: definitions -/

/-! ## `std::deque`, and the shared state of `std::promise` / `std::future` /
`std::packaged_task` -/

/-- `std::deque<T>::push_back`: append at the tail. -/
def push_back {α : Type} (q : List α) (x : α) : List α := q ++ [x]

/-- `std::deque<T>::front`: the head element; undefined on an empty deque (`none`). -/
def front {α : Type} (q : List α) : Option α := q.head?

/-- `std::deque<T>::pop_front`: drop the head element. -/
def pop_front {α : Type} (q : List α) : List α := q.tail

/-- `std::deque<T>::empty`. -/
def empty {α : Type} (q : List α) : Bool := q.isEmpty

/-- One queue operation of the 0x19 example: main's `task_q.push_back(std::move(task))` or a
worker's `task = std::move(task_q.front()); task_q.pop_front();`. -/
inductive QueueOp (α : Type) where
  | push (t : α)
  | pop

/-- The tasks submitted by a sequence of operations, in submission order. -/
def pushedOf {α : Type} : List (QueueOp α) → List α
  | [] => []
  | QueueOp.push t :: ops => t :: pushedOf ops
  | QueueOp.pop :: ops => pushedOf ops

/-- Runs a sequence of operations on a queue `q`, collecting the popped tasks after `out`.
A pop on an empty queue is outside the worker's protocol (`none`). -/
def applyOps {α : Type} : List (QueueOp α) → List α → List α → Option (List α × List α)
  | [], q, out => some (q, out)
  | QueueOp.push t :: ops, q, out => applyOps ops (push_back q t) out
  | QueueOp.pop :: ops, q, out =>
    match front q with
    | none => none
    | some t => applyOps ops (pop_front q) (out ++ [t])

/-- `std::future_errc`: the error codes of `std::future_error`. -/
inductive future_errc where
  | broken_promise
  | future_already_retrieved
  | promise_already_satisfied
  | no_state
  deriving DecidableEq, Repr

/-- The exceptions that occur in the examples (`std::exception_ptr` content). -/
inductive Exn where
  | runtime_error (what : String)
  | future_error (code : future_errc)
  deriving DecidableEq, Repr

/-- The shared state behind a promise/future pair or a packaged task: not yet resolved, resolved
with a value, or resolved with an exception. -/
inductive SharedState (α : Type) where
  | pending
  | ready (v : α)
  | failed (e : Exn)
  deriving DecidableEq, Repr

/-- `std::promise<T>::set_value`: stores the value in a pending shared state; on a shared state
that already holds a value or exception it throws `future_error(promise_already_satisfied)` and
stores nothing. Returns the shared state afterwards and what the call did. -/
def promise_set_value {α : Type} (s : SharedState α) (v : α) : SharedState α × Except Exn Unit :=
  match s with
  | SharedState.pending => (SharedState.ready v, Except.ok ())
  | _ => (s, Except.error (Exn.future_error future_errc.promise_already_satisfied))

/-- `std::promise<T>::set_exception`: as `set_value`, storing an exception. -/
def promise_set_exception {α : Type} (s : SharedState α) (e : Exn) :
    SharedState α × Except Exn Unit :=
  match s with
  | SharedState.pending => (SharedState.failed e, Except.ok ())
  | _ => (s, Except.error (Exn.future_error future_errc.promise_already_satisfied))

/-- `std::packaged_task<R()>::operator()`: runs the stored callable (whose outcome is `fn`) and
stores its return value, or the exception it threw, in the shared state. A task that was already
invoked throws `future_error(promise_already_satisfied)` and stores nothing. -/
def packaged_task_invoke {α : Type} (s : SharedState α) (fn : Except Exn α) :
    SharedState α × Except Exn Unit :=
  match s with
  | SharedState.pending =>
    match fn with
    | Except.ok v => (SharedState.ready v, Except.ok ())
    | Except.error e => (SharedState.failed e, Except.ok ())
  | _ => (s, Except.error (Exn.future_error future_errc.promise_already_satisfied))

/-- What a call of `get()` on the read end does. -/
inductive GetResult (α : Type) where
  | blocked
  | returned (v : α)
  | raised (e : Exn)
  deriving DecidableEq, Repr

/-- `std::future<T>::get`: blocks while the shared state is pending, returns the stored value, or
rethrows the stored exception. -/
def future_get {α : Type} (s : SharedState α) : GetResult α :=
  match s with
  | SharedState.pending => GetResult.blocked
  | SharedState.ready v => GetResult.returned v
  | SharedState.failed e => GetResult.raised e

/-- `std::to_string(int)`: decimal digits, with a leading minus sign for negative values. -/
def to_string (n : Int) : String := toString n

/-! ## 0x19-packaged_task_real_example.cpp : task queue, three workers, main -/

namespace TaskPool

/-- `const int num_workers = 3;` -/
def num_workers : Nat := 3

/-- `query_database` (the two-second sleep has no effect on the value). -/
def query_database (query_id : Int) : String := "Result of query " ++ to_string query_id

/-- A `std::packaged_task<std::string()>`: the outcome of its bound callable and the identity
of its shared state (the future obtained from it). -/
structure Task where
  id : Nat
  fn : Except Exn String

/-- Thread identities, for the owner of `task_q_mutex`. -/
inductive Tid where
  | main
  | worker (w : Nat)
  deriving DecidableEq, Repr

/-- Program counter of a worker thread (line numbers of 0x19). -/
inductive WPc where
  | notStarted  -- the `std::thread` has not been constructed yet
  | lock        -- l.27: `std::unique_lock<std::mutex> lock(task_q_mutex)`, waiting for the mutex
  | check       -- l.28: `wait(lock, pred)` evaluates `!task_q.empty()` holding the mutex
  | waiting     -- l.28: blocked inside the condition variable, mutex released
  | woken       -- l.28: unblocked, reacquiring the mutex inside `wait`
  | pop         -- l.31-32: `task = std::move(task_q.front()); task_q.pop_front();`
  | unlock      -- l.33: end of the scope of `lock`
  | run         -- l.38: `task();`
  | finished    -- the thread function has returned
  deriving DecidableEq, Repr

/-- A worker thread: program counter and its local `task` (`none`: default-constructed).
Worker `w` is the thread `workers[w]`, started as `worker_thread(w + 1)`; the function does not
use its `worker_id`. -/
structure Worker where
  pc : WPc
  task : Option Task

/-- Program counter of `main`. -/
inductive MPc where
  | spawnLoop   -- l.47-48
  | taskLoop    -- l.52-57: loop test, `packaged_task` construction, `get_future`
  | lock        -- l.60
  | push        -- l.61
  | unlock      -- l.62
  | notify      -- l.64
  | print       -- l.67
  | get         -- l.68
  | joinLoop    -- l.72-73
  | ret         -- l.76: `return 0;`
  deriving DecidableEq, Repr

/-- The program state. `i` is the loop variable of the loop `main` is in. `ub` records that
`front()`/`pop_front()` ran on an empty deque, `aborted` that an exception left a thread
(`std::terminate`). `pushed`, `popped`, `invoked`, `got` are history logs: the ids pushed by main,
the (worker, id) pairs popped, the (worker, id) pairs invoked, the (id, value) pairs `f.get()`
returned. -/
structure State where
  task_q : List Task
  task_q_mutex : Option Tid
  workers : Nat → Worker
  mainPc : MPc
  i : Nat
  shared : Nat → SharedState String
  out : List String
  ub : Bool
  aborted : Bool
  pushed : List Nat
  popped : List (Nat × Nat)
  invoked : List (Nat × Nat)
  got : List (Nat × String)

/-- State at the entry of `main`. -/
def init : State where
  task_q := []
  task_q_mutex := none
  workers := fun _ => ⟨WPc.notStarted, none⟩
  mainPc := MPc.spawnLoop
  i := 0
  shared := fun _ => SharedState.pending
  out := []
  ub := false
  aborted := false
  pushed := []
  popped := []
  invoked := []
  got := []

/-- Worker `w` moves to program counter `pc` with local task `t`. -/
def setWorker (s : State) (w : Nat) (pc : WPc) (t : Option Task) : State :=
  { s with workers := Function.update s.workers w ⟨pc, t⟩ }

/-- One step of `worker_thread` run by worker `w`; `none` when the worker cannot move. -/
def worker_thread (w : Nat) (s : State) : Option State :=
  match (s.workers w).pc with
  | WPc.notStarted => none
  | WPc.lock =>
    if s.task_q_mutex = none then
      some { setWorker s w WPc.check none with task_q_mutex := some (Tid.worker w) }
    else none
  | WPc.check =>
    if empty s.task_q then
      some { setWorker s w WPc.waiting none with task_q_mutex := none }
    else some (setWorker s w WPc.pop none)
  | WPc.waiting => none
  | WPc.woken =>
    if s.task_q_mutex = none then
      some { setWorker s w WPc.check none with task_q_mutex := some (Tid.worker w) }
    else none
  | WPc.pop =>
    match front s.task_q with
    | none => some { setWorker s w WPc.unlock none with ub := true }
    | some t =>
      some { setWorker s w WPc.unlock (some t) with
              task_q := pop_front s.task_q
              popped := s.popped ++ [(w, t.id)] }
  | WPc.unlock => some { setWorker s w WPc.run (s.workers w).task with task_q_mutex := none }
  | WPc.run =>
    match (s.workers w).task with
    | none => some { s with aborted := true }
    | some t =>
      match packaged_task_invoke (s.shared t.id) t.fn with
      | (sh, Except.ok _) =>
        some { setWorker s w WPc.lock none with
                shared := Function.update s.shared t.id sh
                invoked := s.invoked ++ [(w, t.id)] }
      | (_, Except.error _) => some { s with aborted := true }
  | WPc.finished => none

/-- No worker is blocked in the condition variable. -/
def noWaiter (s : State) : Bool :=
  (List.range num_workers).all (fun w => decide ((s.workers w).pc ≠ WPc.waiting))

/-- One step of `main`; `none` when main cannot move. At `notify` this is the `notify_one()` that
finds no waiting thread. -/
def main (s : State) : Option State :=
  match s.mainPc with
  | MPc.spawnLoop =>
    if s.i < num_workers then some { setWorker s s.i WPc.lock none with i := s.i + 1 }
    else some { s with mainPc := MPc.taskLoop, i := 1 }
  | MPc.taskLoop =>
    if s.i ≤ 5 then some { s with mainPc := MPc.lock }
    else some { s with mainPc := MPc.joinLoop, i := 0 }
  | MPc.lock =>
    if s.task_q_mutex = none then
      some { s with task_q_mutex := some Tid.main, mainPc := MPc.push }
    else none
  | MPc.push =>
    some { s with
            task_q := push_back s.task_q ⟨s.i, Except.ok (query_database s.i)⟩
            pushed := s.pushed ++ [s.i]
            mainPc := MPc.unlock }
  | MPc.unlock => some { s with task_q_mutex := none, mainPc := MPc.notify }
  | MPc.notify => if noWaiter s then some { s with mainPc := MPc.print } else none
  | MPc.print =>
    some { s with
            out := s.out ++ ["Main thread waiting for result of query " ++ to_string s.i]
            mainPc := MPc.get }
  | MPc.get =>
    match future_get (s.shared s.i) with
    | GetResult.blocked => none
    | GetResult.returned v =>
      some { s with
              out := s.out ++ ["Result: " ++ v]
              got := s.got ++ [(s.i, v)]
              i := s.i + 1
              mainPc := MPc.taskLoop }
    | GetResult.raised _ => some { s with aborted := true }
  | MPc.joinLoop =>
    if s.i < num_workers then
      if (s.workers s.i).pc = WPc.finished then some { s with i := s.i + 1 } else none
    else some { s with mainPc := MPc.ret }
  | MPc.ret => none

/-- One scheduling decision. -/
inductive Label where
  | main                  -- main executes its next statement
  | notifyOne (w : Nat)   -- main executes `notify_one()` and worker `w` is the thread unblocked
  | worker (w : Nat)      -- worker `w` executes its next statement
  | spurious (w : Nat)    -- worker `w` wakes up from the wait without a notification
  deriving DecidableEq, Repr

/-- The step function of the whole program. An aborted process takes no step. -/
def step (l : Label) (s : State) : Option State :=
  if s.aborted then none
  else
    match l with
    | Label.main => main s
    | Label.notifyOne w =>
      if s.mainPc = MPc.notify ∧ w < num_workers ∧ (s.workers w).pc = WPc.waiting then
        some { setWorker s w WPc.woken none with mainPc := MPc.print }
      else none
    | Label.worker w => worker_thread w s
    | Label.spurious w =>
      if (s.workers w).pc = WPc.waiting then some (setWorker s w WPc.woken none) else none

/-- Runs a schedule from a state; `none` when some step of it is not enabled. -/
def run : List Label → State → Option State
  | [], s => some s
  | l :: ls, s =>
    match step l s with
    | none => none
    | some s1 => run ls s1

/-- States reachable from the entry of `main` under some interleaving. -/
inductive Reachable : State → Prop where
  | init : Reachable init
  | step (l : Label) (s s1 : State) : Reachable s → step l s = some s1 → Reachable s1

/-- Stores the outcome of a callable in a shared state (the effect of a first invocation). -/
def resolveWith {α : Type} (fn : Except Exn α) : SharedState α :=
  match fn with
  | Except.ok v => SharedState.ready v
  | Except.error e => SharedState.failed e

/-- The steps that move worker `w`, one constructor per enabled statement of `worker_thread`
(and the two ways out of the wait): the relational reading of `step`, used to reason by cases. -/
inductive WStep (w : Nat) : State → State → Prop where
  | lock (s : State) : s.aborted = false → (s.workers w).pc = WPc.lock →
      s.task_q_mutex = none →
      WStep w s { setWorker s w WPc.check none with task_q_mutex := some (Tid.worker w) }
  | wait (s : State) : s.aborted = false → (s.workers w).pc = WPc.check →
      s.task_q = [] →
      WStep w s { setWorker s w WPc.waiting none with task_q_mutex := none }
  | go (s : State) : s.aborted = false → (s.workers w).pc = WPc.check →
      s.task_q ≠ [] → WStep w s (setWorker s w WPc.pop none)
  | woken (s : State) : s.aborted = false → (s.workers w).pc = WPc.woken →
      s.task_q_mutex = none →
      WStep w s { setWorker s w WPc.check none with task_q_mutex := some (Tid.worker w) }
  | pop_ub (s : State) : s.aborted = false → (s.workers w).pc = WPc.pop →
      s.task_q = [] → WStep w s { setWorker s w WPc.unlock none with ub := true }
  | pop (s : State) (t : Task) (q : List Task) : s.aborted = false →
      (s.workers w).pc = WPc.pop → s.task_q = t :: q →
      WStep w s { setWorker s w WPc.unlock (some t) with
                task_q := q
                popped := s.popped ++ [(w, t.id)] }
  | unlock (s : State) : s.aborted = false → (s.workers w).pc = WPc.unlock →
      WStep w s { setWorker s w WPc.run (s.workers w).task with task_q_mutex := none }
  | run_nostate (s : State) : s.aborted = false → (s.workers w).pc = WPc.run →
      (s.workers w).task = none → WStep w s { s with aborted := true }
  | run (s : State) (t : Task) : s.aborted = false → (s.workers w).pc = WPc.run →
      (s.workers w).task = some t → s.shared t.id = SharedState.pending →
      WStep w s { setWorker s w WPc.lock none with
                shared := Function.update s.shared t.id (resolveWith t.fn)
                invoked := s.invoked ++ [(w, t.id)] }
  | run_twice (s : State) (t : Task) : s.aborted = false →
      (s.workers w).pc = WPc.run → (s.workers w).task = some t →
      s.shared t.id ≠ SharedState.pending → WStep w s { s with aborted := true }
  | spurious (s : State) : s.aborted = false → (s.workers w).pc = WPc.waiting →
      WStep w s (setWorker s w WPc.woken none)
  | notify_one (s : State) : s.aborted = false → s.mainPc = MPc.notify →
      w < num_workers → (s.workers w).pc = WPc.waiting →
      WStep w s { setWorker s w WPc.woken none with mainPc := MPc.print }

/-- The steps of `main` that move no worker out of a wait, one constructor per enabled
statement. -/
inductive MStep : State → State → Prop where
  | spawn (s : State) : s.aborted = false → s.mainPc = MPc.spawnLoop → s.i < num_workers →
      MStep s { setWorker s s.i WPc.lock none with i := s.i + 1 }
  | spawn_done (s : State) : s.aborted = false → s.mainPc = MPc.spawnLoop →
      ¬ s.i < num_workers → MStep s { s with mainPc := MPc.taskLoop, i := 1 }
  | task (s : State) : s.aborted = false → s.mainPc = MPc.taskLoop → s.i ≤ 5 →
      MStep s { s with mainPc := MPc.lock }
  | task_done (s : State) : s.aborted = false → s.mainPc = MPc.taskLoop → ¬ s.i ≤ 5 →
      MStep s { s with mainPc := MPc.joinLoop, i := 0 }
  | lock (s : State) : s.aborted = false → s.mainPc = MPc.lock → s.task_q_mutex = none →
      MStep s { s with task_q_mutex := some Tid.main, mainPc := MPc.push }
  | push (s : State) : s.aborted = false → s.mainPc = MPc.push →
      MStep s { s with
                task_q := push_back s.task_q ⟨s.i, Except.ok (query_database s.i)⟩
                pushed := s.pushed ++ [s.i]
                mainPc := MPc.unlock }
  | unlock (s : State) : s.aborted = false → s.mainPc = MPc.unlock →
      MStep s { s with task_q_mutex := none, mainPc := MPc.notify }
  | notify_none (s : State) : s.aborted = false → s.mainPc = MPc.notify →
      noWaiter s = true → MStep s { s with mainPc := MPc.print }
  | print (s : State) : s.aborted = false → s.mainPc = MPc.print →
      MStep s { s with
                out := s.out ++ ["Main thread waiting for result of query " ++ to_string s.i]
                mainPc := MPc.get }
  | get (s : State) (v : String) : s.aborted = false → s.mainPc = MPc.get →
      s.shared s.i = SharedState.ready v →
      MStep s { s with
                out := s.out ++ ["Result: " ++ v]
                got := s.got ++ [(s.i, v)]
                i := s.i + 1
                mainPc := MPc.taskLoop }
  | get_raise (s : State) (e : Exn) : s.aborted = false → s.mainPc = MPc.get →
      s.shared s.i = SharedState.failed e → MStep s { s with aborted := true }
  | join (s : State) : s.aborted = false → s.mainPc = MPc.joinLoop → s.i < num_workers →
      (s.workers s.i).pc = WPc.finished → MStep s { s with i := s.i + 1 }
  | join_done (s : State) : s.aborted = false → s.mainPc = MPc.joinLoop →
      ¬ s.i < num_workers → MStep s { s with mainPc := MPc.ret }

/-- Worker program counters inside the critical section (mutex held). -/
def WPc.holdsLock (pc : WPc) : Prop := pc = WPc.check ∨ pc = WPc.pop ∨ pc = WPc.unlock

/-- Program counters of main between `lock_guard` construction and the end of its scope. -/
def MPc.holdsLock (pc : MPc) : Prop := pc = MPc.push ∨ pc = MPc.unlock

/-- Mutual exclusion: `task_q_mutex` is owned by a thread exactly when that thread is inside its
critical section. -/
def MutexInv (s : State) : Prop :=
  (∀ w, s.task_q_mutex = some (Tid.worker w) ↔ (s.workers w).pc.holdsLock) ∧
  (s.task_q_mutex = some Tid.main ↔ s.mainPc.holdsLock)

/-- Number of worker threads main has constructed so far. -/
def spawnedCount (s : State) : Nat := if s.mainPc = MPc.spawnLoop then s.i else num_workers

/-- Thread lifecycle: exactly the workers main has constructed have started, at most
`num_workers` of them, and no worker has returned from `worker_thread`. -/
def SpawnInv (s : State) : Prop :=
  (∀ w, (s.workers w).pc = WPc.notStarted ↔ spawnedCount s ≤ w) ∧
  spawnedCount s ≤ num_workers ∧
  (∀ w, (s.workers w).pc ≠ WPc.finished)

/-- A worker that has passed the wait finds the queue non-empty and has never executed
`front()`/`pop_front()` on an empty deque. -/
def PopInv (s : State) : Prop :=
  (∀ w, (s.workers w).pc = WPc.pop → s.task_q ≠ []) ∧ s.ub = false

/-- Main's loop variable and the ids it has pushed so far: the `i`-th iteration pushes id `i`. -/
def IdxInv (s : State) : Prop :=
  match s.mainPc with
  | MPc.spawnLoop => s.pushed = []
  | MPc.taskLoop => 1 ≤ s.i ∧ s.i ≤ 6 ∧ s.pushed = List.range' 1 (s.i - 1)
  | MPc.lock => 1 ≤ s.i ∧ s.i ≤ 5 ∧ s.pushed = List.range' 1 (s.i - 1)
  | MPc.push => 1 ≤ s.i ∧ s.i ≤ 5 ∧ s.pushed = List.range' 1 (s.i - 1)
  | MPc.unlock => 1 ≤ s.i ∧ s.i ≤ 5 ∧ s.pushed = List.range' 1 s.i
  | MPc.notify => 1 ≤ s.i ∧ s.i ≤ 5 ∧ s.pushed = List.range' 1 s.i
  | MPc.print => 1 ≤ s.i ∧ s.i ≤ 5 ∧ s.pushed = List.range' 1 s.i
  | MPc.get => 1 ≤ s.i ∧ s.i ≤ 5 ∧ s.pushed = List.range' 1 s.i
  | MPc.joinLoop => s.pushed = List.range' 1 5
  | MPc.ret => s.pushed = List.range' 1 5

/-- Conservation and FIFO order: the ids popped so far followed by the ids still queued are the
ids pushed, in push order; every queued task is bound to `query_database` of its id. -/
def QueueInv (s : State) : Prop :=
  s.popped.map Prod.snd ++ s.task_q.map Task.id = s.pushed ∧
  ∀ t ∈ s.task_q, t.fn = Except.ok (query_database t.id)

/-- A worker's local `task` holds a packaged task exactly between popping it and invoking it. -/
def HoldInv (s : State) : Prop :=
  ∀ w, (s.workers w).task ≠ none ↔ ((s.workers w).pc = WPc.unlock ∨ (s.workers w).pc = WPc.run)

/-- Every task a worker holds was popped by that worker and is bound to `query_database` of its
id; every invocation was preceded by the pop of that task by the same worker. -/
def PoppedInv (s : State) : Prop :=
  (∀ w t, (s.workers w).task = some t →
    (w, t.id) ∈ s.popped ∧ t.fn = Except.ok (query_database t.id)) ∧
  (∀ x ∈ s.invoked, x ∈ s.popped)

/-- No task is invoked twice and no task is held by two workers: a task held by a worker has
not been invoked, two workers never hold tasks with the same id, and the invocation log has no
id twice. -/
def OnceInv (s : State) : Prop :=
  (∀ w t, (s.workers w).task = some t → t.id ∉ s.invoked.map Prod.snd) ∧
  (∀ w w1 t t1, (s.workers w).task = some t → (s.workers w1).task = some t1 →
    t.id = t1.id → w = w1) ∧
  (s.invoked.map Prod.snd).Nodup

/-- A resolved shared state belongs to an invoked task and holds `query_database` of its id. -/
def SharedInv (s : State) : Prop :=
  ∀ i, s.shared i ≠ SharedState.pending →
    i ∈ s.invoked.map Prod.snd ∧ s.shared i = SharedState.ready (query_database i)

/-- Every value `f.get()` has returned is the content of the shared state of that task. -/
def GotInv (s : State) : Prop :=
  ∀ x ∈ s.got, s.shared x.1 = SharedState.ready x.2

/-- One value per completed iteration of main's task loop, in iteration order. -/
def GotIdxInv (s : State) : Prop :=
  match s.mainPc with
  | MPc.spawnLoop => s.got = []
  | MPc.joinLoop => s.got.map Prod.fst = List.range' 1 5
  | MPc.ret => s.got.map Prod.fst = List.range' 1 5
  | _ => s.got.map Prod.fst = List.range' 1 (s.i - 1)

/-- Program counters of a worker that is running or only waiting for the mutex: started, not
returned, and not blocked inside the condition variable. -/
def WPc.awake (pc : WPc) : Prop :=
  pc = WPc.lock ∨ pc = WPc.check ∨ pc = WPc.woken ∨ pc = WPc.pop ∨ pc = WPc.unlock ∨ pc = WPc.run

/-- No lost wake-up: whenever the queue is non-empty, either main is still about to call
`notify_one()` for its push, or some worker is not blocked in the wait. -/
def WakeInv (s : State) : Prop :=
  s.task_q ≠ [] →
    (s.mainPc = MPc.unlock ∨ s.mainPc = MPc.notify) ∨
    ∃ w, w < num_workers ∧ (s.workers w).pc.awake

/-- The state a schedule leads to from `s`; `s` itself when the schedule is not executable. -/
def runD (ls : List Label) (s : State) : State := (run ls s).getD s

/-- A schedule in which worker 1 waits on the empty queue, wakes spuriously, waits again and is
notified after main's first push, while worker 0 passes the wait and stands before the pop. -/
def schedPop : List Label :=
  [Label.main, Label.main, Label.main, Label.main,
   Label.worker 1, Label.worker 1, Label.spurious 1, Label.worker 1, Label.worker 1,
   Label.main, Label.main, Label.main, Label.main, Label.notifyOne 1,
   Label.worker 0, Label.worker 0]

/-- A schedule in which worker 0 pops task 1 and stands before invoking it. -/
def schedHold : List Label := schedPop ++ [Label.worker 0, Label.worker 0]

/-- Main's part of one iteration up to the notification that wakes worker `w`, the work of `w`
on the task (re-check, pop, unlock, invoke, back to the wait), and main's `f.get()`. -/
def schedIter (w : Nat) : List Label :=
  [Label.main, Label.main, Label.main, Label.main, Label.notifyOne w, Label.main,
   Label.worker w, Label.worker w, Label.worker w, Label.worker w, Label.worker w,
   Label.worker w, Label.worker w, Label.main]

/-- A complete schedule: main starts the three workers, all three block on the empty queue, the
five tasks are served by workers 0, 1, 2, 0, 1, and main leaves the task loop. -/
def schedAll : List Label :=
  [Label.main, Label.main, Label.main, Label.main,
   Label.worker 0, Label.worker 0, Label.worker 1, Label.worker 1, Label.worker 2,
   Label.worker 2] ++
  schedIter 0 ++ schedIter 1 ++ schedIter 2 ++ schedIter 0 ++ schedIter 1 ++ [Label.main]

/-- The five results main prints. -/
def expectedGot : List (Nat × String) :=
  [(1, "Result of query 1"), (2, "Result of query 2"), (3, "Result of query 3"),
   (4, "Result of query 4"), (5, "Result of query 5")]

/-- Main never gets past the first `join()` and never reaches `return 0`. -/
def JoinInv (s : State) : Prop :=
  (s.mainPc = MPc.joinLoop → s.i = 0) ∧ s.mainPc ≠ MPc.ret

/-- One turn of worker `w` through its loop body: lock, predicate check, pop, unlock, invoke. -/
def workerTurn (w : Nat) : List Label := List.replicate 5 (Label.worker w)

/-- `n` consecutive turns of worker `w`. -/
def drainSched (w : Nat) : Nat → List Label
  | 0 => []
  | n + 1 => workerTurn w ++ drainSched w n

/-- A state in which worker 0 is about to invoke task 7, whose callable throws. -/
def failingState : State :=
  { init with
    workers := Function.update init.workers 0
      ⟨WPc.run, some ⟨7, Except.error (Exn.runtime_error "query failed")⟩⟩ }

/-- A state in which worker 0 is at the head of its loop and two tasks are queued: task 8,
whose callable throws, and task 9, whose callable returns. -/
def queuedState : State :=
  { init with
    workers := Function.update init.workers 0 ⟨WPc.lock, none⟩
    task_q := [⟨8, Except.error (Exn.runtime_error "query failed")⟩, ⟨9, Except.ok "fine"⟩] }

/-- What a schedule that removes the head of the queue achieves from `s`: it is executable, has
no spurious wake-up in it, and one more task has been popped. -/
def Removes (s : State) (ls : List Label) : Prop :=
  (∀ l ∈ ls, ∀ w, l ≠ Label.spurious w) ∧
  ∃ s1, run ls s = some s1 ∧ s1.popped.length = s.popped.length + 1

/-- A schedule after which all three workers are blocked in the wait and main, having pushed
task 1 and released the mutex, is about to call `notify_one()`. -/
def schedNotify : List Label :=
  [Label.main, Label.main, Label.main, Label.main,
   Label.worker 0, Label.worker 0, Label.worker 1, Label.worker 1, Label.worker 2,
   Label.worker 2, Label.main, Label.main, Label.main, Label.main]

/-- A schedule up to a push made while workers 1 and 2 are blocked in the wait and worker 0 is
not: worker 0 serves task 1 (workers 1 and 2 find the queue empty and block meanwhile), main
reads the result, pushes task 2, releases the mutex and is about to call `notify_one()`. -/
def schedStealPush : List Label :=
  [Label.main, Label.main, Label.main, Label.main,
   Label.main, Label.main, Label.main, Label.main, Label.main, Label.main,
   Label.worker 0, Label.worker 0, Label.worker 0, Label.worker 0,
   Label.worker 1, Label.worker 1, Label.worker 2, Label.worker 2,
   Label.worker 0, Label.main,
   Label.main, Label.main, Label.main, Label.main]

/-- The continuation of `schedStealPush`: `notify_one()` wakes worker 1, worker 0 takes the mutex
first and pops task 2, worker 1 then re-checks the predicate and blocks again. -/
def schedStealRest : List Label :=
  [Label.notifyOne 1, Label.worker 0, Label.worker 0, Label.worker 0, Label.worker 0,
   Label.worker 1, Label.worker 1]

/-- The shared state of an invoked task is resolved. -/
def InvokedInv (s : State) : Prop :=
  ∀ x ∈ s.invoked, s.shared x.2 ≠ SharedState.pending

/-- Every popped task has been invoked or is still held by the worker that popped it. -/
def PoppedHeldInv (s : State) : Prop :=
  ∀ x ∈ s.popped, x ∈ s.invoked ∨ ∃ t, (s.workers x.1).task = some t ∧ t.id = x.2

/-- Number of steps main still has to take before it reaches the join loop. -/
def mainRemaining (s : State) : Nat :=
  match s.mainPc with
  | MPc.spawnLoop => 40 - s.i
  | MPc.taskLoop => (6 - s.i) * 7 + 1
  | MPc.lock => (5 - s.i) * 7 + 7
  | MPc.push => (5 - s.i) * 7 + 6
  | MPc.unlock => (5 - s.i) * 7 + 5
  | MPc.notify => (5 - s.i) * 7 + 4
  | MPc.print => (5 - s.i) * 7 + 3
  | MPc.get => (5 - s.i) * 7 + 2
  | MPc.joinLoop => 0
  | MPc.ret => 0

/-- Number of steps a worker needs from its program counter to the end of an invocation. -/
def WPc.weight : WPc → Nat
  | WPc.run => 1
  | WPc.unlock => 2
  | WPc.pop => 3
  | WPc.check => 4
  | WPc.lock => 5
  | WPc.woken => 5
  | _ => 0

/-- Sum of the weights of the three workers. -/
def workDist (s : State) : Nat :=
  (s.workers 0).pc.weight + (s.workers 1).pc.weight + (s.workers 2).pc.weight

/-- Termination measure of the progress argument: main's remaining steps, then the tasks not
yet invoked, then the distance of the workers to their next invocation. -/
def progressMeasure (s : State) : Nat :=
  mainRemaining s * 100 + (5 - s.invoked.length) * 16 + workDist s

/-- What a progress step achieves: a step that is not a spurious wake-up and decreases the
measure. -/
def Progress (s : State) : Prop :=
  ∃ l s1, (∀ w, l ≠ Label.spurious w) ∧ step l s = some s1 ∧
    progressMeasure s1 < progressMeasure s

/-- A schedule that stops while main is blocked in `f.get()` on task 2: task 1 has been served by
worker 0, task 2 is queued and worker 1 has been notified. -/
def schedMid : List Label :=
  [Label.main, Label.main, Label.main, Label.main,
   Label.worker 0, Label.worker 0, Label.worker 1, Label.worker 1, Label.worker 2,
   Label.worker 2] ++
  schedIter 0 ++ [Label.main, Label.main, Label.main, Label.main, Label.notifyOne 1, Label.main]

end TaskPool

/-! ## 0x13-condition_variables.cpp : producer `function1`, consumer `function2` -/

namespace ProducerConsumer

/-- `std::deque<T>::push_front`. -/
def push_front {α : Type} (q : List α) (x : α) : List α := x :: q

/-- `std::deque<T>::back`: the last element; undefined on an empty deque (`none`). -/
def back {α : Type} (q : List α) : Option α := q.getLast?

/-- `std::deque<T>::pop_back`: drop the last element. -/
def pop_back {α : Type} (q : List α) : List α := q.dropLast

/-- The two threads that lock `mtx`. -/
inductive Tid where
  | producer
  | consumer
  deriving DecidableEq, Repr

/-- Program counter of `function1` (line numbers of 0x13). -/
inductive PPc where
  | notStarted
  | loopTest    -- l.14: `while (count > 0)`
  | lock        -- l.15: `std::unique_lock<std::mutex> lock(mtx)`
  | push        -- l.16: `buffer.push_front(count)`
  | unlock      -- l.17: `lock.unlock()`
  | notify      -- l.19: `condition_var.notify_one()`
  | sleep       -- l.21-22: `sleep_for(1s); count--;`
  | finished
  deriving DecidableEq, Repr

/-- Program counter of `function2`. -/
inductive CPc where
  | notStarted
  | loopTest    -- l.47: `while (data != 1)`
  | lock        -- l.49: `std::unique_lock<std::mutex> lock(mtx)`
  | check       -- l.58: `wait(lock, pred)` evaluates `!buffer.empty()` holding the mutex
  | waiting     -- l.58: blocked inside the condition variable, mutex released
  | woken       -- l.58: unblocked, reacquiring the mutex inside `wait`
  | pop         -- l.61-62: `data = buffer.back(); buffer.pop_back();`
  | unlock      -- l.63: `lock.unlock()`
  | print       -- l.64
  | finished
  deriving DecidableEq, Repr

/-- Program counter of `main`. -/
inductive MPc where
  | spawn1      -- l.85: `std::thread t1(function1)`
  | spawn2      -- l.86: `std::thread t2(function2)`
  | join1       -- l.87
  | join2       -- l.88
  | ret         -- l.89
  deriving DecidableEq, Repr

/-- The program state; `ub` records that `back()`/`pop_back()` ran on an empty deque. -/
structure State where
  buffer : List Int
  mtx : Option Tid
  ppc : PPc
  count : Int
  cpc : CPc
  data : Int
  mainPc : MPc
  out : List String
  ub : Bool

/-- State at the entry of `main`. -/
def init : State where
  buffer := []
  mtx := none
  ppc := PPc.notStarted
  count := 0
  cpc := CPc.notStarted
  data := 0
  mainPc := MPc.spawn1
  out := []
  ub := false

/-- One step of the producer `function1`; `none` when it cannot move. Its `notify_one()` unblocks
the consumer when the consumer is blocked in the wait. -/
def function1 (s : State) : Option State :=
  match s.ppc with
  | PPc.notStarted => none
  | PPc.loopTest =>
    if s.count > 0 then some { s with ppc := PPc.lock } else some { s with ppc := PPc.finished }
  | PPc.lock =>
    if s.mtx = none then some { s with mtx := some Tid.producer, ppc := PPc.push } else none
  | PPc.push => some { s with buffer := push_front s.buffer s.count, ppc := PPc.unlock }
  | PPc.unlock => some { s with mtx := none, ppc := PPc.notify }
  | PPc.notify =>
    if s.cpc = CPc.waiting then some { s with cpc := CPc.woken, ppc := PPc.sleep }
    else some { s with ppc := PPc.sleep }
  | PPc.sleep => some { s with count := s.count - 1, ppc := PPc.loopTest }
  | PPc.finished => none

/-- One step of the consumer `function2`; `none` when it cannot move. -/
def function2 (s : State) : Option State :=
  match s.cpc with
  | CPc.notStarted => none
  | CPc.loopTest =>
    if s.data ≠ 1 then some { s with cpc := CPc.lock } else some { s with cpc := CPc.finished }
  | CPc.lock =>
    if s.mtx = none then some { s with mtx := some Tid.consumer, cpc := CPc.check } else none
  | CPc.check =>
    if empty s.buffer then some { s with mtx := none, cpc := CPc.waiting }
    else some { s with cpc := CPc.pop }
  | CPc.waiting => none
  | CPc.woken =>
    if s.mtx = none then some { s with mtx := some Tid.consumer, cpc := CPc.check } else none
  | CPc.pop =>
    match back s.buffer with
    | none => some { s with ub := true, cpc := CPc.unlock }
    | some x => some { s with data := x, buffer := pop_back s.buffer, cpc := CPc.unlock }
  | CPc.unlock => some { s with mtx := none, cpc := CPc.print }
  | CPc.print =>
    some { s with
            out := s.out ++ ["t2 got a value from t1: " ++ to_string s.data]
            cpc := CPc.loopTest }
  | CPc.finished => none

/-- One step of `main`; `none` when main cannot move. -/
def main (s : State) : Option State :=
  match s.mainPc with
  | MPc.spawn1 => some { s with ppc := PPc.loopTest, count := 10, mainPc := MPc.spawn2 }
  | MPc.spawn2 => some { s with cpc := CPc.loopTest, data := 0, mainPc := MPc.join1 }
  | MPc.join1 => if s.ppc = PPc.finished then some { s with mainPc := MPc.join2 } else none
  | MPc.join2 => if s.cpc = CPc.finished then some { s with mainPc := MPc.ret } else none
  | MPc.ret => none

/-- One scheduling decision. -/
inductive Label where
  | main
  | producer
  | consumer
  | spurious    -- the consumer wakes up from the wait without a notification
  deriving DecidableEq, Repr

/-- The step function of the whole program. -/
def step (l : Label) (s : State) : Option State :=
  match l with
  | Label.main => main s
  | Label.producer => function1 s
  | Label.consumer => function2 s
  | Label.spurious => if s.cpc = CPc.waiting then some { s with cpc := CPc.woken } else none

/-- Runs a schedule from a state; `none` when some step of it is not enabled. -/
def run : List Label → State → Option State
  | [], s => some s
  | l :: ls, s =>
    match step l s with
    | none => none
    | some s1 => run ls s1

/-- States reachable from the entry of `main` under some interleaving. -/
inductive Reachable : State → Prop where
  | init : Reachable init
  | step (l : Label) (s s1 : State) : Reachable s → step l s = some s1 → Reachable s1

/-- The state a schedule leads to from `s`; `s` itself when the schedule is not executable. -/
def runD (ls : List Label) (s : State) : State := (run ls s).getD s

/-- Thread start, mutual exclusion on `mtx`, the consumer before the pop sees a non-empty
buffer, and `back()`/`pop_back()` has not run on an empty deque. -/
def SafeInv (s : State) : Prop :=
  (s.mainPc = MPc.spawn1 → s.ppc = PPc.notStarted) ∧
  (s.mainPc = MPc.spawn1 ∨ s.mainPc = MPc.spawn2 → s.cpc = CPc.notStarted) ∧
  (s.mtx = some Tid.producer ↔ (s.ppc = PPc.push ∨ s.ppc = PPc.unlock)) ∧
  (s.mtx = some Tid.consumer ↔ (s.cpc = CPc.check ∨ s.cpc = CPc.pop ∨ s.cpc = CPc.unlock)) ∧
  (s.cpc = CPc.pop → s.buffer ≠ []) ∧ s.ub = false

/-- A schedule in which the consumer waits on the empty buffer, wakes spuriously, waits again, is
notified after the producer's first push, and stands before the pop. -/
def schedPop : List Label :=
  [Label.main, Label.main, Label.consumer, Label.consumer, Label.consumer,
   Label.spurious, Label.consumer, Label.consumer,
   Label.producer, Label.producer, Label.producer, Label.producer, Label.producer,
   Label.consumer, Label.consumer]

end ProducerConsumer

/-! ## 0x14-future_async_promise/0x01-example.cpp and 0x02-example.cpp -/

namespace FuturePromise

/-- `INT_MIN` of a 32-bit `int`. -/
def INT_MIN : Int := -2147483648

/-- `INT_MAX` of a 32-bit `int`. -/
def INT_MAX : Int := 2147483647

/-- The value is representable in `int`. -/
def inInt (x : Int) : Bool := decide (INT_MIN ≤ x ∧ x ≤ INT_MAX)

/-- The loop `for (int i = 1; i <= n; i++) res *= i;` started with the given `i` and `res`.
`none`: a signed overflow (undefined behaviour), or the fuel ran out. -/
def factorialLoop : Nat → Int → Int → Int → Option Int
  | 0, _, _, _ => none
  | fuel + 1, n, i, res =>
    if i ≤ n then
      if inInt (res * i) && inInt (i + 1) then factorialLoop fuel n (i + 1) (res * i) else none
    else some res

/-- `int factorial(std::future<int>& f)`: what the call does (blocked in `f.get()`, returned the
factorial, or left by the exception `f.get()` rethrew) and the lines it printed. `none`: the
loop overflowed `int`. -/
def factorial (f : SharedState Int) : Option (GetResult Int × List String) :=
  match future_get f with
  | GetResult.blocked => some (GetResult.blocked, [])
  | GetResult.raised e => some (GetResult.raised e, [])
  | GetResult.returned n =>
    match factorialLoop (n.toNat + 1) n 1 1 with
    | none => none
    | some res => some (GetResult.returned res, ["The result is: " ++ to_string res])

/-- The shared state of the future returned by `std::async(std::launch::async, fn, ...)` once the
thread running `fn` has done `r`. -/
def async_state (r : GetResult Int) : SharedState Int :=
  match r with
  | GetResult.blocked => SharedState.pending
  | GetResult.returned v => SharedState.ready v
  | GetResult.raised e => SharedState.failed e

/-- What one run of an example leaves behind: the shared state of `prom`/`f`, what the child's
`factorial` did, the shared state of `fut`, what main's `fut.get()` did (`none` when main does not
call it), and the lines printed. -/
structure Trace where
  prom : SharedState Int
  child : GetResult Int
  fut : SharedState Int
  res : Option (GetResult Int)
  out : List String
  deriving DecidableEq, Repr

namespace Ex01

/-- `main` of 0x01-example.cpp: the promise is kept with `prom.set_value(4)`, then `fut.get()`.
Until `set_value` the child is blocked in `f.get()`. -/
def main : Option Trace :=
  let prom := (promise_set_value (SharedState.pending : SharedState Int) 4).1
  match factorial prom with
  | none => none
  | some (child, out) =>
    let fut := async_state child
    match future_get fut with
    | GetResult.returned res =>
      some ⟨prom, child, fut, some (GetResult.returned res),
        out ++ ["Factorial of 4 is " ++ to_string res]⟩
    | r => some ⟨prom, child, fut, some r, out⟩

end Ex01

namespace Ex02

/-- `main` of 0x02-example.cpp: the promise is resolved with
`prom.set_exception(std::make_exception_ptr(std::runtime_error("Promise broken")))`; main does not
read `fut`. -/
def main : Option Trace :=
  let prom := (promise_set_exception (SharedState.pending : SharedState Int)
    (Exn.runtime_error "Promise broken")).1
  match factorial prom with
  | none => none
  | some (child, out) => some ⟨prom, child, async_state child, none, out⟩

end Ex02

end FuturePromise

namespace TaskPool

/-- Number of locks thread `t` holds: `task_q_mutex` is the only mutex the program declares. -/
def locksHeld (s : State) (t : Tid) : Nat := if s.task_q_mutex = some t then 1 else 0

end TaskPool

/-! ## 0x18-packaged_task.cpp and 0x14-future_async_promise/0x00-example.cpp : `factorial` -/

namespace PackagedTask

/-- `int factorial(int n)` of 0x18-packaged_task.cpp: `result` starts at 1 and is multiplied by
`i = 1, ..., n`. `none`: a product or the increment of `i` leaves the range of `int` (undefined
behaviour). The fuel `n + 1` covers the at most `n` iterations and the final loop test. -/
def factorial (n : Int) : Option Int := FuturePromise.factorialLoop (n.toNat + 1) n 1 1

/-- `main` of 0x18-packaged_task.cpp, with `thread1`: the task bound to `factorial(4)` is pushed,
`thread1` takes it from the front of the queue and invokes it, and main prints `f.get()`.
`none`: undefined behaviour, or `f.get()` does not return a value. -/
def main : Option (List String) :=
  match factorial 4 with
  | none => none
  | some r =>
    let task_q : List (Except Exn Int) := push_back [] (Except.ok r)
    match front task_q with
    | none => none
    | some t =>
      match future_get (packaged_task_invoke SharedState.pending t).1 with
      | GetResult.returned v => some [to_string v]
      | _ => none

end PackagedTask

namespace FuturePromise

namespace Ex00

/-- `int factorial(int n)` of 0x00-example.cpp: the value returned and the line printed.
`none`: the loop overflowed `int`. -/
def factorial (n : Int) : Option (Int × List String) :=
  match factorialLoop (n.toNat + 1) n 1 1 with
  | none => none
  | some res => some (res, ["The result is: " ++ to_string res])

/-- `main` of 0x00-example.cpp: `fut.get()` is the value `factorial(4)` returned in the other
thread; the value read and the lines printed. -/
def main : Option (Int × List String) :=
  match factorial 4 with
  | none => none
  | some (res, out) => some (res, out ++ ["Factorial of 4 is " ++ to_string res])

end Ex00

end FuturePromise

/-! ## 0x14-future_async_promise/0x03-example.cpp : one promise, three readers of a
`shared_future` -/

/-- `std::shared_future<T>::get`: what the call does, and the shared state afterwards. It blocks
while the shared state is pending, and otherwise returns the stored value or rethrows the stored
exception; the shared state stays as it is, for this and every other copy of the handle. -/
def shared_future_get {α : Type} (s : SharedState α) : GetResult α × SharedState α :=
  (future_get s, s)

/-- The results of `k` successive calls of `get()` on copies of a shared future, and the shared
state after them. -/
def readTimes {α : Type} : Nat → SharedState α → List (GetResult α) × SharedState α
  | 0, s => ([], s)
  | k + 1, s =>
    let r := shared_future_get s
    let rest := readTimes k r.2
    (r.1 :: rest.1, rest.2)

namespace FuturePromise

namespace Ex03

/-- Program counter of a thread running `int factorial(std::shared_future<int> f)`. -/
inductive CPc where
  | notStarted
  | get         -- l.12: `int n = f.get();`
  | loop        -- l.13-17: the loop, the output line and `return res`
  | finished
  deriving DecidableEq, Repr

/-- A child thread: program counter, the value `f.get()` returned, the value `factorial`
returned. -/
structure Child where
  pc : CPc
  n : Option Int
  res : Option Int
  deriving DecidableEq, Repr

/-- Program counter of `main`. -/
inductive MPc where
  | spawn       -- l.24-26: the three `std::async(std::launch::async, factorial, shared_fut)`
  | setValue    -- l.36: `prom.set_value(4)`
  | dtor        -- l.41: `return 0` destroys `fut3`, `fut2`, `fut`, each waiting for its thread
  | ret
  deriving DecidableEq, Repr

/-- The program state: the shared state of `prom` (shared by `f`, `shared_fut` and its copies),
the child threads, main's program counter and counter `i` (threads started, respectively futures
still to destroy). `reads` logs every value a `get()` returned, with the reader; `ub` records an
`int` overflow in a loop, `aborted` an exception leaving main. -/
structure State where
  prom : SharedState Int
  children : Nat → Child
  mainPc : MPc
  i : Nat
  out : List String
  reads : List (Nat × Int)
  ub : Bool
  aborted : Bool

/-- State at the entry of `main`, after the lines 21-23. -/
def init : State where
  prom := SharedState.pending
  children := fun _ => ⟨CPc.notStarted, none, none⟩
  mainPc := MPc.spawn
  i := 0
  out := []
  reads := []
  ub := false
  aborted := false

/-- One step of child `c`; `none` when it cannot move (not started, finished, or blocked in
`f.get()`). An exception rethrown by `f.get()` ends `factorial` without a value. -/
def factorial (c : Nat) (s : State) : Option State :=
  match (s.children c).pc with
  | CPc.notStarted => none
  | CPc.get =>
    match shared_future_get s.prom with
    | (GetResult.blocked, _) => none
    | (GetResult.returned v, sh) =>
      some { s with
              prom := sh
              children := Function.update s.children c ⟨CPc.loop, some v, none⟩
              reads := s.reads ++ [(c, v)] }
    | (GetResult.raised _, sh) =>
      some { s with
              prom := sh
              children := Function.update s.children c ⟨CPc.finished, none, none⟩ }
  | CPc.loop =>
    match (s.children c).n with
    | none => some { s with ub := true }
    | some n =>
      match factorialLoop (n.toNat + 1) n 1 1 with
      | none =>
        some { s with
                ub := true
                children := Function.update s.children c ⟨CPc.finished, some n, none⟩ }
      | some res =>
        some { s with
                out := s.out ++ ["The result is: " ++ to_string res]
                children := Function.update s.children c ⟨CPc.finished, some n, some res⟩ }
  | CPc.finished => none

/-- One step of `main`; `none` when main cannot move. -/
def main (s : State) : Option State :=
  match s.mainPc with
  | MPc.spawn =>
    if s.i < 3 then
      some { s with
              children := Function.update s.children s.i ⟨CPc.get, none, none⟩
              i := s.i + 1 }
    else some { s with mainPc := MPc.setValue }
  | MPc.setValue =>
    match promise_set_value s.prom 4 with
    | (sh, Except.ok _) => some { s with prom := sh, mainPc := MPc.dtor, i := 3 }
    | (_, Except.error _) => some { s with aborted := true }
  | MPc.dtor =>
    if 0 < s.i then
      if (s.children (s.i - 1)).pc = CPc.finished then some { s with i := s.i - 1 } else none
    else some { s with mainPc := MPc.ret }
  | MPc.ret => none

/-- One scheduling decision. -/
inductive Label where
  | main
  | child (c : Nat)
  deriving DecidableEq, Repr

/-- The step function of the whole program. An aborted process takes no step. -/
def step (l : Label) (s : State) : Option State :=
  if s.aborted then none
  else
    match l with
    | Label.main => main s
    | Label.child c => factorial c s

/-- Runs a schedule from a state; `none` when some step of it is not enabled. -/
def run : List Label → State → Option State
  | [], s => some s
  | l :: ls, s =>
    match step l s with
    | none => none
    | some s1 => run ls s1

/-- States reachable from the entry of `main` under some interleaving. -/
inductive Reachable : State → Prop where
  | init : Reachable init
  | step (l : Label) (s s1 : State) : Reachable s → step l s = some s1 → Reachable s1

/-- The state a schedule leads to from `s`; `s` itself when the schedule is not executable. -/
def runD (ls : List Label) (s : State) : State := (run ls s).getD s

/-- What holds in every reachable state: the promise is pending until main has executed
`set_value(4)` and holds 4 from then on; every value read is 4; a child in its loop has read 4; a
child that has finished has read 4 and returned 24; no loop has overflowed and no exception has
left main. -/
def ReadInv (s : State) : Prop :=
  ((s.mainPc = MPc.spawn ∨ s.mainPc = MPc.setValue) → s.prom = SharedState.pending) ∧
  ((s.mainPc = MPc.dtor ∨ s.mainPc = MPc.ret) → s.prom = SharedState.ready 4) ∧
  (∀ x ∈ s.reads, x.2 = 4) ∧
  (∀ c, (s.children c).pc = CPc.loop → (s.children c).n = some 4) ∧
  (∀ c, (s.children c).pc = CPc.finished →
    (s.children c).n = some 4 ∧ (s.children c).res = some 24) ∧
  s.ub = false ∧ s.aborted = false

/-- Statements child thread `c` still has to execute. -/
def CPc.remaining : CPc → Nat
  | CPc.notStarted => 2
  | CPc.get => 2
  | CPc.loop => 1
  | CPc.finished => 0

/-- Steps the program still has to take until main has returned. -/
def remaining (s : State) : Nat :=
  (match s.mainPc with
    | MPc.spawn => (3 - s.i) + 6
    | MPc.setValue => 5
    | MPc.dtor => s.i + 1
    | MPc.ret => 0) +
  ((s.children 0).pc.remaining + (s.children 1).pc.remaining + (s.children 2).pc.remaining)

/-- Which threads exist at which point of `main`: while main starts them and until it keeps the
promise, the started children are blocked in `f.get()`; a future is destroyed only when its
thread has finished. -/
def LiveInv (s : State) : Prop :=
  (s.mainPc = MPc.spawn → s.i ≤ 3 ∧ (∀ c, c < s.i → (s.children c).pc = CPc.get) ∧
    (∀ c, s.i ≤ c → (s.children c).pc = CPc.notStarted)) ∧
  (s.mainPc = MPc.setValue → ∀ c, c < 3 → (s.children c).pc = CPc.get) ∧
  (s.mainPc = MPc.dtor → s.i ≤ 3 ∧ (∀ c, c < 3 → (s.children c).pc ≠ CPc.notStarted) ∧
    (∀ c, s.i ≤ c → c < 3 → (s.children c).pc = CPc.finished)) ∧
  (s.mainPc = MPc.ret → ∀ c, c < 3 → (s.children c).pc = CPc.finished)

/-- The program has run to its end: main has returned and the three threads have finished. -/
def Completed (s : State) : Prop :=
  s.mainPc = MPc.ret ∧ ∀ c, c < 3 → (s.children c).pc = CPc.finished

/-- A schedule in which the three children block in `f.get()` before the promise is kept, then
read and finish in the order 2, 0, 1, and main returns. -/
def schedAll : List Label :=
  [Label.main, Label.main, Label.main, Label.main, Label.main,
   Label.child 2, Label.child 0, Label.child 2, Label.child 1, Label.child 0, Label.child 1,
   Label.main, Label.main, Label.main, Label.main]

/-- A schedule that stops when child 2 has read and the other two have not. -/
def schedOneRead : List Label :=
  [Label.main, Label.main, Label.main, Label.main, Label.main, Label.child 2]

end Ex03

end FuturePromise

/-! ## 0x07-concurrency/0x04-thread.cpp : ThreadRAII -/

/-- The exceptions of `<stdexcept>`, `<new>` and `<system_error>` that the thread wrapper and the
container examples can meet. -/
inductive StdException where
  | logic_error (what : String)
  | out_of_range (what : String)
  | system_error
  | bad_alloc
  deriving DecidableEq, Repr

/-- `std::exception::what()`; the text of `system_error` and `bad_alloc` is chosen by the
library. -/
def StdException.what : StdException → String
  | StdException.logic_error w => w
  | StdException.out_of_range w => w
  | StdException.system_error => "std::system_error"
  | StdException.bad_alloc => "std::bad_alloc"

/-- How an operation fails: it throws, or its behaviour is undefined. -/
inductive Fault where
  | thrown (e : StdException)
  | undefined
  deriving DecidableEq, Repr

namespace ThreadWrapper

/-- `enum class DtorAction { join, detach };` -/
inductive DtorAction where
  | join
  | detach
  deriving DecidableEq, Repr

/-- A `std::thread` object: the thread of execution it represents, if any. -/
structure Thread where
  id : Option Nat
  deriving DecidableEq, Repr

/-- What happens to threads of execution: a `join()` returned after the thread finished, a
`detach()` let it run on its own, or `std::terminate` was called. -/
inductive Event where
  | joined (id : Nat)
  | detached (id : Nat)
  | terminate
  deriving DecidableEq, Repr

/-- `std::thread::joinable()`. -/
def Thread.joinable (t : Thread) : Bool := t.id.isSome

/-- `std::thread(std::move(t))`: the new object and what is left of `t`. -/
def Thread.move (t : Thread) : Thread × Thread := (t, ⟨none⟩)

/-- `std::thread::join()` called by the thread `caller` (`std::this_thread::get_id()`): waits for
the thread to finish; throws `std::system_error` on an object that is not joinable
(`invalid_argument`) and when the thread to join is the calling thread itself
(`resource_deadlock_would_occur`). -/
def Thread.join (caller : Nat) (t : Thread) : Except StdException (Thread × List Event) :=
  match t.id with
  | some i =>
    if i = caller then Except.error StdException.system_error
    else Except.ok (⟨none⟩, [Event.joined i])
  | none => Except.error StdException.system_error

/-- `std::thread::detach()`: lets the thread run on its own; throws `std::system_error` on an
object that is not joinable. -/
def Thread.detach (t : Thread) : Except StdException (Thread × List Event) :=
  match t.id with
  | some i => Except.ok (⟨none⟩, [Event.detached i])
  | none => Except.error StdException.system_error

/-- `std::thread::~thread()`: calls `std::terminate` when the object is still joinable. -/
def Thread.dtor (t : Thread) : List Event := if t.joinable then [Event.terminate] else []

/-- The data members of `class ThreadRAII`. -/
structure ThreadRAII where
  t_ : Thread
  action_ : DtorAction
  deriving DecidableEq, Repr

/-- `ThreadRAII(std::thread t, DtorAction action)`, l.9-14. -/
def ThreadRAII.ctor (t : Thread) (action : DtorAction) : Except StdException ThreadRAII :=
  let self : ThreadRAII := { t_ := (Thread.move t).1, action_ := action }
  if !self.t_.joinable then Except.error (StdException.logic_error "No thread to manage")
  else Except.ok self

/-- Body of `~ThreadRAII()`, l.17-25, run by the thread `caller`: the object afterwards and what
happened. The destructor is `noexcept` and has no handler, so an exception of `join()` or
`detach()` leaves it and calls `std::terminate`. -/
def ThreadRAII.dtor (caller : Nat) (self : ThreadRAII) : ThreadRAII × List Event :=
  if self.t_.joinable then
    if self.action_ = DtorAction.join then
      match self.t_.join caller with
      | Except.ok (t, ev) => ({ self with t_ := t }, ev)
      | Except.error _ => (self, [Event.terminate])
    else
      match self.t_.detach with
      | Except.ok (t, ev) => ({ self with t_ := t }, ev)
      | Except.error _ => (self, [Event.terminate])
  else (self, [])

/-- Destruction of a `ThreadRAII` by the thread `caller`: the destructor body, then, unless the
program was terminated, the destructor of the member `t_`. -/
def ThreadRAII.destroy (caller : Nat) (self : ThreadRAII) : List Event :=
  let r := self.dtor caller
  if Event.terminate ∈ r.2 then r.2 else r.2 ++ r.1.t_.dtor

/-- `ThreadRAII(ThreadRAII&& other)`, l.32-33: the new object and what is left of `other`. -/
def ThreadRAII.moveCtor (other : ThreadRAII) : ThreadRAII × ThreadRAII :=
  let m := Thread.move other.t_
  ({ t_ := m.1, action_ := other.action_ }, { other with t_ := m.2 })

/-- What `main` leaves behind. -/
structure Outcome where
  cout : List String
  cerr : List String
  events : List Event
  deriving DecidableEq, Repr

/-- The lines `exampleFunction` prints when run by the thread with id `tid`. -/
def exampleFunction (tid : Nat) : List String :=
  (List.range 5).map fun i =>
    "Running in thread: " ++ to_string tid ++ ", i = " ++ to_string i ++ "\n"

/-- `main`, l.62-75, run by the thread `mainId`. `spawned` is the outcome of
`std::thread(exampleFunction)`: the id of the new thread (the library gives it an id other than
`mainId`), or the exception of a failed start. The wrapper is destroyed by main at the end of
the `try` block; its `join()` returns after the thread has finished, so the thread's lines
precede main's line. Nothing is printed after a `std::terminate`. -/
def main (mainId : Nat) (spawned : Except StdException Nat) : Outcome :=
  let hello := "Hello from main thread: " ++ to_string mainId ++ "\n"
  match spawned with
  | Except.error ex => ⟨[hello], ["Exception: " ++ ex.what ++ "\n"], []⟩
  | Except.ok tid =>
    match ThreadRAII.ctor ⟨some tid⟩ DtorAction.join with
    | Except.error ex => ⟨[hello], ["Exception: " ++ ex.what ++ "\n"], []⟩
    | Except.ok managedThread =>
      let events := managedThread.destroy mainId
      if Event.terminate ∈ events then ⟨[], [], events⟩
      else ⟨exampleFunction tid ++ [hello], [], events⟩

end ThreadWrapper

/-! ## 0x00-sequence_containers/0x01-my_template_array.cpp : MyArray<T, N> -/

namespace TemplateArray

/-- `template <typename T, size_t N> class MyArray` with its member `T data[N]`. An element is
`none` while it holds no value yet (a default-initialized `int` is indeterminate). -/
structure MyArray (T : Type) (N : Nat) where
  data : List (Option T)
  len : data.length = N

/-- A `T&` into the array: the element `data[index]`. -/
structure Ref where
  index : Nat
  deriving DecidableEq, Repr

variable {T : Type} {N : Nat}

/-- `MyArray() {}`: the elements are default-initialized. -/
def MyArray.ctor : MyArray T N := ⟨List.replicate N none, by simp⟩

/-- `T& at(size_t index)`, l.15-20. -/
def MyArray.at_ (_ : MyArray T N) (index : Nat) : Except StdException Ref :=
  if index ≥ N then Except.error (StdException.out_of_range "Index out of bounds")
  else Except.ok ⟨index⟩

/-- `T& operator[](size_t index)`, l.23-25: `data[index]` without a check; `none` is the undefined
behaviour of an index outside the array. -/
def MyArray.subscript (_ : MyArray T N) (index : Nat) : Option Ref :=
  if index < N then some ⟨index⟩ else none

/-- `size_t size() const`. -/
def MyArray.size (_ : MyArray T N) : Nat := N

/-- Reading through a reference; `none` when the element holds no value. -/
def Ref.read (r : Ref) (a : MyArray T N) : Option T := (a.data.get? r.index).join

/-- Assigning through a reference. -/
def Ref.write (r : Ref) (a : MyArray T N) (v : T) : MyArray T N :=
  ⟨a.data.set r.index (some v), by simp [a.len]⟩

/-- `void fill(const T& value)`, l.43-47. -/
def MyArray.fill (a : MyArray T N) (value : T) : MyArray T N :=
  (List.range N).foldl (fun acc i => Ref.write ⟨i⟩ acc value) a

/-- The statement `arr[index] = v;`. -/
def MyArray.assignSubscript (a : MyArray T N) (index : Nat) (v : T) : Option (MyArray T N) :=
  match a.subscript index with
  | none => none
  | some r => some (r.write a v)

/-- The statement `arr.at(index) = v;`: the array afterwards, and the exception if one was
thrown. -/
def MyArray.assignAt (a : MyArray T N) (index : Nat) (v : T) :
    MyArray T N × Option StdException :=
  match a.at_ index with
  | Except.error e => (a, some e)
  | Except.ok r => (r.write a v, none)

/-- The loop of l.66-68: `std::cout << arr[i] << " "` for `i` from 0 to `arr.size()`. -/
def printLoop (a : MyArray Int N) : Option (List String) :=
  (List.range a.size).mapM fun i =>
    match a.subscript i with
    | none => none
    | some r =>
      match r.read a with
      | none => none
      | some v => some (to_string v ++ " ")

/-- What `main` leaves behind. -/
structure Outcome where
  cout : List String
  cerr : List String
  arr : List (Option Int)
  deriving DecidableEq, Repr

/-- `main`, l.54-78; `none` would be undefined behaviour or an exception that is not caught. -/
def main : Option Outcome :=
  let arr : MyArray Int 5 := MyArray.ctor
  match arr.assignSubscript 0 10 with
  | none => none
  | some arr =>
  match arr.assignSubscript 1 20 with
  | none => none
  | some arr =>
  match arr.assignSubscript 2 30 with
  | none => none
  | some arr =>
  match arr.assignSubscript 3 40 with
  | none => none
  | some arr =>
  match arr.assignSubscript 4 50 with
  | none => none
  | some arr =>
  match printLoop arr with
  | none => none
  | some cout =>
    match arr.assignAt 5 60 with
    | (arr, some (StdException.out_of_range what)) => some ⟨cout, [what, "\n"], arr.data⟩
    | (_, some _) => none
    | (arr, none) => some ⟨cout, [], arr.data⟩

end TemplateArray

/-! ## 0x07-allocators/0x00-my_vector.cpp : MyVector on top of `std::allocator` -/

namespace AllocVector

/-- `size_t` arithmetic is modulo 2^64. -/
def SIZE_MOD : Nat := 18446744073709551616

/-- Largest number of elements `std::allocator<T>::allocate` accepts: no object is larger than
`PTRDIFF_MAX` bytes. -/
def max_size : Nat := 9223372036854775807

variable {T : Type}

/-- `allocator_.allocate(n)`: uninitialized storage for `n` elements (`none` is a slot without an
object); throws when `n` exceeds `max_size` or the `limit` of memory that is available. -/
def allocate (limit n : Nat) : Except Fault (List (Option T)) :=
  if n ≤ limit ∧ n ≤ max_size then Except.ok (List.replicate n none)
  else Except.error (Fault.thrown StdException.bad_alloc)

/-- `allocator_.construct(p + i, value)`: the slot must lie inside the storage. -/
def construct (storage : List (Option T)) (i : Nat) (value : T) :
    Except Fault (List (Option T)) :=
  if i < storage.length then Except.ok (storage.set i (some value))
  else Except.error Fault.undefined

/-- `allocator_.destroy(p + i)`: the slot must hold an object. -/
def destroy (storage : List (Option T)) (i : Nat) : Except Fault (List (Option T)) :=
  match storage.get? i with
  | some (some _) => Except.ok (storage.set i none)
  | _ => Except.error Fault.undefined

/-- The value of `p[i]`: the slot must hold an object. -/
def load (storage : List (Option T)) (i : Nat) : Except Fault T :=
  match storage.get? i with
  | some (some x) => Except.ok x
  | _ => Except.error Fault.undefined

/-- `allocator_.deallocate(p, n)`: `n` must be the size the storage was allocated with. -/
def deallocate (storage : List (Option T)) (n : Nat) : Except Fault Unit :=
  if storage.length = n then Except.ok () else Except.error Fault.undefined

/-- The data members of `MyVector<T>`; `data_` is the storage the pointer owns. -/
structure MyVector (T : Type) where
  data_ : List (Option T)
  size_ : Nat
  capacity_ : Nat
  deriving DecidableEq, Repr

/-- `MyVector()`, l.13-17. -/
def MyVector.ctor (limit : Nat) : Except Fault (MyVector T) :=
  match allocate limit 1 with
  | Except.error e => Except.error e
  | Except.ok d => Except.ok { data_ := d, size_ := 0, capacity_ := 1 }

/-- The loop of `resize`, l.61-65, with `todo` iterations left: moves `data_[i]` to
`new_data[i]` and destroys `data_[i]`. -/
def moveLoop : Nat → Nat → List (Option T) → List (Option T) →
    Except Fault (List (Option T) × List (Option T))
  | 0, _, data_, new_data => Except.ok (data_, new_data)
  | todo + 1, i, data_, new_data =>
    match load data_ i with
    | Except.error e => Except.error e
    | Except.ok x =>
      match construct new_data i x with
      | Except.error e => Except.error e
      | Except.ok new_data1 =>
        match destroy data_ i with
        | Except.error e => Except.error e
        | Except.ok data1 => moveLoop todo (i + 1) data1 new_data1

/-- `void resize(size_type new_capacity)`, l.59-69. -/
def MyVector.resize (limit : Nat) (v : MyVector T) (new_capacity : Nat) :
    Except Fault (MyVector T) :=
  match allocate limit new_capacity with
  | Except.error e => Except.error e
  | Except.ok new_data =>
    match moveLoop v.size_ 0 v.data_ new_data with
    | Except.error e => Except.error e
    | Except.ok (data1, new_data1) =>
      match deallocate data1 v.capacity_ with
      | Except.error e => Except.error e
      | Except.ok _ => Except.ok { v with data_ := new_data1, capacity_ := new_capacity }

/-- What the parameter `const T& value` of `push_back` refers to: an object that is not an
element of the vector, or the element `data_[i]` of the vector itself, as in
`v.push_back(v[i])`. -/
inductive ValueRef (T : Type) where
  | outside (x : T)
  | element (i : Nat)
  deriving DecidableEq, Repr

/-- The value read through `value` by the construction of l.30. An element of the vector lies in
the storage the vector had when `push_back` was called; once `resize` has destroyed its objects
and deallocated it (l.64-66), reading it is undefined. -/
def ValueRef.read (value : ValueRef T) (storage : List (Option T)) (resized : Bool) :
    Except Fault T :=
  match value with
  | ValueRef.outside x => Except.ok x
  | ValueRef.element i => if resized then Except.error Fault.undefined else load storage i

/-- `void push_back(const T& value)`, l.26-32: the `resize` of l.28 comes before `value` is read
at l.30. -/
def MyVector.push_back (limit : Nat) (v : MyVector T) (value : ValueRef T) :
    Except Fault (MyVector T) :=
  match (if v.size_ = v.capacity_ then v.resize limit (v.capacity_ * 2 % SIZE_MOD)
    else Except.ok v) with
  | Except.error e => Except.error e
  | Except.ok v1 =>
    match value.read v.data_ (decide (v.size_ = v.capacity_)) with
    | Except.error e => Except.error e
    | Except.ok x =>
      match construct v1.data_ v1.size_ x with
      | Except.error e => Except.error e
      | Except.ok d => Except.ok { v1 with data_ := d, size_ := (v1.size_ + 1) % SIZE_MOD }

/-- `operator[](size_type index)`, l.35-47: the element the returned reference denotes. -/
def MyVector.subscript (v : MyVector T) (index : Nat) : Except Fault T :=
  if index ≥ v.size_ then
    Except.error (Fault.thrown (StdException.out_of_range "Index out of range"))
  else load v.data_ index

/-- `size_type size() const`. -/
def MyVector.size (v : MyVector T) : Nat := v.size_

/-- The loop of `clear`, l.52-54, with `todo` iterations left. -/
def destroyLoop : Nat → Nat → List (Option T) → Except Fault (List (Option T))
  | 0, _, data_ => Except.ok data_
  | todo + 1, i, data_ =>
    match destroy data_ i with
    | Except.error e => Except.error e
    | Except.ok data1 => destroyLoop todo (i + 1) data1

/-- `void clear()`, l.51-56. -/
def MyVector.clear (v : MyVector T) : Except Fault (MyVector T) :=
  match destroyLoop v.size_ 0 v.data_ with
  | Except.error e => Except.error e
  | Except.ok d => Except.ok { v with data_ := d, size_ := 0 }

/-- `~MyVector()`, l.20-23. -/
def MyVector.dtor (v : MyVector T) : Except Fault Unit :=
  match v.clear with
  | Except.error e => Except.error e
  | Except.ok v1 => deallocate v1.data_ v1.capacity_

/-- Successive `push_back` calls with the given arguments. -/
def pushList (limit : Nat) : MyVector T → List (ValueRef T) → Except Fault (MyVector T)
  | v, [] => Except.ok v
  | v, x :: xs =>
    match v.push_back limit x with
    | Except.error e => Except.error e
    | Except.ok v1 => pushList limit v1 xs

/-- A default-constructed vector followed by `push_back` calls with the given arguments. -/
def pushAll (limit : Nat) (args : List (ValueRef T)) : Except Fault (MyVector T) :=
  match MyVector.ctor limit with
  | Except.error e => Except.error e
  | Except.ok v => pushList limit v args

/-- The loop of l.86-88: one output line per index below `vec.size()`. -/
def printLoop (v : MyVector Int) : Nat → Nat → Except Fault (List String)
  | 0, _ => Except.ok []
  | todo + 1, i =>
    match v.subscript i with
    | Except.error e => Except.error e
    | Except.ok x =>
      match printLoop v todo (i + 1) with
      | Except.error e => Except.error e
      | Except.ok out => Except.ok (("vec[" ++ to_string i ++ "] = " ++ to_string x ++ "\n") :: out)

/-- `main`, l.77-97: the output, when `limit` elements of memory are available. The argument of
`vec.push_back(i)` is the loop variable, an object outside the vector. -/
def main (limit : Nat) : Except Fault (List String) :=
  match pushAll limit ((List.range 10).map fun i => ValueRef.outside (Int.ofNat i)) with
  | Except.error e => Except.error e
  | Except.ok vec =>
    match printLoop vec vec.size 0 with
    | Except.error e => Except.error e
    | Except.ok out =>
      match vec.clear with
      | Except.error e => Except.error e
      | Except.ok vec1 =>
        match vec1.dtor with
        | Except.error e => Except.error e
        | Except.ok _ => Except.ok (out ++ ["Size after clearing: " ++ to_string vec1.size ++ "\n"])

/-- The vector holds exactly the values `xs`: they are the objects in the first slots of the
storage, the other slots are raw, and `size_` and `capacity_` describe the storage. -/
def Rep (v : MyVector T) (xs : List T) : Prop :=
  v.data_ = xs.map some ++ List.replicate (v.capacity_ - xs.length) none ∧
  v.size_ = xs.length ∧ xs.length ≤ v.capacity_ ∧ v.capacity_ ≤ max_size

end AllocVector

/-! ## 0x00-sequence_containers/myVector.hpp and 0x03-my_vector.cpp : MyVector on `new[]` -/

namespace HeapVector

/-- The data members of `MyVector<T>`: `data` is an address, 0 for `nullptr`. -/
structure MyVector where
  data : Nat
  capacity : Nat
  size : Nat
  deriving DecidableEq, Repr

/-- The program state: the arrays made by `new T[n]`, by address (`none` where nothing is
allocated; an element is `none` while it holds no value), the address the next `new` hands out,
the `MyVector` objects by address, the output, and how many elements one `new` can get. -/
structure State (T : Type) where
  heap : Nat → Option (List (Option T))
  next : Nat
  objs : Nat → Option MyVector
  out : List String
  limit : Nat

variable {T : Type}

/-- The state before anything is allocated or constructed. -/
def init (limit : Nat) : State T := ⟨fun _ => none, 1, fun _ => none, [], limit⟩

/-- `new T[n]`: a fresh array of `n` elements without values; throws when memory is short. -/
def new_array (st : State T) (n : Nat) : Except Fault (State T × Nat) :=
  if n ≤ st.limit then
    Except.ok ({ st with
                  heap := Function.update st.heap st.next (some (List.replicate n none))
                  next := st.next + 1 }, st.next)
  else Except.error (Fault.thrown StdException.bad_alloc)

/-- `delete[] p`: nothing for `nullptr`; undefined unless `p` is an array that is allocated. -/
def delete_array (st : State T) (p : Nat) : Except Fault (State T) :=
  if p = 0 then Except.ok st
  else
    match st.heap p with
    | some _ => Except.ok { st with heap := Function.update st.heap p none }
    | none => Except.error Fault.undefined

/-- The value of `p[i]`. -/
def load (st : State T) (p i : Nat) : Except Fault T :=
  match st.heap p with
  | some blk =>
    match blk.get? i with
    | some (some x) => Except.ok x
    | _ => Except.error Fault.undefined
  | none => Except.error Fault.undefined

/-- The assignment `p[i] = v`. -/
def store (st : State T) (p i : Nat) (v : T) : Except Fault (State T) :=
  match st.heap p with
  | some blk =>
    if i < blk.length then
      Except.ok { st with heap := Function.update st.heap p (some (blk.set i (some v))) }
    else Except.error Fault.undefined
  | none => Except.error Fault.undefined

/-- `std::cout << text`. -/
def print_text (st : State T) (text : String) : State T := { st with out := st.out ++ [text] }

/-- The object at address `this` becomes `v`. -/
def setObj (st : State T) (this : Nat) (v : MyVector) : State T :=
  { st with objs := Function.update st.objs this (some v) }

/-- A loop `for (i = ...; ...; i++) dst[i] = src[i];` with `todo` iterations left. -/
def copyLoop : Nat → Nat → Nat → Nat → State T → Except Fault (State T)
  | 0, _, _, _, st => Except.ok st
  | todo + 1, i, dst, src, st =>
    match load st src i with
    | Except.error e => Except.error e
    | Except.ok x =>
      match store st dst i x with
      | Except.error e => Except.error e
      | Except.ok st1 => copyLoop todo (i + 1) dst src st1

/-- A loop `for (i = ...; ...; i++) dst[i] = values[i];` over the values still to store. -/
def fillLoop : List T → Nat → Nat → State T → Except Fault (State T)
  | [], _, _, st => Except.ok st
  | x :: xs, i, dst, st =>
    match store st dst i x with
    | Except.error e => Except.error e
    | Except.ok st1 => fillLoop xs (i + 1) dst st1

/-- `MyVector()`, l.58-62, constructing the object at `this`. -/
def ctor_default (st : State T) (this : Nat) : Except Fault (State T) :=
  let st := print_text st "default initialization\n"
  match new_array st 1 with
  | Except.error e => Except.error e
  | Except.ok (st, p) => Except.ok (setObj st this ⟨p, 1, 0⟩)

/-- `MyVector(int n)`, l.64-69: a negative `n` converts to a size no `new` can satisfy. -/
def ctor_size (st : State Int) (this : Nat) (n : Int) : Except Fault (State Int) :=
  if n < 0 then Except.error (Fault.thrown StdException.bad_alloc)
  else
    match new_array st n.toNat with
    | Except.error e => Except.error e
    | Except.ok (st, p) =>
      let st := print_text (setObj st this ⟨p, n.toNat, n.toNat⟩) "size constructor\n"
      fillLoop (List.replicate n.toNat 0) 0 p st

/-- `MyVector(int n, T value)`, l.71-77. -/
def ctor_fill (st : State T) (this : Nat) (n : Int) (value : T) : Except Fault (State T) :=
  if n < 0 then Except.error (Fault.thrown StdException.bad_alloc)
  else
    match new_array st n.toNat with
    | Except.error e => Except.error e
    | Except.ok (st, p) =>
      let st := print_text (setObj st this ⟨p, n.toNat, n.toNat⟩) "fill constructor\n"
      fillLoop (List.replicate n.toNat value) 0 p st

/-- `MyVector(std::initializer_list<T> list)`, l.79-85. -/
def ctor_list (st : State T) (this : Nat) (list : List T) : Except Fault (State T) :=
  match new_array st list.length with
  | Except.error e => Except.error e
  | Except.ok (st, p) =>
    let st := print_text (setObj st this ⟨p, list.length, list.length⟩) "initializer_list\n"
    fillLoop list 0 p st

/-- `MyVector(const MyVector& other)`, l.87-93. -/
def copy_ctor (st : State T) (this other : Nat) : Except Fault (State T) :=
  match st.objs other with
  | none => Except.error Fault.undefined
  | some o =>
    match new_array st o.capacity with
    | Except.error e => Except.error e
    | Except.ok (st, p) =>
      let st := print_text (setObj st this ⟨p, o.capacity, o.size⟩) "copy constructor\n"
      copyLoop o.size 0 p o.data st

/-- `MyVector(MyVector&& other)`, l.95-101. -/
def move_ctor (st : State T) (this other : Nat) : Except Fault (State T) :=
  match st.objs other with
  | none => Except.error Fault.undefined
  | some o =>
    let st := print_text (setObj st this ⟨o.data, o.capacity, o.size⟩) "move constructor\n"
    match st.objs other with
    | none => Except.error Fault.undefined
    | some o1 => Except.ok (setObj st other { o1 with data := 0, size := 0, capacity := 0 })

/-- `operator=(const MyVector& other)`, l.103-116. -/
def copy_assign (st : State T) (this other : Nat) : Except Fault (State T) :=
  let st := print_text st "copy assignment\n"
  if this ≠ other then
    match st.objs this, st.objs other with
    | some t, some o =>
      match delete_array st t.data with
      | Except.error e => Except.error e
      | Except.ok st =>
        match new_array st o.capacity with
        | Except.error e => Except.error e
        | Except.ok (st, p) =>
          copyLoop o.size 0 p o.data (setObj st this ⟨p, o.capacity, o.size⟩)
    | _, _ => Except.error Fault.undefined
  else Except.ok st

/-- `operator=(MyVector&& other)`, l.118-131. -/
def move_assign (st : State T) (this other : Nat) : Except Fault (State T) :=
  let st := print_text st "move assignment\n"
  if this ≠ other then
    match st.objs this, st.objs other with
    | some t, some o =>
      match delete_array st t.data with
      | Except.error e => Except.error e
      | Except.ok st =>
        Except.ok (setObj (setObj st this ⟨o.data, o.capacity, o.size⟩) other ⟨0, 0, 0⟩)
    | _, _ => Except.error Fault.undefined
  else Except.ok st

/-- `~MyVector()`, l.133-137. -/
def dtor (st : State T) (this : Nat) : Except Fault (State T) :=
  match st.objs this with
  | none => Except.error Fault.undefined
  | some t => delete_array (print_text st "destructor\n") t.data

/-- `size_t getSize()`, l.147-150. -/
def getSize (st : State T) (this : Nat) : Except Fault Nat :=
  match st.objs this with
  | none => Except.error Fault.undefined
  | some t => Except.ok t.size

/-- `T& at(size_t index)`, l.157-163: the element the returned reference denotes. -/
def at_ (st : State T) (this index : Nat) : Except Fault T :=
  match st.objs this with
  | none => Except.error Fault.undefined
  | some t =>
    if index ≥ t.size then
      Except.error (Fault.thrown (StdException.out_of_range "Index out of bounds"))
    else load st t.data index

/-- The loop of `print`, l.167-169, with `todo` iterations left. -/
def printLoop : Nat → Nat → Nat → State Int → Except Fault (State Int)
  | 0, _, _, st => Except.ok st
  | todo + 1, i, p, st =>
    match load st p i with
    | Except.error e => Except.error e
    | Except.ok x => printLoop todo (i + 1) p (print_text st (to_string x ++ " "))

/-- `void print()`, l.165-171. -/
def print (st : State Int) (this : Nat) : Except Fault (State Int) :=
  match st.objs this with
  | none => Except.error Fault.undefined
  | some t =>
    match printLoop t.size 0 t.data st with
    | Except.error e => Except.error e
    | Except.ok st => Except.ok (print_text st "\n")

/-- The three statements that follow each definition in `main`: the size line, the name, and
`print()`. -/
def report (name : String) (st : State Int) (this : Nat) : Except Fault (State Int) :=
  match getSize st this with
  | Except.error e => Except.error e
  | Except.ok n =>
    print (print_text (print_text st (name ++ ".getSize(): " ++ to_string n ++ "\n"))
      (name ++ " = ")) this

/-- Runs the statements of a block in order. -/
def seq : List (State Int → Except Fault (State Int)) → State Int → Except Fault (State Int)
  | [], st => Except.ok st
  | f :: fs, st =>
    match f st with
    | Except.error e => Except.error e
    | Except.ok st1 => seq fs st1

/-- `main` of 0x03-my_vector.cpp, l.5-62; the variable `vK` is the object at address `K`. The
locals are destroyed in reverse order of their declaration at the `return`. -/
def main (limit : Nat) : Except Fault (State Int) :=
  seq [fun st => ctor_default st 1, fun st => report "v1" st 1,
    fun st => ctor_list st 2 [1, 2, 3, 4, 5], fun st => report "v2" st 2,
    fun st => ctor_size st 3 10, fun st => report "v3" st 3,
    fun st => copy_ctor st 4 2, fun st => report "v4" st 4,
    fun st => copy_ctor st 5 2, fun st => report "v5" st 5,
    fun st => ctor_list st 6 [1, 2, 3, 4, 5], fun st => report "v6" st 6,
    fun st => move_ctor st 7 6, fun st => report "v7" st 7,
    fun st => copy_assign st 5 2, fun st => report "v5" st 5,
    fun st => move_assign st 5 6, fun st => report "v5" st 5, fun st => report "v6" st 6,
    fun st => ctor_fill st 10 10 5, fun st => report "v10" st 10,
    fun st => dtor st 10, fun st => dtor st 7, fun st => dtor st 6, fun st => dtor st 5,
    fun st => dtor st 4, fun st => dtor st 3, fun st => dtor st 2, fun st => dtor st 1]
    (init limit)

/-- The output of a run, if it completes. -/
def output (r : Except Fault (State Int)) : Option (List String) :=
  match r with
  | Except.ok st => some st.out
  | Except.error _ => none

/-- The vector at address `this` holds exactly the values `xs`: its size is their number, within
its capacity, and they are the first elements of its array. -/
def Holds (st : State T) (this : Nat) (xs : List T) : Prop :=
  ∃ o, st.objs this = some o ∧ o.size = xs.length ∧ o.size ≤ o.capacity ∧
    (xs = [] ∨ ∃ rest, st.heap o.data = some (xs.map some ++ rest))

/-- The addresses `new` has not handed out yet hold nothing, and `nullptr` is not one of
them. -/
def HeapOk (st : State T) : Prop :=
  0 < st.next ∧ ∀ p, st.next ≤ p → st.heap p = none

/-- The array of the vector at `this` can be deleted without harm to the vector at `other`: it
is `nullptr`, or an allocated array that is not the array of `other`. -/
def Disposable (st : State T) (this other : Nat) : Prop :=
  ∃ t o, st.objs this = some t ∧ st.objs other = some o ∧
    (t.data = 0 ∨ (st.heap t.data ≠ none ∧ t.data ≠ o.data))

/-- A state with two vectors: the one at address 2 holds 1 2 3, the one at address 5 holds 9. -/
def sample : State Int where
  heap := fun p => if p = 1 then some [some 1, some 2, some 3] else
    if p = 2 then some [some 9] else none
  next := 3
  objs := fun a => if a = 2 then some ⟨1, 3, 3⟩ else if a = 5 then some ⟨2, 1, 1⟩ else none
  out := []
  limit := 10

/-- The size and the elements of the vector at `this`, read with `getSize` and `at`. -/
def contents (st : State T) (this : Nat) : Option (List T) :=
  match getSize st this with
  | Except.error _ => none
  | Except.ok n =>
    (List.range n).mapM fun i =>
      match at_ st this i with
      | Except.ok x => some x
      | Except.error _ => none

/-- The vector at `this` after a run, if it completes. -/
def contentsAfter (r : Except Fault (State T)) (this : Nat) : Option (List T) :=
  match r with
  | Except.ok st => contents st this
  | Except.error _ => none

end HeapVector

/-! ## 0x03-Iterators/0x03-myArray.hpp and 0x03-myArray.cpp : MyArray<T> with its iterator -/

namespace IterArray

variable {T : Type}

/-- The data members of `MyArray<T>`: `data` is the address `new T[capacity]` returned, counted
in elements, and `cells` are the elements stored there (`none`: no value yet). -/
structure MyArray (T : Type) where
  data : Nat
  capacity : Nat
  cells : List (Option T)

/-- `struct iterator` with its member `Pointer myPtr`, an address counted in elements. -/
structure iterator where
  myPtr : Nat
  deriving DecidableEq, Repr

/-- `MyArray(size_t capacity)`, l.55-57: `addr` is the address the `new` returns, which throws
when `limit` elements of memory do not suffice. -/
def MyArray.ctor (limit addr capacity : Nat) : Except Fault (MyArray T) :=
  if capacity ≤ limit then Except.ok ⟨addr, capacity, List.replicate capacity none⟩
  else Except.error (Fault.thrown StdException.bad_alloc)

/-- `T& operator[](size_t index)`, l.66-68: the index of the element referred to; `none` is the
undefined behaviour of an index outside the array. -/
def MyArray.subscript (a : MyArray T) (index : Nat) : Option Nat :=
  if index < a.capacity then some index else none

/-- `size_t arrCapacity() const`. -/
def MyArray.arrCapacity (a : MyArray T) : Nat := a.capacity

/-- `iterator begin()`, l.75-77. -/
def MyArray.begin_ (a : MyArray T) : iterator := ⟨a.data⟩

/-- `iterator end()`, l.81-83. -/
def MyArray.end_ (a : MyArray T) : iterator := ⟨a.data + a.capacity⟩

/-- The value of the element with the given index; `none` when it holds no value. -/
def MyArray.read (a : MyArray T) (index : Nat) : Option T := (a.cells.get? index).join

/-- The statement `arr[index] = v;`. -/
def MyArray.assign (a : MyArray T) (index : Nat) (v : T) : Option (MyArray T) :=
  match a.subscript index with
  | none => none
  | some i => some { a with cells := a.cells.set i (some v) }

/-- `Reference operator*() const`, l.24-26, for an iterator into `a`: the index of the element
referred to; `none` is the undefined behaviour of a pointer that is not at an element of the
array. -/
def iterator.deref (it : iterator) (a : MyArray T) : Option Nat :=
  if a.data ≤ it.myPtr ∧ it.myPtr < a.data + a.capacity then some (it.myPtr - a.data) else none

/-- `iterator operator++()`, l.29-32, for an iterator into `a`: the iterator afterwards and the
iterator returned; `none` is the undefined behaviour of moving a pointer beyond the end. -/
def iterator.preInc (it : iterator) (a : MyArray T) : Option (iterator × iterator) :=
  if a.data ≤ it.myPtr ∧ it.myPtr < a.data + a.capacity then
    some (⟨it.myPtr + 1⟩, ⟨it.myPtr + 1⟩)
  else none

/-- `iterator operator++(int)`, l.35-39: the iterator afterwards and the iterator returned. -/
def iterator.postInc (it : iterator) (a : MyArray T) : Option (iterator × iterator) :=
  let tmp := it
  match it.preInc a with
  | none => none
  | some (it1, _) => some (it1, tmp)

/-- `bool operator!=(const iterator& other) const`, l.42-44. -/
def iterator.ne (it other : iterator) : Bool := it.myPtr != other.myPtr

/-- How a loop ends: it is left after `steps` executions of its body, which dereferenced the
elements `visited`; its behaviour is undefined; or the fuel ran out. -/
inductive LoopResult where
  | left (visited : List Nat) (steps : Nat)
  | undefined
  | outOfFuel
  deriving DecidableEq, Repr

/-- The loop `for (auto it = ...; it != arr.end(); ++it) { ... *it ... }` (`post`: with `it++`),
from the iterator `it`, with what was visited and counted so far. -/
def iterate (a : MyArray T) (post : Bool) : Nat → iterator → List Nat → Nat → LoopResult
  | 0, _, _, _ => LoopResult.outOfFuel
  | fuel + 1, it, visited, steps =>
    if it.ne a.end_ then
      match it.deref a with
      | none => LoopResult.undefined
      | some i =>
        match (if post then it.postInc a else it.preInc a) with
        | none => LoopResult.undefined
        | some (it1, _) => iterate a post fuel it1 (visited ++ [i]) (steps + 1)
    else LoopResult.left visited steps

/-- The loop from `begin()`. -/
def forEach (a : MyArray T) (post : Bool) (fuel : Nat) : LoopResult :=
  iterate a post fuel a.begin_ [] 0

/-- The array made by `MyArray<T> arr(n)` followed by `arr[i] = values[i]` for each value. -/
def filled (limit addr : Nat) (values : List T) : Option (MyArray T) :=
  match (MyArray.ctor limit addr values.length : Except Fault (MyArray T)) with
  | Except.error _ => none
  | Except.ok a =>
    (List.range values.length).foldlM
      (fun (acc : MyArray T) i =>
        match values.get? i with
        | none => none
        | some v => acc.assign i v) a

/-- The output of a loop that prints `*it << " "` for the elements visited, and the `endl`. -/
def printVisited (show_ : T → String) (a : MyArray T) (r : LoopResult) : Option (List String) :=
  match r with
  | LoopResult.left visited _ =>
    match visited.mapM a.read with
    | none => none
    | some xs => some (xs.map (fun x => show_ x ++ " ") ++ ["\n"])
  | _ => none

/-- The loop of l.38-40 over `arr3`: `arr3[i]` for `i` below `arrCapacity()`. -/
def indexLoop (show_ : T → String) (a : MyArray T) : Option (List String) :=
  match (List.range a.arrCapacity).mapM (fun i =>
      match a.subscript i with
      | none => none
      | some j => a.read j) with
  | none => none
  | some xs => some (xs.map (fun x => show_ x ++ " ") ++ ["\n"])

/-- `main` of 0x03-myArray.cpp, l.3-44: the output, with the three arrays at the addresses
`p1`, `p2`, `p3`. The fuel of the loops is more than they need. -/
def main (limit p1 p2 p3 : Nat) : Option (List String) :=
  match filled limit p1 ([10, 20, 30, 40, 50] : List Int),
    filled limit p2 ["apple", "banana", "cherry", "date"],
    filled limit p3 ['a', 'b', 'c'] with
  | some arr, some arr2, some arr3 =>
    match printVisited to_string arr (forEach arr false 100),
      printVisited id arr2 (forEach arr2 true 100),
      indexLoop (fun c => String.singleton c) arr3 with
    | some o1, some o2, some o3 => some (o1 ++ o2 ++ o3)
    | _, _, _ => none
  | _, _, _ => none

end IterArray

/-! ## 0x02-OOP/0x02-More_OOP/0x01-templates_oop_interfaces.cpp : ArrayStack -/

namespace StackInterfaces

variable {T : Type}

/-- `std::vector<T>::push_back`. -/
def vector_push_back (v : List T) (x : T) : List T := v ++ [x]

/-- `std::vector<T>::back`: the last element; undefined on an empty vector (`none`). -/
def vector_back (v : List T) : Option T := v.getLast?

/-- `std::vector<T>::pop_back`: drop the last element. -/
def vector_pop_back (v : List T) : List T := v.dropLast

/-- `std::vector<T>::empty`. -/
def vector_empty (v : List T) : Bool := v.isEmpty

/-- The data member of `ArrayStack<T>`: `std::vector<T> stack`. -/
structure ArrayStack (T : Type) where
  stack : List T
  deriving DecidableEq, Repr

/-- A default-constructed stack. -/
def ArrayStack.ctor : ArrayStack T := ⟨[]⟩

/-- `void push(T value)`, l.23-25. -/
def ArrayStack.push (s : ArrayStack T) (value : T) : ArrayStack T :=
  { s with stack := vector_push_back s.stack value }

/-- `bool isEmpty() const`, l.48-50. -/
def ArrayStack.isEmpty (s : ArrayStack T) : Bool := vector_empty s.stack

/-- `T pop()`, l.28-36: the stack afterwards, and the value returned or the failure. -/
def ArrayStack.pop (s : ArrayStack T) : ArrayStack T × Except Fault T :=
  if !s.isEmpty then
    match vector_back s.stack with
    | none => (s, Except.error Fault.undefined)
    | some top => ({ s with stack := vector_pop_back s.stack }, Except.ok top)
  else (s, Except.error (Fault.thrown (StdException.out_of_range "Stack is empty!")))

/-- `T peek() const`, l.39-45. -/
def ArrayStack.peek (s : ArrayStack T) : Except Fault T :=
  if !s.isEmpty then
    match vector_back s.stack with
    | none => Except.error Fault.undefined
    | some top => Except.ok top
  else Except.error (Fault.thrown (StdException.out_of_range "Stack is empty!"))

/-- `PrintableArrayStack<T>::print()`, l.65-71, with `show` for `operator<<` of the elements. -/
def print (show_ : T → String) (s : ArrayStack T) : List String :=
  ["Stack contents: "] ++ s.stack.map (fun x => show_ x ++ " ") ++ ["\n"]

/-- The part of `main` on one stack: push the values, print, pop once, print. `none` when the
`pop()` fails. -/
def demo (show_ : T → String) (title : String) (values : List T) : Option (List String) :=
  let st : ArrayStack T := values.foldl ArrayStack.push ArrayStack.ctor
  let out := [title, "\n"] ++ print show_ st
  match st.pop with
  | (st1, Except.ok _) => some (out ++ ["After popping one element:", "\n"] ++ print show_ st1)
  | (_, Except.error _) => none

/-- `main`, l.75-100: the output. -/
def main : Option (List String) :=
  match demo to_string "Integer stack:" [10, 20, 30] with
  | none => none
  | some out1 =>
    match demo id "\nString stack:" ["Hello", "World"] with
    | none => none
    | some out2 => some (out1 ++ out2)

end StackInterfaces

/-! ## 0x13-condition_variables.cpp : the order in which the consumer receives the values -/

namespace ProducerConsumer

/-- The values `function1` pushes, in the order of its loop: `count` from 10 down to 1. -/
def expected : List Int := [10, 9, 8, 7, 6, 5, 4, 3, 2, 1]

/-- The line `function2` prints for a value it received (l.64). -/
def lineOf (v : Int) : String := "t2 got a value from t1: " ++ to_string v

/-- What the producer's program counter says about `count`, when `n` values are pushed. -/
def prodOk (pc : PPc) (count : Int) (n : Nat) : Prop :=
  match pc with
  | PPc.notStarted => n = 0
  | PPc.loopTest => count = 10 - (n : Int)
  | PPc.lock => count = 10 - (n : Int) ∧ n < 10
  | PPc.push => count = 10 - (n : Int) ∧ n < 10
  | PPc.unlock => count = 11 - (n : Int) ∧ 1 ≤ n
  | PPc.notify => count = 11 - (n : Int) ∧ 1 ≤ n
  | PPc.sleep => count = 11 - (n : Int) ∧ 1 ≤ n
  | PPc.finished => n = 10

/-- What the consumer's program counter says, when `n` values are pushed and `k` of them are
removed: inside its loop body before the pop it has not received the last value; it is blocked
in the wait only on an empty buffer, or between a push and the notification that follows it;
before the pop the buffer is not empty. -/
def consOk (pc : CPc) (ppc : PPc) (n k : Nat) : Prop :=
  match pc with
  | CPc.notStarted => k = 0
  | CPc.loopTest => True
  | CPc.lock => k < 10
  | CPc.check => k < 10
  | CPc.waiting => k < 10 ∧ (k = n ∨ ppc = PPc.unlock ∨ ppc = PPc.notify)
  | CPc.woken => k < 10
  | CPc.pop => k < n
  | CPc.unlock => 1 ≤ k
  | CPc.print => 1 ≤ k
  | CPc.finished => k = 10

/-- The number of lines printed when `k` values are removed: the line of the last one is still
to come between the pop and the print. -/
def printed (pc : CPc) (k : Nat) : Nat :=
  match pc with
  | CPc.unlock => k - 1
  | CPc.print => k - 1
  | _ => k

/-- The buffer is a queue of the expected values: with `n` values pushed and `k` removed, the
buffer holds the values number `k` to `n-1` with the oldest at its back, the lines printed are
those of the first values, in order, and `data` is the value removed last. -/
def FifoInv (s : State) : Prop :=
  ∃ n k : Nat, k ≤ n ∧ n ≤ 10 ∧
    s.buffer = ((expected.take n).drop k).reverse ∧
    s.out = (expected.take (printed s.cpc k)).map lineOf ∧
    s.data = (if k = 0 then 0 else 11 - (k : Int)) ∧
    prodOk s.ppc s.count n ∧ consOk s.cpc s.ppc n k

/-- Where the threads are at each point of `main`. -/
def MainInv (s : State) : Prop :=
  (s.mainPc ≠ MPc.spawn1 → s.ppc ≠ PPc.notStarted) ∧
  (s.mainPc = MPc.join1 ∨ s.mainPc = MPc.join2 ∨ s.mainPc = MPc.ret →
    s.cpc ≠ CPc.notStarted) ∧
  (s.mainPc = MPc.join2 ∨ s.mainPc = MPc.ret → s.ppc = PPc.finished) ∧
  (s.mainPc = MPc.ret → s.cpc = CPc.finished)

/-- The program has run to its end. -/
def Completed (s : State) : Prop :=
  s.mainPc = MPc.ret ∧ s.ppc = PPc.finished ∧ s.cpc = CPc.finished

/-- Statements the producer still has to execute. -/
def pRemaining (pc : PPc) (count : Int) : Nat :=
  match pc with
  | PPc.notStarted => 61
  | PPc.loopTest => 6 * count.toNat + 1
  | PPc.lock => 6 * (count.toNat - 1) + 6
  | PPc.push => 6 * (count.toNat - 1) + 5
  | PPc.unlock => 6 * (count.toNat - 1) + 4
  | PPc.notify => 6 * (count.toNat - 1) + 3
  | PPc.sleep => 6 * (count.toNat - 1) + 2
  | PPc.finished => 0

/-- Values the producer still has to push. -/
def unpushed (pc : PPc) (count : Int) : Nat :=
  match pc with
  | PPc.notStarted => 10
  | PPc.loopTest => count.toNat
  | PPc.lock => count.toNat
  | PPc.push => count.toNat
  | PPc.unlock => count.toNat - 1
  | PPc.notify => count.toNat - 1
  | PPc.sleep => count.toNat - 1
  | PPc.finished => 0

/-- Rank of the consumer's program counter inside one round of its loop. -/
def cRank (pc : CPc) : Nat :=
  match pc with
  | CPc.notStarted => 7
  | CPc.loopTest => 7
  | CPc.lock => 6
  | CPc.woken => 5
  | CPc.check => 4
  | CPc.waiting => 3
  | CPc.pop => 2
  | CPc.unlock => 9
  | CPc.print => 8
  | CPc.finished => 0

/-- Rank of main's program counter. -/
def mRank (pc : MPc) : Nat :=
  match pc with
  | MPc.spawn1 => 4
  | MPc.spawn2 => 3
  | MPc.join1 => 2
  | MPc.join2 => 1
  | MPc.ret => 0

/-- A bound on the steps to the end of the program that some enabled step always lowers. -/
def remaining (s : State) : Nat :=
  mRank s.mainPc + 3 * pRemaining s.ppc s.count +
    10 * (unpushed s.ppc s.count + s.buffer.length) + cRank s.cpc

/-- One round of the producer's loop. -/
def producerRound : List Label :=
  [Label.producer, Label.producer, Label.producer, Label.producer, Label.producer,
   Label.producer]

/-- One round of the consumer's loop on a buffer that is not empty. -/
def consumerRound : List Label :=
  [Label.consumer, Label.consumer, Label.consumer, Label.consumer, Label.consumer,
   Label.consumer]

/-- A schedule to the end of the program: the consumer first blocks on the empty buffer, the
producer pushes 10 and 9 before the consumer takes 10, then the producer runs to its end and
the consumer takes the rest. -/
def schedFifo : List Label :=
  [Label.main, Label.main, Label.consumer, Label.consumer, Label.consumer] ++
  producerRound ++ producerRound ++ [Label.consumer, Label.consumer, Label.consumer,
    Label.consumer, Label.consumer] ++
  producerRound ++ producerRound ++ producerRound ++ producerRound ++ producerRound ++
  producerRound ++ producerRound ++ producerRound ++ [Label.producer, Label.main] ++
  consumerRound ++ consumerRound ++ consumerRound ++ consumerRound ++ consumerRound ++
  consumerRound ++ consumerRound ++ consumerRound ++ consumerRound ++
  [Label.consumer, Label.main]

/-- A schedule that stops when 10, 9, 8 are pushed and 10 is received and printed. -/
def schedThree : List Label :=
  [Label.main, Label.main] ++ producerRound ++ producerRound ++ producerRound ++ consumerRound

end ProducerConsumer

/-! # Part 2: theorems -/

/-! ## The queue operations -/

/-- Conservation law behind FIFO: popped tasks followed by the queue content is what went in. -/
theorem applyOps_conserve {α : Type} (ops : List (QueueOp α)) :
    ∀ (q out q1 out1 : List α), applyOps ops q out = some (q1, out1) →
      out1 ++ q1 = out ++ q ++ pushedOf ops := by
  induction ops with
  | nil =>
    intro q out q1 out1 h
    simp only [applyOps, Option.some.injEq, Prod.mk.injEq] at h
    obtain ⟨rfl, rfl⟩ := h
    simp [pushedOf]
  | cons op ops ih =>
    intro q out q1 out1 h
    cases op with
    | push t =>
      simp only [applyOps] at h
      have := ih _ _ _ _ h
      simp [pushedOf, push_back, this]
    | pop =>
      cases q with
      | nil => simp [applyOps, front] at h
      | cons t q =>
        simp only [applyOps, front, List.head?_cons, pop_front, List.tail_cons] at h
        have := ih _ _ _ _ h
        simp [pushedOf, this]

/-- C1: FIFO. For every sequence of pushes (append at tail) and pops (remove head) run from the
empty queue in which every pop finds the queue non-empty, the popped tasks are, in order, a
prefix of the pushed tasks. -/
theorem fifo_popped_prefix_of_pushed {α : Type} (ops : List (QueueOp α)) (q popped : List α)
    (h : applyOps ops [] [] = some (q, popped)) : popped <+: pushedOf ops := by
  have := applyOps_conserve ops [] [] q popped h
  simp only [List.append_nil, List.nil_append] at this
  exact ⟨q, this⟩

/-- C1 witness: push 1, push 2, pop, push 3, pop leaves 3 queued and pops 1 then 2. -/
theorem fifo_popped_prefix_of_pushed_witness :
    applyOps [QueueOp.push 1, QueueOp.push 2, QueueOp.pop, QueueOp.push 3, QueueOp.pop] [] []
        = some ([3], [1, 2]) ∧
      ([1, 2] : List Nat) <+:
        pushedOf [QueueOp.push 1, QueueOp.push 2, QueueOp.pop, QueueOp.push 3, QueueOp.pop] :=
  ⟨by decide, fifo_popped_prefix_of_pushed _ [3] [1, 2] (by decide)⟩

/-! ## 0x19: step cases, invariants of the reachable states, progress -/

namespace TaskPool

theorem worker_thread_sound (w : Nat) (s s1 : State) (hab : s.aborted = false)
    (h : worker_thread w s = some s1) : WStep w s s1 := by
  unfold worker_thread at h
  split at h
  · simp at h
  · rename_i hpc
    split at h
    · rename_i hm
      simp only [Option.some.injEq] at h
      subst h
      exact WStep.lock s hab hpc hm
    · simp at h
  · rename_i hpc
    split at h
    · rename_i he
      simp only [Option.some.injEq] at h
      subst h
      exact WStep.wait s hab hpc (by simpa [empty] using he)
    · rename_i he
      simp only [Option.some.injEq] at h
      subst h
      exact WStep.go s hab hpc (by simpa [empty] using he)
  · simp at h
  · rename_i hpc
    split at h
    · rename_i hm
      simp only [Option.some.injEq] at h
      subst h
      exact WStep.woken s hab hpc hm
    · simp at h
  · rename_i hpc
    split at h
    · rename_i hf
      simp only [Option.some.injEq] at h
      subst h
      exact WStep.pop_ub s hab hpc (by simpa [front] using hf)
    · rename_i t hf
      simp only [Option.some.injEq] at h
      subst h
      cases hq : s.task_q with
      | nil => simp [front, hq] at hf
      | cons t1 q =>
        simp only [front, hq, List.head?_cons, Option.some.injEq] at hf
        subst hf
        simpa [pop_front, hq] using WStep.pop s t1 q hab hpc hq
  · rename_i hpc
    simp only [Option.some.injEq] at h
    subst h
    exact WStep.unlock s hab hpc
  · rename_i hpc
    split at h
    · rename_i ht
      simp only [Option.some.injEq] at h
      subst h
      exact WStep.run_nostate s hab hpc ht
    · rename_i t ht
      cases hsh : s.shared t.id with
      | pending =>
        cases hfn : t.fn with
        | ok v =>
          simp only [hsh, hfn, packaged_task_invoke, Option.some.injEq] at h
          subst h
          simpa [resolveWith, hfn] using WStep.run s t hab hpc ht hsh
        | error e =>
          simp only [hsh, hfn, packaged_task_invoke, Option.some.injEq] at h
          subst h
          simpa [resolveWith, hfn] using WStep.run s t hab hpc ht hsh
      | ready v =>
        simp only [hsh, packaged_task_invoke, Option.some.injEq] at h
        subst h
        exact WStep.run_twice s t hab hpc ht (by simp [hsh])
      | failed e =>
        simp only [hsh, packaged_task_invoke, Option.some.injEq] at h
        subst h
        exact WStep.run_twice s t hab hpc ht (by simp [hsh])
  · simp at h

theorem main_sound (s s1 : State) (hab : s.aborted = false) (h : main s = some s1) :
    MStep s s1 := by
  unfold main at h
  split at h
  · rename_i hpc
    split at h
    · rename_i hi
      simp only [Option.some.injEq] at h
      subst h
      exact MStep.spawn s hab hpc hi
    · rename_i hi
      simp only [Option.some.injEq] at h
      subst h
      exact MStep.spawn_done s hab hpc hi
  · rename_i hpc
    split at h
    · rename_i hi
      simp only [Option.some.injEq] at h
      subst h
      exact MStep.task s hab hpc hi
    · rename_i hi
      simp only [Option.some.injEq] at h
      subst h
      exact MStep.task_done s hab hpc hi
  · rename_i hpc
    split at h
    · rename_i hm
      simp only [Option.some.injEq] at h
      subst h
      exact MStep.lock s hab hpc hm
    · simp at h
  · rename_i hpc
    simp only [Option.some.injEq] at h
    subst h
    exact MStep.push s hab hpc
  · rename_i hpc
    simp only [Option.some.injEq] at h
    subst h
    exact MStep.unlock s hab hpc
  · rename_i hpc
    split at h
    · rename_i hn
      simp only [Option.some.injEq] at h
      subst h
      exact MStep.notify_none s hab hpc hn
    · simp at h
  · rename_i hpc
    simp only [Option.some.injEq] at h
    subst h
    exact MStep.print s hab hpc
  · rename_i hpc
    cases hsh : s.shared s.i with
    | pending => simp [hsh, future_get] at h
    | ready v =>
      simp only [hsh, future_get, Option.some.injEq] at h
      subst h
      exact MStep.get s v hab hpc hsh
    | failed e =>
      simp only [hsh, future_get, Option.some.injEq] at h
      subst h
      exact MStep.get_raise s e hab hpc hsh
  · rename_i hpc
    split at h
    · rename_i hi
      split at h
      · rename_i hf
        simp only [Option.some.injEq] at h
        subst h
        exact MStep.join s hab hpc hi hf
      · simp at h
    · rename_i hi
      simp only [Option.some.injEq] at h
      subst h
      exact MStep.join_done s hab hpc hi
  · simp at h

/-- Every step of the program is a step of main or a step of some worker. -/
theorem step_sound (l : Label) (s s1 : State) (h : step l s = some s1) :
    MStep s s1 ∨ ∃ w, WStep w s s1 := by
  unfold step at h
  split at h
  · simp at h
  · rename_i hab
    have hab : s.aborted = false := by simpa using hab
    cases l with
    | main => exact Or.inl (main_sound s s1 hab h)
    | notifyOne w =>
      simp only at h
      split at h
      · rename_i hc
        simp only [Option.some.injEq] at h
        subst h
        exact Or.inr ⟨w, WStep.notify_one s hab hc.1 hc.2.1 hc.2.2⟩
      · simp at h
    | worker w => exact Or.inr ⟨w, worker_thread_sound w s s1 hab h⟩
    | spurious w =>
      simp only at h
      split at h
      · rename_i hc
        simp only [Option.some.injEq] at h
        subst h
        exact Or.inr ⟨w, WStep.spurious s hab hc⟩
      · simp at h

/-- Invariance principle: a property of the initial state preserved by every step of a
reachable state holds in every reachable state. -/
theorem reachable_invariant (P : State → Prop) (h0 : P init)
    (hm : ∀ s s1, Reachable s → P s → MStep s s1 → P s1)
    (hw : ∀ w s s1, Reachable s → P s → WStep w s s1 → P s1) : ∀ s, Reachable s → P s := by
  intro s hr
  induction hr with
  | init => exact h0
  | step l s s1 hr hst ih =>
    rcases step_sound l s s1 hst with h | ⟨w, h⟩
    · exact hm s s1 hr ih h
    · exact hw w s s1 hr ih h

/-- A state reached by running a schedule from a reachable state is reachable. -/
theorem reachable_run (ls : List Label) : ∀ (s s1 : State), Reachable s → run ls s = some s1 →
    Reachable s1 := by
  induction ls with
  | nil =>
    intro s s1 hr h
    simp only [run, Option.some.injEq] at h
    subst h
    exact hr
  | cons l ls ih =>
    intro s s1 hr h
    simp only [run] at h
    cases hst : step l s with
    | none => simp [hst] at h
    | some s2 =>
      simp only [hst] at h
      exact ih s2 s1 (Reachable.step l s s2 hr hst) h

theorem spawnInv : ∀ s, Reachable s → SpawnInv s := by
  apply reachable_invariant
  · simp [SpawnInv, init, spawnedCount]
  · intro s s1 _ hinv htr
    obtain ⟨hw, hn, hf⟩ := hinv
    refine ⟨fun w1 => ?_, ?_, fun w1 => ?_⟩
    · have h1 := hw w1
      cases htr <;> simp only [setWorker, Function.update_apply, spawnedCount] at * <;>
        (try split_ifs) <;> simp_all <;> omega
    · cases htr <;> simp only [setWorker, Function.update_apply, spawnedCount] at * <;>
        simp_all <;> omega
    · have h1 := hf w1
      cases htr <;> simp only [setWorker, Function.update_apply, spawnedCount] at * <;>
        (try split_ifs) <;> simp_all
  · intro w s s1 _ hinv htr
    obtain ⟨hw, hn, hf⟩ := hinv
    have h0 := hw w
    refine ⟨fun w1 => ?_, ?_, fun w1 => ?_⟩
    · have h1 := hw w1
      cases htr <;> simp only [setWorker, Function.update_apply, spawnedCount] at * <;>
        (try split_ifs) <;> simp_all
    · cases htr <;> simp only [setWorker, Function.update_apply, spawnedCount] at * <;>
        simp_all
    · have h1 := hf w1
      cases htr <;> simp only [setWorker, Function.update_apply, spawnedCount] at * <;>
        (try split_ifs) <;> simp_all

theorem mutexInv : ∀ s, Reachable s → MutexInv s := by
  apply reachable_invariant
  · simp [MutexInv, init, WPc.holdsLock, MPc.holdsLock]
  · intro s s1 hr hinv htr
    obtain ⟨hw, hm⟩ := hinv
    have h2 := hw s.i
    have h3 := (spawnInv s hr).1 s.i
    constructor
    · intro w1
      have h1 := hw w1
      clear hw
      cases htr <;>
        simp only [setWorker, Function.update_apply, WPc.holdsLock, MPc.holdsLock,
          spawnedCount] at * <;>
        (try split_ifs) <;> simp_all
    · clear hw
      cases htr <;> simp_all [setWorker, WPc.holdsLock, MPc.holdsLock]
  · intro w s s1 _ hinv htr
    obtain ⟨hw, hm⟩ := hinv
    have h0 := hw w
    constructor
    · intro w1
      have h1 := hw w1
      clear hw
      cases htr <;>
        simp only [setWorker, Function.update_apply, WPc.holdsLock, MPc.holdsLock] at * <;>
        (try split_ifs) <;> simp_all <;>
        first
        | omega
        | (have h9 : ¬ w = w1 := by omega
           simp_all)
    · clear hw
      cases htr <;> simp_all [setWorker, WPc.holdsLock, MPc.holdsLock]

theorem popInv : ∀ s, Reachable s → PopInv s := by
  apply reachable_invariant
  · simp [PopInv, init]
  · intro s s1 hr hinv htr
    obtain ⟨hw, hub⟩ := hinv
    have h3 := (spawnInv s hr).1 s.i
    refine ⟨fun w1 => ?_, ?_⟩
    · have h1 := hw w1
      clear hw
      cases htr <;> simp only [setWorker, Function.update_apply, spawnedCount, push_back] at * <;>
        (try split_ifs) <;> simp_all
    · cases htr <;> simp_all [setWorker]
  · intro w s s1 hr hinv htr
    obtain ⟨hw, hub⟩ := hinv
    have h0 := hw w
    have hmx := (mutexInv s hr).1
    refine ⟨fun w1 => ?_, ?_⟩
    · have h1 := hw w1
      have hm0 := hmx w
      have hm1 := hmx w1
      clear hw hmx
      cases htr <;> simp only [setWorker, Function.update_apply, WPc.holdsLock] at * <;>
        (try split_ifs) <;> simp_all <;>
        (have h9 : ¬ w = w1 := by omega
         simp_all)
    · clear hw hmx
      cases htr <;> simp_all [setWorker]

theorem range'_one_succ (n : Nat) (h : 1 ≤ n) :
    List.range' 1 (n - 1) ++ [n] = List.range' 1 n := by
  obtain ⟨k, rfl⟩ : ∃ k, n = k + 1 := ⟨n - 1, by omega⟩
  rw [List.range'_concat]
  simp [Nat.add_comm]

theorem idxInv : ∀ s, Reachable s → IdxInv s := by
  apply reachable_invariant
  · simp [IdxInv, init]
  · intro s s1 _ hinv htr
    cases htr <;> simp_all [IdxInv, setWorker] <;>
      first
      | omega
      | exact range'_one_succ _ hinv.1
  · intro w s s1 _ hinv htr
    cases htr <;> simp_all [IdxInv, setWorker]

theorem queueInv : ∀ s, Reachable s → QueueInv s := by
  apply reachable_invariant
  · simp [QueueInv, init]
  · intro s s1 _ hinv htr
    obtain ⟨h1, h2⟩ := hinv
    cases htr <;> simp_all [QueueInv, setWorker, push_back]
    refine ⟨by rw [← h1]; simp, ?_⟩
    rintro t (ht | rfl)
    · exact h2 t ht
    · rfl
  · intro w s s1 _ hinv htr
    obtain ⟨h1, h2⟩ := hinv
    cases htr <;> simp_all [QueueInv, setWorker]

theorem pushed_nodup (s : State) (hr : Reachable s) : s.pushed.Nodup := by
  have h := idxInv s hr
  unfold IdxInv at h
  split at h <;> simp_all [List.nodup_range']

/-- The ids popped so far and the ids still queued are pairwise distinct. -/
theorem popped_queue_nodup (s : State) (hr : Reachable s) :
    (s.popped.map Prod.snd ++ s.task_q.map Task.id).Nodup := by
  rw [(queueInv s hr).1]
  exact pushed_nodup s hr

theorem holdInv : ∀ s, Reachable s → HoldInv s := by
  apply reachable_invariant
  · simp [HoldInv, init]
  · intro s s1 hr hinv htr w1
    have h1 := hinv w1
    have h3 := (spawnInv s hr).1 s.i
    clear hinv
    cases htr <;> simp only [setWorker, Function.update_apply, spawnedCount] at * <;>
      (try split_ifs) <;> simp_all
  · intro w s s1 hr hinv htr w1
    have h0 := hinv w
    have h1 := hinv w1
    have hp := (popInv s hr).1 w
    clear hinv
    cases htr <;> simp only [setWorker, Function.update_apply] at * <;>
      (try split_ifs) <;> simp_all

theorem poppedInv : ∀ s, Reachable s → PoppedInv s := by
  apply reachable_invariant
  · simp [PoppedInv, init]
  · intro s s1 hr hinv htr
    obtain ⟨ha, hb⟩ := hinv
    refine ⟨fun w1 t1 => ?_, ?_⟩
    · have h1 := ha w1 t1
      clear ha
      cases htr <;> simp only [setWorker, Function.update_apply] at * <;>
        (try split_ifs) <;> simp_all
    · cases htr <;> simp_all [setWorker]
  · intro w s s1 hr hinv htr
    obtain ⟨ha, hb⟩ := hinv
    have hq := (queueInv s hr).2
    refine ⟨fun w1 t1 => ?_, ?_⟩
    · have h1 := ha w1 t1
      have h0 := ha w
      clear ha
      cases htr <;> simp only [setWorker, Function.update_apply] at * <;>
        (try split_ifs) <;> simp_all <;>
        (intro h
         subst h
         exact hq.1)
    · have h0 := ha w
      clear ha
      cases htr <;> simp_all [setWorker] <;>
        (rintro a b (h | ⟨rfl, rfl⟩)
         · exact hb a b h
         · exact h0.1)

theorem not_popped_of_head (s : State) (hr : Reachable s) (t : Task) (q : List Task)
    (hq : s.task_q = t :: q) : ∀ w, (w, t.id) ∉ s.popped := by
  intro w hw
  have h := popped_queue_nodup s hr
  rw [hq, List.map_cons, List.nodup_append] at h
  exact h.2.2 (List.mem_map_of_mem Prod.snd hw) (List.mem_cons_self _ _)

theorem onceInv : ∀ s, Reachable s → OnceInv s := by
  apply reachable_invariant
  · simp [OnceInv, init]
  · intro s s1 hr hinv htr
    obtain ⟨ha, hb, hc⟩ := hinv
    refine ⟨fun w1 t1 => ?_, fun w1 w2 t1 t2 => ?_, ?_⟩
    · have h1 := ha w1 t1
      clear ha hb
      cases htr <;> simp only [setWorker, Function.update_apply] at * <;>
        (try split_ifs) <;> first | assumption | (simp_all <;> assumption)
    · have h1 := hb w1 w2 t1 t2
      clear ha hb
      cases htr <;> simp only [setWorker, Function.update_apply] at * <;>
        (try split_ifs) <;> first | assumption | (simp_all <;> assumption)
    · cases htr <;> first | assumption | simp_all [setWorker]
  · intro w s s1 hr hinv htr
    obtain ⟨ha, hb, hc⟩ := hinv
    refine ⟨fun w1 t1 => ?_, fun w1 w2 t1 t2 => ?_, ?_⟩
    · have h1 := ha w1 t1
      cases htr
      case pop t q hab hpc hq =>
        simp only [setWorker, Function.update_apply]
        split_ifs with hw1
        · intro ht hmem
          simp only [Option.some.injEq] at ht
          subst ht
          obtain ⟨x, hx, hxt⟩ := List.mem_map.1 hmem
          have hxp := (poppedInv s hr).2 x hx
          exact not_popped_of_head s hr t q hq x.1 (by rw [← hxt]; exact hxp)
        · exact h1
      case run t hab hpc ht hsh =>
        simp only [setWorker, Function.update_apply]
        split_ifs with hw1
        · simp
        · intro ht1
          have hne : t.id ≠ t1.id := fun h => hw1 (hb w w1 t t1 ht ht1 h).symm
          have := h1 ht1
          simp only [List.map_append, List.map_cons, List.map_nil, List.mem_append,
            List.mem_singleton, not_or]
          exact ⟨this, fun h => hne h.symm⟩
      all_goals
        clear ha hb
        simp only [setWorker, Function.update_apply] at *
        (try split_ifs) <;> first | assumption | (simp_all <;> assumption)
    · have h1 := hb w1 w2 t1 t2
      cases htr
      case pop t q hab hpc hq =>
        have hnp := not_popped_of_head s hr t q hq
        have hp := (poppedInv s hr).1
        simp only [setWorker, Function.update_apply]
        split_ifs with hw1 hw2 hw2
        · intro _ _ _
          rw [hw1, hw2]
        · intro ht ht2 hid
          simp only [Option.some.injEq] at ht
          subst ht
          exact absurd (by rw [hid]; exact (hp w2 t2 ht2).1) (hnp w2)
        · intro ht1 ht hid
          simp only [Option.some.injEq] at ht
          subst ht
          exact absurd (by rw [← hid]; exact (hp w1 t1 ht1).1) (hnp w1)
        · exact h1
      all_goals
        clear ha hb
        simp only [setWorker, Function.update_apply] at *
        (try split_ifs) <;> first | assumption | (simp_all <;> assumption)
    · have h0 := ha w
      clear ha hb
      cases htr
      case run t hab hpc ht hsh =>
        have := h0 t ht
        simp only [List.map_append, List.map_cons, List.map_nil]
        rw [List.nodup_append]
        refine ⟨hc, List.nodup_singleton _, ?_⟩
        intro a ha1 ha2
        simp only [List.mem_singleton] at ha2
        subst ha2
        exact this ha1
      all_goals first | assumption | simp_all [setWorker]

theorem sharedInv : ∀ s, Reachable s → SharedInv s := by
  apply reachable_invariant
  · simp [SharedInv, init]
  · intro s s1 hr hinv htr i
    have h1 := hinv i
    clear hinv
    cases htr <;> first | assumption | (simp_all [setWorker] <;> assumption)
  · intro w s s1 hr hinv htr i
    have h1 := hinv i
    clear hinv
    cases htr
    case run t hab hpc ht hsh =>
      have hfn := ((poppedInv s hr).1 w t ht).2
      simp only [setWorker, Function.update_apply]
      split_ifs with hi
      · subst hi
        intro _
        simp [hfn, resolveWith]
      · intro hne
        have := h1 hne
        simp only [List.map_append, List.mem_append]
        exact ⟨Or.inl this.1, this.2⟩
    all_goals first | assumption | (simp_all [setWorker] <;> assumption)

/-- No exception ever leaves a thread: the process is never aborted. -/
theorem not_aborted : ∀ s, Reachable s → s.aborted = false := by
  apply reachable_invariant
  · rfl
  · intro s s1 hr hinv htr
    cases htr
    case get_raise e hab hpc hsh =>
      have := (sharedInv s hr s.i (by simp [hsh])).2
      simp [hsh] at this
    all_goals first | assumption | simp_all [setWorker]
  · intro w s s1 hr hinv htr
    cases htr
    case run_nostate hab hpc ht =>
      exact absurd ht ((holdInv s hr w).2 (Or.inr hpc))
    case run_twice t hab hpc ht hsh =>
      exact absurd (sharedInv s hr t.id hsh).1 ((onceInv s hr).1 w t ht)
    all_goals first | assumption | simp_all [setWorker]

theorem gotInv : ∀ s, Reachable s → GotInv s := by
  apply reachable_invariant
  · simp [GotInv, init]
  · intro s s1 hr hinv htr
    cases htr
    case get v hab hpc hsh =>
      intro x hx
      simp only [List.mem_append, List.mem_singleton] at hx
      rcases hx with hx | rfl
      · exact hinv x hx
      · exact hsh
    all_goals exact hinv
  · intro w s s1 hr hinv htr
    cases htr
    case run t hab hpc ht hsh =>
      intro x hx
      have := hinv x hx
      have hne : x.1 ≠ t.id := by
        intro h
        rw [h, hsh] at this
        simp at this
      simp only [setWorker, Function.update_apply, if_neg hne]
      exact this
    all_goals exact hinv

theorem gotIdxInv : ∀ s, Reachable s → GotIdxInv s := by
  apply reachable_invariant
  · simp [GotIdxInv, init]
  · intro s s1 hr hinv htr
    have hidx := idxInv s hr
    cases htr <;> simp_all [GotIdxInv, setWorker, IdxInv] <;>
      first
      | omega
      | exact range'_one_succ _ hidx.1
  · intro w s s1 hr hinv htr
    cases htr <;> first | exact hinv | simp_all [GotIdxInv, setWorker]

theorem WPc.awake_of_ne (pc : WPc) (h1 : pc ≠ WPc.waiting) (h2 : pc ≠ WPc.notStarted)
    (h3 : pc ≠ WPc.finished) : pc.awake := by
  cases pc <;> simp_all [WPc.awake]

/-- A started worker has an index below `num_workers`. -/
theorem lt_num_workers_of_started (s : State) (hr : Reachable s) (w : Nat)
    (h : (s.workers w).pc ≠ WPc.notStarted) : w < num_workers := by
  have hs := spawnInv s hr
  have h1 := (hs.1 w).not.1 h
  have h2 := hs.2.1
  omega

/-- While main is in the spawn loop the queue is empty. -/
theorem queue_empty_of_spawnLoop (s : State) (hr : Reachable s) (h : s.mainPc = MPc.spawnLoop) :
    s.task_q = [] := by
  have h1 := idxInv s hr
  have h2 := (queueInv s hr).1
  simp only [IdxInv, h] at h1
  rw [h1] at h2
  simpa using (List.append_eq_nil.1 h2).2

theorem wakeInv : ∀ s, Reachable s → WakeInv s := by
  apply reachable_invariant
  · simp [WakeInv, init]
  · intro s s1 hr hinv htr
    cases htr
    case spawn hab hpc hi =>
      intro hq
      exact absurd (queue_empty_of_spawnLoop s hr hpc) hq
    case push hab hpc => exact fun _ => Or.inl (Or.inl rfl)
    case unlock hab hpc => exact fun _ => Or.inl (Or.inr rfl)
    case notify_none hab hpc hn =>
      intro _
      refine Or.inr ⟨0, by decide, ?_⟩
      have hs := spawnInv s hr
      apply WPc.awake_of_ne
      · have := List.all_eq_true.1 hn 0 (by simp [num_workers])
        simpa using this
      · rw [Ne, hs.1 0]
        simp [spawnedCount, hpc, num_workers]
      · exact hs.2.2 0
    all_goals
      intro hq
      have := hinv hq
      simp_all
  · intro w s s1 hr hinv htr
    have hlt : (s.workers w).pc ≠ WPc.notStarted → w < num_workers :=
      lt_num_workers_of_started s hr w
    cases htr
    case wait hab hpc hq => exact fun h => absurd hq h
    case run_nostate hab hpc ht => exact hinv
    case run_twice t hab hpc ht hsh => exact hinv
    case notify_one hab hpc hw hwt =>
      exact fun _ => Or.inr ⟨w, hw, by simp [setWorker, WPc.awake]⟩
    all_goals
      intro _
      refine Or.inr ⟨w, hlt (by simp_all), by simp [setWorker, WPc.awake]⟩

theorem reachable_runD (ls : List Label) (s : State) (hr : Reachable s) :
    Reachable (runD ls s) := by
  unfold runD
  cases h : run ls s with
  | none => simpa using hr
  | some s1 => simpa using reachable_run ls s s1 hr h

/-- The workers of 0x19: in every reachable state (every interleaving of main and the workers,
spurious wake-ups included) `front()`/`pop_front()` has never run on an empty deque; a worker
standing before the pop holds the mutex and sees a non-empty queue; and a worker only gets there
from the predicate check of the wait, evaluated under the mutex on a non-empty queue. -/
theorem pop_only_after_check (s : State) (hr : Reachable s) :
    s.ub = false ∧
    (∀ w, (s.workers w).pc = WPc.pop → s.task_q ≠ [] ∧ s.task_q_mutex = some (Tid.worker w)) ∧
    (∀ l s1 w, step l s = some s1 → (s1.workers w).pc = WPc.pop → (s.workers w).pc ≠ WPc.pop →
      (s.workers w).pc = WPc.check ∧ s.task_q ≠ [] ∧ s.task_q_mutex = some (Tid.worker w)) := by
  have hp := popInv s hr
  have hm := mutexInv s hr
  refine ⟨hp.2, fun w hw => ⟨hp.1 w hw, (hm.1 w).2 (Or.inr (Or.inl hw))⟩, ?_⟩
  intro l s1 w hst h1 h0
  have key : (s.workers w).pc = WPc.check ∧ s.task_q ≠ [] := by
    rcases step_sound l s s1 hst with h | ⟨w0, h⟩
    · cases h <;> simp only [setWorker, Function.update_apply] at h1 <;>
        (try split_ifs at h1) <;> simp_all
    · cases h <;> simp only [setWorker, Function.update_apply] at h1 <;>
        (try split_ifs at h1) <;> simp_all
  exact ⟨key.1, key.2, (hm.1 w).2 (Or.inl key.1)⟩

/-- The value of `query_database` for a non-negative id, digit by digit. -/
theorem query_database_natCast (i : Nat) :
    query_database (i : Int) = "Result of query " ++ Nat.repr i := rfl

/-- An executable schedule leads to `runD`. -/
theorem run_runD (ls : List Label) (s : State) (h : (run ls s).isSome = true) :
    run ls s = some (runD ls s) := by
  unfold runD
  cases h1 : run ls s with
  | none => simp [h1] at h
  | some s1 => simp

/-- Every value main has read is `query_database` of the task's id. -/
theorem got_value (s : State) (hr : Reachable s) (x : Nat × String) (hx : x ∈ s.got) :
    x.2 = query_database x.1 := by
  have h1 := gotInv s hr x hx
  have h2 := (sharedInv s hr x.1 (by simp [h1])).2
  rw [h1] at h2
  exact SharedState.ready.inj h2

theorem got_eq_map (s : State) (hr : Reachable s) :
    s.got = (s.got.map Prod.fst).map (fun i : Nat => (i, query_database (i : Int))) := by
  rw [List.map_map]
  conv_lhs => rw [← List.map_id s.got]
  apply List.map_congr_left
  intro x hx
  have := got_value s hr x hx
  simp only [id, Function.comp]
  rw [← this]

theorem joinInv : ∀ s, Reachable s → JoinInv s := by
  apply reachable_invariant
  · simp [JoinInv, init]
  · intro s s1 hr hinv htr
    have hf := (spawnInv s hr).2.2 s.i
    cases htr <;> simp_all [JoinInv, setWorker, num_workers]
  · intro w s s1 hr hinv htr
    cases htr <;> first | exact hinv | simp_all [JoinInv, setWorker]

/-- When main has left the task loop, all five ids have been invoked and nothing is queued. -/
theorem drained_at_join (s : State) (hr : Reachable s) (hpc : s.mainPc = MPc.joinLoop) :
    s.task_q = [] ∧
    ∀ i, 1 ≤ i → i ≤ 5 →
      s.shared i = SharedState.ready (query_database i) ∧ i ∈ s.invoked.map Prod.snd := by
  have hg := gotIdxInv s hr
  simp only [GotIdxInv, hpc] at hg
  have hres : ∀ i, 1 ≤ i → i ≤ 5 →
      s.shared i = SharedState.ready (query_database i) ∧ i ∈ s.invoked.map Prod.snd := by
    intro i h1 h5
    have hi : i ∈ s.got.map Prod.fst := by
      rw [hg, List.mem_range'_1]
      omega
    obtain ⟨x, hx, rfl⟩ := List.mem_map.1 hi
    have h2 := gotInv s hr x hx
    have h3 := sharedInv s hr x.1 (by simp [h2])
    exact ⟨h3.2, h3.1⟩
  refine ⟨?_, hres⟩
  have hidx := idxInv s hr
  simp only [IdxInv, hpc] at hidx
  have hq := (queueInv s hr).1
  rw [hidx] at hq
  have hsub : List.range' 1 5 ⊆ s.popped.map Prod.snd := by
    intro i hi
    rw [List.mem_range'_1] at hi
    obtain ⟨x, hx, hxi⟩ := List.mem_map.1 (hres i hi.1 (by omega)).2
    rw [← hxi]
    exact List.mem_map_of_mem Prod.snd ((poppedInv s hr).2 x hx)
  have hlen := (List.subperm_of_subset (List.nodup_range' 1 5) hsub).length_le
  have hlen2 := congrArg List.length hq
  simp only [List.length_append, List.length_map, List.length_range'] at hlen hlen2
  exact List.length_eq_zero.1 (by omega)

theorem run_append (l1 l2 : List Label) : ∀ s : State,
    run (l1 ++ l2) s = (run l1 s).bind (run l2) := by
  induction l1 with
  | nil => intro s; rfl
  | cons l l1 ih =>
    intro s
    simp only [List.cons_append, run]
    cases step l s with
    | none => rfl
    | some s1 => exact ih s1

/-- A turn of a worker that starts at the head of its loop with the mutex free and a pending
task `t` at the head of the queue: the task is removed and its outcome, value or exception,
is stored in its shared state; the worker is back at the head of its loop. -/
theorem workerTurn_spec (s : State) (w : Nat) (t : Task) (q : List Task)
    (hab : s.aborted = false) (hpc : (s.workers w).pc = WPc.lock) (hm : s.task_q_mutex = none)
    (hq : s.task_q = t :: q) (hsh : s.shared t.id = SharedState.pending) :
    ∃ s1, run (workerTurn w) s = some s1 ∧ s1.aborted = false ∧
      (s1.workers w).pc = WPc.lock ∧ s1.task_q_mutex = none ∧ s1.task_q = q ∧
      s1.shared = Function.update s.shared t.id (resolveWith t.fn) := by
  cases hfn : t.fn <;>
  simp [workerTurn, run, step, worker_thread, setWorker, hab, hpc, hm, hq, hsh, front, pop_front,
    empty, packaged_task_invoke, resolveWith, hfn, List.replicate]

/-- A worker at the head of its loop, scheduled alone, executes every queued task, whatever the
outcome of each: all are removed and each shared state receives the outcome of its own task. -/
theorem drain_spec (w : Nat) : ∀ (ts : List Task) (s : State), s.aborted = false →
    (s.workers w).pc = WPc.lock → s.task_q_mutex = none → s.task_q = ts →
    (ts.map Task.id).Nodup → (∀ t ∈ ts, s.shared t.id = SharedState.pending) →
    ∃ s1, run (drainSched w ts.length) s = some s1 ∧ s1.aborted = false ∧
      (s1.workers w).pc = WPc.lock ∧ s1.task_q_mutex = none ∧ s1.task_q = [] ∧
      (∀ t ∈ ts, s1.shared t.id = resolveWith t.fn) ∧
      (∀ i, i ∉ ts.map Task.id → s1.shared i = s.shared i) := by
  intro ts
  induction ts with
  | nil =>
    intro s hab hpc hm hq _ _
    exact ⟨s, rfl, hab, hpc, hm, hq, by simp, fun _ _ => rfl⟩
  | cons t ts ih =>
    intro s hab hpc hm hq hnd hpend
    obtain ⟨s1, hrun, hab1, hpc1, hm1, hq1, hsh1⟩ :=
      workerTurn_spec s w t ts hab hpc hm hq (hpend t (List.mem_cons_self _ _))
    rw [List.map_cons, List.nodup_cons] at hnd
    have hpend1 : ∀ t1 ∈ ts, s1.shared t1.id = SharedState.pending := by
      intro t1 ht1
      have hne : t1.id ≠ t.id := fun h => hnd.1 (h ▸ List.mem_map_of_mem Task.id ht1)
      rw [hsh1, Function.update_noteq hne]
      exact hpend t1 (List.mem_cons_of_mem _ ht1)
    obtain ⟨s2, hrun2, hab2, hpc2, hm2, hq2, hres2, hfr2⟩ := ih s1 hab1 hpc1 hm1 hq1 hnd.2 hpend1
    refine ⟨s2, ?_, hab2, hpc2, hm2, hq2, ?_, ?_⟩
    · simp only [List.length_cons, drainSched]
      rw [run_append, hrun]
      exact hrun2
    · intro t1 ht1
      rcases List.mem_cons.1 ht1 with rfl | ht1
      · rw [hfr2 _ hnd.1, hsh1, Function.update_same]
      · exact hres2 t1 ht1
    · intro i hi
      simp only [List.map_cons, List.mem_cons, not_or] at hi
      rw [hfr2 i hi.2, hsh1, Function.update_noteq hi.1]

/-- A resolved shared state is never written again, from any state and by any step. -/
theorem resolved_is_stable (l : Label) (s s1 : State) (i : Nat) (hst : step l s = some s1)
    (hres : s.shared i ≠ SharedState.pending) : s1.shared i = s.shared i := by
  rcases step_sound l s s1 hst with h | ⟨w, h⟩
  · cases h <;> rfl
  · cases h
    case run t hab hpc ht hsh =>
      have hne : i ≠ t.id := fun h => hres (h ▸ hsh)
      simp [setWorker, Function.update_noteq hne]
    all_goals rfl

theorem Removes.cons (l : Label) (s s1 : State) (ls : List Label) (hl : ∀ w, l ≠ Label.spurious w)
    (hst : step l s = some s1) (hp : s1.popped = s.popped) (h : Removes s1 ls) :
    Removes s (l :: ls) := by
  obtain ⟨h1, s2, h2, h3⟩ := h
  refine ⟨?_, s2, by simp [run, hst, h2], by rw [h3, hp]⟩
  intro l1 hl1 w
  rcases List.mem_cons.1 hl1 with rfl | hl1
  · exact hl w
  · exact h1 l1 hl1 w

/-- A worker standing before the pop with a non-empty queue removes the head in one step. -/
theorem removes_from_pop (s : State) (w : Nat) (hab : s.aborted = false)
    (hpc : (s.workers w).pc = WPc.pop) (hq : s.task_q ≠ []) : Removes s [Label.worker w] := by
  refine ⟨by simp, ?_⟩
  cases hq1 : s.task_q with
  | nil => exact absurd hq1 hq
  | cons t q => simp [run, step, worker_thread, hab, hpc, hq1, front, setWorker]

/-- A worker at the predicate check with a non-empty queue removes the head in two steps. -/
theorem removes_from_check (s : State) (w : Nat) (hab : s.aborted = false)
    (hpc : (s.workers w).pc = WPc.check) (hq : s.task_q ≠ []) :
    Removes s [Label.worker w, Label.worker w] := by
  have hst : step (Label.worker w) s = some (setWorker s w WPc.pop none) := by
    cases hq1 : s.task_q with
    | nil => exact absurd hq1 hq
    | cons t q => simp [step, worker_thread, hab, hpc, hq1, empty]
  exact Removes.cons _ s _ _ (by simp) hst rfl
    (removes_from_pop _ w hab (by simp [setWorker]) hq)

/-- A worker waiting only for the free mutex, with a non-empty queue, removes the head in three
steps. -/
theorem removes_from_acquire (s : State) (w : Nat) (hab : s.aborted = false)
    (hpc : (s.workers w).pc = WPc.lock ∨ (s.workers w).pc = WPc.woken)
    (hm : s.task_q_mutex = none) (hq : s.task_q ≠ []) :
    Removes s [Label.worker w, Label.worker w, Label.worker w] := by
  have hst : step (Label.worker w) s =
      some { setWorker s w WPc.check none with task_q_mutex := some (Tid.worker w) } := by
    rcases hpc with hpc | hpc <;> simp [step, worker_thread, hab, hpc, hm]
  exact Removes.cons _ s _ _ (by simp) hst rfl
    (removes_from_check _ w hab (by simp [setWorker]) hq)

/-- A worker about to invoke a pending task, with the mutex free and a non-empty queue, removes
the head in four steps. -/
theorem removes_from_run (s : State) (w : Nat) (t : Task) (hab : s.aborted = false)
    (hpc : (s.workers w).pc = WPc.run) (ht : (s.workers w).task = some t)
    (hsh : s.shared t.id = SharedState.pending)
    (hm : s.task_q_mutex = none) (hq : s.task_q ≠ []) :
    Removes s [Label.worker w, Label.worker w, Label.worker w, Label.worker w] := by
  have hst : step (Label.worker w) s =
      some { setWorker s w WPc.lock none with
              shared := Function.update s.shared t.id (resolveWith t.fn)
              invoked := s.invoked ++ [(w, t.id)] } := by
    cases hfn : t.fn <;>
      simp [step, worker_thread, hab, hpc, ht, hsh, hfn, packaged_task_invoke, resolveWith]
  exact Removes.cons _ s _ _ (by simp) hst rfl
    (removes_from_acquire _ w hab (Or.inl (by simp [setWorker])) hm hq)

/-- The task a worker holds is pending. -/
theorem held_task_pending (s : State) (hr : Reachable s) (w : Nat) (t : Task)
    (ht : (s.workers w).task = some t) : s.shared t.id = SharedState.pending := by
  by_contra h
  exact (onceInv s hr).1 w t ht (sharedInv s hr t.id h).1

/-- While some worker is blocked in the wait, `noWaiter` is false, and conversely. -/
theorem noWaiter_eq_false (s : State) (h : noWaiter s = false) :
    ∃ w, w < num_workers ∧ (s.workers w).pc = WPc.waiting := by
  by_contra hne
  have : noWaiter s = true := by
    unfold noWaiter
    rw [List.all_eq_true]
    intro w hw
    have hw1 : w < num_workers := List.mem_range.1 hw
    simp only [decide_eq_true_eq]
    exact fun hpc => hne ⟨w, hw1, hpc⟩
  rw [h] at this
  exact Bool.false_ne_true this

theorem removes_of_awake (s : State) (hr : Reachable s) (w : Nat)
    (hw : (s.workers w).pc.awake) (hm : s.task_q_mutex = none) (hq : s.task_q ≠ []) :
    ∃ ls, Removes s ls := by
  have hab := not_aborted s hr
  have hmx := (mutexInv s hr).1 w
  rw [hm] at hmx
  have hnl : ¬ (s.workers w).pc.holdsLock := fun h => by simpa using hmx.2 h
  unfold WPc.holdsLock at hnl
  unfold WPc.awake at hw
  rcases hw with h | h | h | h | h | h
  · exact ⟨_, removes_from_acquire s w hab (Or.inl h) hm hq⟩
  · exact absurd (Or.inl h) hnl
  · exact ⟨_, removes_from_acquire s w hab (Or.inr h) hm hq⟩
  · exact absurd (Or.inr (Or.inl h)) hnl
  · exact absurd (Or.inr (Or.inr h)) hnl
  · cases ht : (s.workers w).task with
    | none => exact absurd ht ((holdInv s hr w).2 (Or.inr h))
    | some t => exact ⟨_, removes_from_run s w t hab h ht (held_task_pending s hr w t ht) hm hq⟩

/-- With the mutex free and a task queued, some worker removes the head of the queue within a
few steps, none of them a spurious wake-up. -/
theorem removes_of_free (s : State) (hr : Reachable s) (hm : s.task_q_mutex = none)
    (hq : s.task_q ≠ []) : ∃ ls, Removes s ls := by
  have hab := not_aborted s hr
  by_cases hpc : s.mainPc = MPc.notify
  · cases hn : noWaiter s with
    | false =>
      obtain ⟨w, hw, hwt⟩ := noWaiter_eq_false s hn
      have hst : step (Label.notifyOne w) s =
          some { setWorker s w WPc.woken none with mainPc := MPc.print } := by
        simp [step, hab, hpc, hw, hwt]
      exact ⟨_, Removes.cons _ s _ _ (by simp) hst rfl
        (removes_from_acquire _ w hab (Or.inr (by simp [setWorker])) hm hq)⟩
    | true =>
      have hs := spawnInv s hr
      have h0 : (s.workers 0).pc.awake := by
        apply WPc.awake_of_ne
        · have := List.all_eq_true.1 hn 0 (by simp [num_workers])
          simpa using this
        · rw [Ne, hs.1 0]
          simp [spawnedCount, hpc, num_workers]
        · exact hs.2.2 0
      exact removes_of_awake s hr 0 h0 hm hq
  · rcases wakeInv s hr hq with (h | h) | ⟨w, _, hw⟩
    · have := (mutexInv s hr).2.2 (Or.inr h)
      rw [hm] at this
      simp at this
    · exact absurd h hpc
    · exact removes_of_awake s hr w hw hm hq

/-- In every reachable state with a task queued, some worker removes the head of the queue
within a few steps, none of them a spurious wake-up. -/
theorem removes_of_nonempty (s : State) (hr : Reachable s) (hq : s.task_q ≠ []) :
    ∃ ls, Removes s ls := by
  have hab := not_aborted s hr
  have hmx := mutexInv s hr
  cases hm : s.task_q_mutex with
  | none => exact removes_of_free s hr hm hq
  | some o =>
    cases o with
    | main =>
      have hpc := hmx.2.1 hm
      have hunlock : ∀ s0 : State, Reachable s0 → s0.mainPc = MPc.unlock → s0.task_q ≠ [] →
          ∃ ls, Removes s0 ls := by
        intro s0 hr0 hpc0 hq0
        have hab0 := not_aborted s0 hr0
        have hst : step Label.main s0 =
            some { s0 with task_q_mutex := none, mainPc := MPc.notify } := by
          simp [step, main, hab0, hpc0]
        obtain ⟨ls, h⟩ := removes_of_free _ (Reachable.step _ s0 _ hr0 hst) rfl hq0
        exact ⟨_, Removes.cons _ s0 _ _ (by simp) hst rfl h⟩
      rcases hpc with hpc | hpc
      · have hst : step Label.main s =
            some { s with
                    task_q := push_back s.task_q ⟨s.i, Except.ok (query_database s.i)⟩
                    pushed := s.pushed ++ [s.i]
                    mainPc := MPc.unlock } := by
          simp [step, main, hab, hpc]
        obtain ⟨ls, h⟩ := hunlock _ (Reachable.step _ s _ hr hst) rfl (by simp [push_back])
        exact ⟨_, Removes.cons _ s _ _ (by simp) hst rfl h⟩
      · exact hunlock s hr hpc hq
    | worker w =>
      have hpc := (hmx.1 w).1 hm
      rcases hpc with hpc | hpc | hpc
      · exact ⟨_, removes_from_check s w hab hpc hq⟩
      · exact ⟨_, removes_from_pop s w hab hpc hq⟩
      · have hst : step (Label.worker w) s =
            some { setWorker s w WPc.run (s.workers w).task with task_q_mutex := none } := by
          simp [step, worker_thread, hab, hpc]
        obtain ⟨ls, h⟩ := removes_of_free _ (Reachable.step _ s _ hr hst) rfl hq
        exact ⟨_, Removes.cons _ s _ _ (by simp) hst rfl h⟩

theorem resolveWith_ne_pending {α : Type} (fn : Except Exn α) :
    resolveWith fn ≠ SharedState.pending := by
  cases fn <;> simp [resolveWith]

theorem invokedInv : ∀ s, Reachable s → InvokedInv s := by
  apply reachable_invariant
  · simp [InvokedInv, init]
  · intro s s1 hr hinv htr
    cases htr <;> exact hinv
  · intro w s s1 hr hinv htr
    cases htr
    case run t hab hpc ht hsh =>
      intro x hx
      simp only [setWorker, Function.update_apply]
      split_ifs with h
      · exact resolveWith_ne_pending _
      · simp only [List.mem_append, List.mem_singleton] at hx
        rcases hx with hx | rfl
        · exact hinv x hx
        · exact absurd rfl h
    all_goals exact hinv

theorem poppedHeldInv : ∀ s, Reachable s → PoppedHeldInv s := by
  apply reachable_invariant
  · simp [PoppedHeldInv, init]
  · intro s s1 hr hinv htr
    cases htr
    case spawn hab hpc hi =>
      intro x hx
      have h1 := hinv x hx
      have h2 := (holdInv s hr s.i).1
      have h3 := ((spawnInv s hr).1 s.i).2 (by simp [spawnedCount, hpc])
      simp only [setWorker, Function.update_apply]
      split_ifs with h
      · rw [h] at h1
        rcases h1 with h1 | ⟨t, ht, _⟩
        · exact Or.inl h1
        · have := h2 (by simp [ht])
          simp [h3] at this
      · exact h1
    all_goals exact hinv
  · intro w s s1 hr hinv htr
    have hh := holdInv s hr w
    have key : ∀ pc, (s.workers w).task = none → ∀ x ∈ s.popped,
        x ∈ s.invoked ∨ ∃ t, ((setWorker s w pc none).workers x.1).task = some t ∧ t.id = x.2 := by
      intro pc hnone x hx
      rcases hinv x hx with h1 | ⟨t, ht, hid⟩
      · exact Or.inl h1
      · refine Or.inr ⟨t, ?_, hid⟩
        simp only [setWorker, Function.update_apply]
        split_ifs with h
        · rw [h, hnone] at ht
          simp at ht
        · exact ht
    have hnone : ∀ pc, (s.workers w).pc = pc → pc ≠ WPc.unlock → pc ≠ WPc.run →
        (s.workers w).task = none := by
      intro pc hpc h1 h2
      by_contra h
      rcases hh.1 h with h3 | h3
      · exact h1 (hpc ▸ h3)
      · exact h2 (hpc ▸ h3)
    cases htr
    case lock hab hpc hm => exact key _ (hnone _ hpc (by simp) (by simp))
    case wait hab hpc hq => exact key _ (hnone _ hpc (by simp) (by simp))
    case go hab hpc hq => exact key _ (hnone _ hpc (by simp) (by simp))
    case woken hab hpc hm => exact key _ (hnone _ hpc (by simp) (by simp))
    case pop_ub hab hpc hq => exact key _ (hnone _ hpc (by simp) (by simp))
    case spurious hab hpc => exact key _ (hnone _ hpc (by simp) (by simp))
    case notify_one hab hpc hw hwt => exact key _ (hnone _ hwt (by simp) (by simp))
    case run_nostate hab hpc ht => exact hinv
    case run_twice t hab hpc ht hsh => exact hinv
    case pop t q hab hpc hq =>
      have hn := hnone _ hpc (by simp) (by simp)
      intro x hx
      simp only [List.mem_append, List.mem_singleton] at hx
      rcases hx with hx | rfl
      · rcases hinv x hx with h1 | ⟨t1, ht1, hid⟩
        · exact Or.inl h1
        · refine Or.inr ⟨t1, ?_, hid⟩
          simp only [setWorker, Function.update_apply]
          split_ifs with h
          · rw [h, hn] at ht1
            simp at ht1
          · exact ht1
      · exact Or.inr ⟨t, by simp [setWorker], rfl⟩
    case unlock hab hpc =>
      intro x hx
      rcases hinv x hx with h1 | ⟨t1, ht1, hid⟩
      · exact Or.inl h1
      · refine Or.inr ⟨t1, ?_, hid⟩
        simp only [setWorker, Function.update_apply]
        split_ifs with h
        · rw [h] at ht1
          exact ht1
        · exact ht1
    case run t hab hpc ht hsh =>
      intro x hx
      rcases hinv x hx with h1 | ⟨t1, ht1, hid⟩
      · exact Or.inl (List.mem_append_left _ h1)
      · simp only [setWorker, Function.update_apply]
        by_cases h : x.1 = w
        · left
          rw [h, ht] at ht1
          simp only [Option.some.injEq] at ht1
          subst ht1
          have : x = (w, t.id) := Prod.ext h hid.symm
          rw [this]
          simp
        · right
          exact ⟨t1, by simp [h, ht1], hid⟩

theorem WPc.weight_le (pc : WPc) : pc.weight ≤ 5 := by
  cases pc <;> simp [WPc.weight]

theorem workDist_le (s : State) : workDist s ≤ 15 := by
  have h0 := (s.workers 0).pc.weight_le
  have h1 := (s.workers 1).pc.weight_le
  have h2 := (s.workers 2).pc.weight_le
  unfold workDist
  omega

theorem measure_lt_of_main (s s1 : State) (h : mainRemaining s1 < mainRemaining s) :
    progressMeasure s1 < progressMeasure s := by
  have h1 := workDist_le s1
  unfold progressMeasure
  omega

theorem workDist_setWorker (s : State) (w : Nat) (pc : WPc) (t : Option Task)
    (hw : w < num_workers) :
    workDist (setWorker s w pc t) + (s.workers w).pc.weight = workDist s + pc.weight := by
  unfold num_workers at hw
  interval_cases w <;> simp [workDist, setWorker] <;> omega

theorem invoked_length_le (s : State) (hr : Reachable s) : s.invoked.length ≤ 5 := by
  have hnd := (onceInv s hr).2.2
  have hsub : s.invoked.map Prod.snd ⊆ s.pushed := by
    intro i hi
    obtain ⟨x, hx, rfl⟩ := List.mem_map.1 hi
    rw [← (queueInv s hr).1]
    exact List.mem_append_left _ (List.mem_map_of_mem Prod.snd ((poppedInv s hr).2 x hx))
  have hlen := (List.subperm_of_subset hnd hsub).length_le
  have hp : s.pushed.length ≤ 5 := by
    have h := idxInv s hr
    unfold IdxInv at h
    split at h <;> simp_all <;> omega
  simp only [List.length_map] at hlen
  omega

theorem measure_lt_of_worker (s s1 : State) (hR : mainRemaining s1 = mainRemaining s)
    (hI : s1.invoked = s.invoked) (hD : workDist s1 < workDist s) :
    progressMeasure s1 < progressMeasure s := by
  unfold progressMeasure
  rw [hR, hI]
  omega

/-- The owner of the mutex can always take a step, and it brings it closer to its invocation. -/
theorem progress_owner (s : State) (hr : Reachable s) (w : Nat)
    (hm : s.task_q_mutex = some (Tid.worker w)) : Progress s := by
  have hab := not_aborted s hr
  have hpc := ((mutexInv s hr).1 w).1 hm
  have hw : w < num_workers := by
    apply lt_num_workers_of_started s hr w
    rcases hpc with h | h | h <;> simp [h]
  rcases hpc with hpc | hpc | hpc
  · cases hq : s.task_q with
    | nil =>
      refine ⟨Label.worker w, { setWorker s w WPc.waiting none with task_q_mutex := none },
        by simp, by simp [step, worker_thread, hab, hpc, hq, empty], ?_⟩
      refine measure_lt_of_worker _ _ ?_ ?_ ?_ <;> try rfl
      have := workDist_setWorker s w WPc.waiting none hw
      simp only [hpc, WPc.weight] at this
      show workDist (setWorker s w WPc.waiting none) < workDist s
      omega
    | cons t q =>
      refine ⟨Label.worker w, setWorker s w WPc.pop none,
        by simp, by simp [step, worker_thread, hab, hpc, hq, empty], ?_⟩
      refine measure_lt_of_worker _ _ ?_ ?_ ?_ <;> try rfl
      have := workDist_setWorker s w WPc.pop none hw
      simp only [hpc, WPc.weight] at this
      omega
  · cases hq : s.task_q with
    | nil => exact absurd hq ((popInv s hr).1 w hpc)
    | cons t q =>
      refine ⟨Label.worker w,
        { setWorker s w WPc.unlock (some t) with
          task_q := q
          popped := s.popped ++ [(w, t.id)] },
        by simp, by simp [step, worker_thread, hab, hpc, hq, front, pop_front], ?_⟩
      refine measure_lt_of_worker _ _ ?_ ?_ ?_ <;> try rfl
      have := workDist_setWorker s w WPc.unlock (some t) hw
      simp only [hpc, WPc.weight] at this
      show workDist (setWorker s w WPc.unlock (some t)) < workDist s
      omega
  · refine ⟨Label.worker w,
      { setWorker s w WPc.run (s.workers w).task with task_q_mutex := none },
      by simp, by simp [step, worker_thread, hab, hpc], ?_⟩
    refine measure_lt_of_worker _ _ ?_ ?_ ?_ <;> try rfl
    have := workDist_setWorker s w WPc.run (s.workers w).task hw
    simp only [hpc, WPc.weight] at this
    show workDist (setWorker s w WPc.run (s.workers w).task) < workDist s
    omega

/-- With the mutex free, a worker that is not blocked in the wait can take a step that brings it
closer to its next invocation, or is that invocation. -/
theorem progress_awake (s : State) (hr : Reachable s) (w : Nat) (hw : w < num_workers)
    (ha : (s.workers w).pc.awake) (hm : s.task_q_mutex = none) : Progress s := by
  have hab := not_aborted s hr
  have hmx := (mutexInv s hr).1 w
  rw [hm] at hmx
  have hnl : ¬ (s.workers w).pc.holdsLock := fun h => by simpa using hmx.2 h
  unfold WPc.holdsLock at hnl
  unfold WPc.awake at ha
  have hacq : (s.workers w).pc = WPc.lock ∨ (s.workers w).pc = WPc.woken → Progress s := by
    intro hpc
    refine ⟨Label.worker w,
      { setWorker s w WPc.check none with task_q_mutex := some (Tid.worker w) }, by simp, ?_, ?_⟩
    · rcases hpc with hpc | hpc <;> simp [step, worker_thread, hab, hpc, hm]
    · refine measure_lt_of_worker _ _ ?_ ?_ ?_ <;> try rfl
      have := workDist_setWorker s w WPc.check none hw
      show workDist (setWorker s w WPc.check none) < workDist s
      rcases hpc with hpc | hpc <;> simp only [hpc, WPc.weight] at this <;> omega
  rcases ha with h | h | h | h | h | h
  · exact hacq (Or.inl h)
  · exact absurd (Or.inl h) hnl
  · exact hacq (Or.inr h)
  · exact absurd (Or.inr (Or.inl h)) hnl
  · exact absurd (Or.inr (Or.inr h)) hnl
  · cases ht : (s.workers w).task with
    | none => exact absurd ht ((holdInv s hr w).2 (Or.inr h))
    | some t =>
      have hsh := held_task_pending s hr w t ht
      have hst : step (Label.worker w) s =
          some { setWorker s w WPc.lock none with
                  shared := Function.update s.shared t.id (resolveWith t.fn)
                  invoked := s.invoked ++ [(w, t.id)] } := by
        cases hfn : t.fn <;>
          simp [step, worker_thread, hab, h, ht, hsh, hfn, packaged_task_invoke, resolveWith]
      refine ⟨Label.worker w, _, by simp, hst, ?_⟩
      have hlen := invoked_length_le _ (Reachable.step _ s _ hr hst)
      have hd := workDist_setWorker s w WPc.lock none hw
      simp only [h, WPc.weight] at hd
      simp only [List.length_append, List.length_singleton] at hlen
      have hR : mainRemaining { setWorker s w WPc.lock none with
                  shared := Function.update s.shared t.id (resolveWith t.fn)
                  invoked := s.invoked ++ [(w, t.id)] } = mainRemaining s := rfl
      have hD : workDist { setWorker s w WPc.lock none with
                  shared := Function.update s.shared t.id (resolveWith t.fn)
                  invoked := s.invoked ++ [(w, t.id)] } = workDist (setWorker s w WPc.lock none) :=
        rfl
      unfold progressMeasure
      rw [hR, hD]
      simp only [List.length_append, List.length_singleton]
      omega

/-- While main is blocked in `f.get()` on a pending task and the mutex is free, some worker is
not blocked in the wait. -/
theorem awake_of_get_pending (s : State) (hr : Reachable s) (hpc : s.mainPc = MPc.get)
    (hsh : s.shared s.i = SharedState.pending) :
    ∃ w, w < num_workers ∧ (s.workers w).pc.awake := by
  have hidx := idxInv s hr
  simp only [IdxInv, hpc] at hidx
  have hi : s.i ∈ s.pushed := by
    rw [hidx.2.2, List.mem_range'_1]
    omega
  rw [← (queueInv s hr).1, List.mem_append] at hi
  rcases hi with hi | hi
  · obtain ⟨x, hx, hxi⟩ := List.mem_map.1 hi
    rcases poppedHeldInv s hr x hx with h | ⟨t, ht, _⟩
    · have := invokedInv s hr x h
      rw [hxi] at this
      exact absurd hsh this
    · have hpcw := (holdInv s hr x.1).1 (by simp [ht])
      refine ⟨x.1, lt_num_workers_of_started s hr x.1 ?_, ?_⟩
      · rcases hpcw with h | h <;> simp [h]
      · rcases hpcw with h | h <;> simp [WPc.awake, h]
  · have hq : s.task_q ≠ [] := by
      intro h
      simp [h] at hi
    rcases wakeInv s hr hq with (h | h) | h
    · simp [hpc] at h
    · simp [hpc] at h
    · exact h

/-- Deadlock freedom with progress: in every reachable state in which main has not yet left the
task loop, some step other than a spurious wake-up is enabled and decreases the measure. -/
theorem progress_step (s : State) (hr : Reachable s) (hj : s.mainPc ≠ MPc.joinLoop) :
    Progress s := by
  have hab := not_aborted s hr
  have hidx := idxInv s hr
  have hmain : ∀ s1, step Label.main s = some s1 → mainRemaining s1 < mainRemaining s →
      Progress s :=
    fun s1 h1 h2 => ⟨Label.main, s1, by simp, h1, measure_lt_of_main s s1 h2⟩
  cases hpc : s.mainPc with
  | spawnLoop =>
    have hn := (spawnInv s hr).2.1
    simp only [spawnedCount, hpc, if_true] at hn
    by_cases hi : s.i < num_workers
    · exact hmain { setWorker s s.i WPc.lock none with i := s.i + 1 }
        (by simp [step, main, hab, hpc, hi])
        (by
          simp only [mainRemaining, setWorker, hpc]
          unfold num_workers at hi
          omega)
    · exact hmain { s with mainPc := MPc.taskLoop, i := 1 }
        (by simp [step, main, hab, hpc, hi])
        (by
          simp only [mainRemaining, hpc]
          unfold num_workers at hi hn
          omega)
  | taskLoop =>
    simp only [IdxInv, hpc] at hidx
    by_cases hi : s.i ≤ 5
    · exact hmain { s with mainPc := MPc.lock }
        (by simp [step, main, hab, hpc, hi])
        (by
          simp only [mainRemaining, hpc]
          omega)
    · exact hmain { s with mainPc := MPc.joinLoop, i := 0 }
        (by simp [step, main, hab, hpc, hi])
        (by simp [mainRemaining, hpc])
  | lock =>
    cases hm : s.task_q_mutex with
    | none =>
      exact hmain { s with task_q_mutex := some Tid.main, mainPc := MPc.push }
        (by simp [step, main, hab, hpc, hm])
        (by simp [mainRemaining, hpc])
    | some o =>
      cases o with
      | main =>
        have := (mutexInv s hr).2.1 hm
        simp [MPc.holdsLock, hpc] at this
      | worker w => exact progress_owner s hr w hm
  | push =>
    exact hmain
      { s with
        task_q := push_back s.task_q ⟨s.i, Except.ok (query_database s.i)⟩
        pushed := s.pushed ++ [s.i]
        mainPc := MPc.unlock }
      (by simp [step, main, hab, hpc])
      (by simp [mainRemaining, hpc])
  | unlock =>
    exact hmain { s with task_q_mutex := none, mainPc := MPc.notify }
      (by simp [step, main, hab, hpc])
      (by simp [mainRemaining, hpc])
  | notify =>
    cases hn : noWaiter s with
    | true =>
      exact hmain { s with mainPc := MPc.print }
        (by simp [step, main, hab, hpc, hn])
        (by simp [mainRemaining, hpc])
    | false =>
      obtain ⟨w, hw, hwt⟩ := noWaiter_eq_false s hn
      exact ⟨Label.notifyOne w, { setWorker s w WPc.woken none with mainPc := MPc.print },
        by simp, by simp [step, hab, hpc, hw, hwt],
        measure_lt_of_main _ _ (by simp [mainRemaining, hpc, setWorker])⟩
  | print =>
    exact hmain
      { s with
        out := s.out ++ ["Main thread waiting for result of query " ++ to_string s.i]
        mainPc := MPc.get }
      (by simp [step, main, hab, hpc])
      (by simp [mainRemaining, hpc])
  | get =>
    simp only [IdxInv, hpc] at hidx
    cases hsh : s.shared s.i with
    | ready v =>
      exact hmain
        { s with
          out := s.out ++ ["Result: " ++ v]
          got := s.got ++ [(s.i, v)]
          i := s.i + 1
          mainPc := MPc.taskLoop }
        (by simp [step, main, hab, hpc, hsh, future_get])
        (by
          simp only [mainRemaining, hpc]
          omega)
    | failed e =>
      have := (sharedInv s hr s.i (by simp [hsh])).2
      simp [hsh] at this
    | pending =>
      cases hm : s.task_q_mutex with
      | none =>
        obtain ⟨w, hw, ha⟩ := awake_of_get_pending s hr hpc hsh
        exact progress_awake s hr w hw ha hm
      | some o =>
        cases o with
        | main =>
          have := (mutexInv s hr).2.1 hm
          simp [MPc.holdsLock, hpc] at this
        | worker w => exact progress_owner s hr w hm
  | joinLoop => exact absurd hpc hj
  | ret => exact absurd hpc (joinInv s hr).2

/-- From every reachable state, whatever has been scheduled so far, some continuation without
spurious wake-ups leads main out of the task loop. -/
theorem main_can_complete : ∀ (n : Nat) (s : State), Reachable s → progressMeasure s ≤ n →
    ∃ ls s1, (∀ l ∈ ls, ∀ w, l ≠ Label.spurious w) ∧ run ls s = some s1 ∧
      s1.mainPc = MPc.joinLoop := by
  intro n
  induction n with
  | zero =>
    intro s hr hn
    by_cases hj : s.mainPc = MPc.joinLoop
    · exact ⟨[], s, by simp, rfl, hj⟩
    · obtain ⟨l, s1, _, _, hlt⟩ := progress_step s hr hj
      omega
  | succ n ih =>
    intro s hr hn
    by_cases hj : s.mainPc = MPc.joinLoop
    · exact ⟨[], s, by simp, rfl, hj⟩
    · obtain ⟨l, s1, hl, hst, hlt⟩ := progress_step s hr hj
      obtain ⟨ls, s2, h1, h2, h3⟩ := ih s1 (Reachable.step l s s1 hr hst) (by omega)
      refine ⟨l :: ls, s2, ?_, by simp [run, hst, h2], h3⟩
      intro l1 hl1 w
      rcases List.mem_cons.1 hl1 with rfl | hl1
      · exact hl w
      · exact h1 l1 hl1 w

/-- FIFO in the running program: in every reachable state the ids popped so far are, in pop
order, a prefix of the ids pushed so far. -/
theorem popped_prefix_of_pushed (s : State) (hr : Reachable s) :
    s.popped.map Prod.snd <+: s.pushed :=
  ⟨s.task_q.map Task.id, (queueInv s hr).1⟩

end TaskPool

/-! ## 0x13: safety of the consumer -/

namespace ProducerConsumer

theorem safeInv_step (l : Label) (s s1 : State) (hinv : SafeInv s) (hst : step l s = some s1) :
    SafeInv s1 := by
  obtain ⟨h0, h0', h1, h2, h3, h4⟩ := hinv
  cases l with
  | main =>
    simp only [step, main] at hst
    split at hst <;> (try split at hst) <;> simp at hst <;> subst hst <;>
      simp_all [SafeInv]
  | producer =>
    simp only [step, function1] at hst
    split at hst <;> (try split at hst) <;> simp at hst <;> subst hst <;>
      simp_all [SafeInv, push_front]
  | consumer =>
    simp only [step, function2] at hst
    split at hst <;> (try split at hst) <;> simp at hst <;> subst hst <;>
      simp_all [SafeInv, empty, back]
  | spurious =>
    simp only [step] at hst
    split at hst <;> simp at hst
    subst hst
    simp_all [SafeInv]

theorem safeInv : ∀ s, Reachable s → SafeInv s := by
  intro s hr
  induction hr with
  | init => simp [SafeInv, init]
  | step l s s1 _ hst ih => exact safeInv_step l s s1 ih hst

theorem buffer_reachable_run (ls : List Label) : ∀ (s s1 : State), Reachable s → run ls s = some s1 →
    Reachable s1 := by
  induction ls with
  | nil =>
    intro s s1 hr h
    simp only [run, Option.some.injEq] at h
    subst h
    exact hr
  | cons l ls ih =>
    intro s s1 hr h
    simp only [run] at h
    cases hst : step l s with
    | none => simp [hst] at h
    | some s2 =>
      simp only [hst] at h
      exact ih s2 s1 (Reachable.step l s s2 hr hst) h

theorem buffer_reachable_runD (ls : List Label) (s : State) (hr : Reachable s) :
    Reachable (runD ls s) := by
  unfold runD
  cases h : run ls s with
  | none => simpa using hr
  | some s1 => simpa using buffer_reachable_run ls s s1 hr h

/-- The consumer of 0x13 never executes `back()`/`pop_back()` on an empty deque: before the pop
it holds the mutex and sees a non-empty buffer, and it gets there only from the predicate check
on a non-empty buffer. -/
theorem consumer_pops_only_nonempty (p : State) (hp : Reachable p) :
    p.ub = false ∧
    (p.cpc = CPc.pop → p.buffer ≠ [] ∧ p.mtx = some Tid.consumer) ∧
    (∀ l p1, step l p = some p1 → p1.cpc = CPc.pop → p.cpc ≠ CPc.pop →
      p.cpc = CPc.check ∧ p.buffer ≠ []) := by
  obtain ⟨_, _, _, h2, h3, h4⟩ := safeInv p hp
  refine ⟨h4, fun h => ⟨h3 h, h2.2 (Or.inr (Or.inl h))⟩, ?_⟩
  intro l p1 hst h1 h0
  cases l with
  | main =>
    simp only [step, main] at hst
    split at hst <;> (try split at hst) <;> simp at hst <;> subst hst <;> simp_all
  | producer =>
    simp only [step, function1] at hst
    split at hst <;> (try split at hst) <;> simp at hst <;> subst hst <;> simp_all
  | consumer =>
    simp only [step, function2] at hst
    split at hst <;> (try split at hst) <;> simp at hst <;> subst hst <;>
      simp_all [empty]
  | spurious =>
    simp only [step] at hst
    split at hst <;> simp at hst
    subst hst
    simp_all

end ProducerConsumer

/-! ## The claims about the worker queue -/

/-- C2: a worker removes from the queue only when it is non-empty. In every reachable state of
0x19 (every interleaving of main and the three workers, spurious wake-ups included)
`front()`/`pop_front()` has never run on an empty deque, a worker standing before the pop holds
the mutex and sees a non-empty queue, and a worker only gets there from the predicate check of
the wait, evaluated under the mutex on a non-empty queue; the same holds for the consumer of 0x13
and its `back()`/`pop_back()`. -/
theorem worker_pops_only_nonempty (s : TaskPool.State) (hs : TaskPool.Reachable s)
    (p : ProducerConsumer.State) (hp : ProducerConsumer.Reachable p) :
    (s.ub = false ∧
      (∀ w, (s.workers w).pc = TaskPool.WPc.pop →
        s.task_q ≠ [] ∧ s.task_q_mutex = some (TaskPool.Tid.worker w)) ∧
      (∀ l s1 w, TaskPool.step l s = some s1 → (s1.workers w).pc = TaskPool.WPc.pop →
        (s.workers w).pc ≠ TaskPool.WPc.pop →
        (s.workers w).pc = TaskPool.WPc.check ∧ s.task_q ≠ [] ∧
        s.task_q_mutex = some (TaskPool.Tid.worker w))) ∧
    (p.ub = false ∧
      (p.cpc = ProducerConsumer.CPc.pop →
        p.buffer ≠ [] ∧ p.mtx = some ProducerConsumer.Tid.consumer) ∧
      (∀ l p1, ProducerConsumer.step l p = some p1 → p1.cpc = ProducerConsumer.CPc.pop →
        p.cpc ≠ ProducerConsumer.CPc.pop →
        p.cpc = ProducerConsumer.CPc.check ∧ p.buffer ≠ [])) :=
  ⟨TaskPool.pop_only_after_check s hs, ProducerConsumer.consumer_pops_only_nonempty p hp⟩

/-- C2 witness: in the state of 0x19 reached by `TaskPool.schedPop` worker 0 stands before the pop
and the queue holds task 1; in the state of 0x13 reached by `ProducerConsumer.schedPop` the
consumer stands before the pop and the buffer holds 10. -/
theorem worker_pops_only_nonempty_witness :
    ((TaskPool.runD TaskPool.schedPop TaskPool.init).workers 0).pc = TaskPool.WPc.pop ∧
    (TaskPool.runD TaskPool.schedPop TaskPool.init).task_q.map TaskPool.Task.id = [1] ∧
    (ProducerConsumer.runD ProducerConsumer.schedPop ProducerConsumer.init).cpc
      = ProducerConsumer.CPc.pop ∧
    (ProducerConsumer.runD ProducerConsumer.schedPop ProducerConsumer.init).buffer = [10] ∧
    (((TaskPool.runD TaskPool.schedPop TaskPool.init).ub = false ∧
      (∀ w, ((TaskPool.runD TaskPool.schedPop TaskPool.init).workers w).pc = TaskPool.WPc.pop →
        (TaskPool.runD TaskPool.schedPop TaskPool.init).task_q ≠ [] ∧
        (TaskPool.runD TaskPool.schedPop TaskPool.init).task_q_mutex
          = some (TaskPool.Tid.worker w)) ∧
      (∀ l s1 w, TaskPool.step l (TaskPool.runD TaskPool.schedPop TaskPool.init) = some s1 →
        (s1.workers w).pc = TaskPool.WPc.pop →
        ((TaskPool.runD TaskPool.schedPop TaskPool.init).workers w).pc ≠ TaskPool.WPc.pop →
        ((TaskPool.runD TaskPool.schedPop TaskPool.init).workers w).pc = TaskPool.WPc.check ∧
        (TaskPool.runD TaskPool.schedPop TaskPool.init).task_q ≠ [] ∧
        (TaskPool.runD TaskPool.schedPop TaskPool.init).task_q_mutex
          = some (TaskPool.Tid.worker w))) ∧
    ((ProducerConsumer.runD ProducerConsumer.schedPop ProducerConsumer.init).ub = false ∧
      ((ProducerConsumer.runD ProducerConsumer.schedPop ProducerConsumer.init).cpc
          = ProducerConsumer.CPc.pop →
        (ProducerConsumer.runD ProducerConsumer.schedPop ProducerConsumer.init).buffer ≠ [] ∧
        (ProducerConsumer.runD ProducerConsumer.schedPop ProducerConsumer.init).mtx
          = some ProducerConsumer.Tid.consumer) ∧
      (∀ l p1,
        ProducerConsumer.step l
          (ProducerConsumer.runD ProducerConsumer.schedPop ProducerConsumer.init) = some p1 →
        p1.cpc = ProducerConsumer.CPc.pop →
        (ProducerConsumer.runD ProducerConsumer.schedPop ProducerConsumer.init).cpc
          ≠ ProducerConsumer.CPc.pop →
        (ProducerConsumer.runD ProducerConsumer.schedPop ProducerConsumer.init).cpc
          = ProducerConsumer.CPc.check ∧
        (ProducerConsumer.runD ProducerConsumer.schedPop ProducerConsumer.init).buffer ≠ []))) :=
  ⟨by decide, by decide, by decide, by decide,
    worker_pops_only_nonempty _
      (TaskPool.reachable_runD TaskPool.schedPop TaskPool.init TaskPool.Reachable.init) _
      (ProducerConsumer.buffer_reachable_runD ProducerConsumer.schedPop ProducerConsumer.init
        ProducerConsumer.Reachable.init)⟩

namespace TaskPool

/-- C3: in every reachable state no task id has been popped twice (no task is handed to two
workers), no task id has been invoked twice, every invocation is by the worker that popped the
task, and no step of a worker (or a wake-up) adds anything to the queue: it leaves the queue
as it is or removes its head. -/
theorem task_taken_and_run_at_most_once (s : State) (hr : Reachable s) :
    (s.popped.map Prod.snd).Nodup ∧ (s.invoked.map Prod.snd).Nodup ∧
    (∀ x ∈ s.invoked, x ∈ s.popped) ∧
    (∀ w s1, (step (Label.worker w) s = some s1 ∨ step (Label.spurious w) s = some s1) →
      s1.task_q = s.task_q ∨ ∃ t, s.task_q = t :: s1.task_q) := by
  refine ⟨(List.nodup_append.1 (popped_queue_nodup s hr)).1, (onceInv s hr).2.2,
    (poppedInv s hr).2, ?_⟩
  intro w s1 hst
  have hab := not_aborted s hr
  rcases hst with hst | hst
  · have h := worker_thread_sound w s s1 hab (by simpa [step, hab] using hst)
    cases h <;> simp [setWorker]
    case pop t q _ _ hq => exact Or.inr ⟨t, hq⟩
  · simp only [step, hab, Bool.false_eq_true, if_false] at hst
    split at hst
    · simp only [Option.some.injEq] at hst
      subst hst
      exact Or.inl rfl
    · simp at hst

/-- C3 witness: after `schedHold` task 1 has been popped by worker 0, nothing is queued. -/
theorem task_taken_and_run_at_most_once_witness :
    (runD schedHold init).popped = [(0, 1)] ∧
    (((runD schedHold init).popped.map Prod.snd).Nodup ∧
    ((runD schedHold init).invoked.map Prod.snd).Nodup ∧
    (∀ x ∈ (runD schedHold init).invoked, x ∈ (runD schedHold init).popped) ∧
    (∀ w s1, (step (Label.worker w) (runD schedHold init) = some s1 ∨
        step (Label.spurious w) (runD schedHold init) = some s1) →
      s1.task_q = (runD schedHold init).task_q ∨
      ∃ t, (runD schedHold init).task_q = t :: s1.task_q)) :=
  ⟨by decide,
    task_taken_and_run_at_most_once (runD schedHold init)
      (reachable_runD schedHold init Reachable.init)⟩

/-- C4: in every reachable state the values main has read from the futures are, for the
iterations 1, 2, ... completed so far (at most 5), exactly "Result of query " followed by the
decimal digits of the iteration number, whichever worker ran the task; once main has left the
task loop it has read exactly the five expected results; and from every reachable state some
continuation without spurious wake-ups leads main out of the task loop, with the five results
read. -/
theorem futures_yield_query_results (s : State) (hr : Reachable s) :
    (∀ i v, (i, v) ∈ s.got → 1 ≤ i ∧ i ≤ 5 ∧ v = "Result of query " ++ Nat.repr i) ∧
    (∃ k, k ≤ 5 ∧ s.got.map Prod.fst = List.range' 1 k) ∧
    (s.mainPc = MPc.joinLoop → s.got = expectedGot) ∧
    (∃ ls s1, (∀ l ∈ ls, ∀ w, l ≠ Label.spurious w) ∧ run ls s = some s1 ∧
      s1.mainPc = MPc.joinLoop ∧ s1.got = expectedGot) := by
  have hfin : ∀ s0 : State, Reachable s0 → s0.mainPc = MPc.joinLoop → s0.got = expectedGot := by
    intro s0 hr0 hpc
    have h1 := gotIdxInv s0 hr0
    simp only [GotIdxInv, hpc] at h1
    rw [got_eq_map s0 hr0, h1]
    decide
  have hk : ∃ k, k ≤ 5 ∧ s.got.map Prod.fst = List.range' 1 k := by
    have h1 := gotIdxInv s hr
    have h2 := idxInv s hr
    unfold GotIdxInv at h1
    unfold IdxInv at h2
    split at h1
    · exact ⟨0, by omega, by simp [h1]⟩
    · exact ⟨5, le_refl _, h1⟩
    · exact ⟨5, le_refl _, h1⟩
    · refine ⟨s.i - 1, ?_, h1⟩
      split at h2 <;> first | omega | simp_all
  refine ⟨?_, hk, hfin s hr, ?_⟩
  · intro i v hx
    obtain ⟨k, hk5, hk⟩ := hk
    have hv : v = query_database (i : Int) := got_value s hr (i, v) hx
    have hi : i ∈ s.got.map Prod.fst := List.mem_map_of_mem Prod.fst hx
    rw [hk, List.mem_range'_1] at hi
    exact ⟨hi.1, by omega, by rw [hv]; rfl⟩
  · obtain ⟨ls, s1, h1, h2, h3⟩ := main_can_complete _ s hr (le_refl _)
    exact ⟨ls, s1, h1, h2, h3, hfin s1 (reachable_run ls s s1 hr h2) h3⟩

/-- C4 witness: the state reached by `schedMid`; main has read the first result and is blocked in
`f.get()` on the second. -/
theorem futures_yield_query_results_witness :
    (runD schedMid init).got = [(1, "Result of query 1")] ∧
    (runD schedMid init).mainPc = MPc.get ∧
    ((∀ i v, (i, v) ∈ (runD schedMid init).got →
      1 ≤ i ∧ i ≤ 5 ∧ v = "Result of query " ++ Nat.repr i) ∧
    (∃ k, k ≤ 5 ∧ (runD schedMid init).got.map Prod.fst = List.range' 1 k) ∧
    ((runD schedMid init).mainPc = MPc.joinLoop → (runD schedMid init).got = expectedGot) ∧
    (∃ ls s1, (∀ l ∈ ls, ∀ w, l ≠ Label.spurious w) ∧ run ls (runD schedMid init) = some s1 ∧
      s1.mainPc = MPc.joinLoop ∧ s1.got = expectedGot)) :=
  ⟨by decide, by decide,
    futures_yield_query_results (runD schedMid init)
      (reachable_runD schedMid init Reachable.init)⟩

/-- C5: a worker that invokes a task whose callable throws `e` is not terminated: the step is
enabled, the exception is stored in that task's shared state, the process is not aborted and the
worker is back at the head of its loop. And whenever that worker stands at the head of its loop
with the mutex free, scheduling it alone executes every task in the queue (distinct, pending
tasks, throwing or not) and leaves it alive at the head of its loop. -/
theorem failing_task_keeps_worker_running (s : State) (w : Nat) (t : Task) (e : Exn)
    (hab : s.aborted = false) (hpc : (s.workers w).pc = WPc.run)
    (ht : (s.workers w).task = some t) (hfn : t.fn = Except.error e)
    (hsh : s.shared t.id = SharedState.pending) :
    ∃ s1, step (Label.worker w) s = some s1 ∧ s1.shared t.id = SharedState.failed e ∧
      s1.aborted = false ∧ (s1.workers w).pc = WPc.lock ∧ s1.task_q = s.task_q ∧
      ∀ (s2 : State) (ts : List Task), s2.aborted = false → (s2.workers w).pc = WPc.lock →
        s2.task_q_mutex = none → s2.task_q = ts → (ts.map Task.id).Nodup →
        (∀ t1 ∈ ts, s2.shared t1.id = SharedState.pending) →
        ∃ s3, run (drainSched w ts.length) s2 = some s3 ∧ s3.aborted = false ∧
          (s3.workers w).pc = WPc.lock ∧ s3.task_q = [] ∧
          ∀ t1 ∈ ts, s3.shared t1.id = resolveWith t1.fn := by
  refine ⟨{ setWorker s w WPc.lock none with
              shared := Function.update s.shared t.id (SharedState.failed e)
              invoked := s.invoked ++ [(w, t.id)] },
    by simp [step, worker_thread, hab, hpc, ht, hsh, hfn, packaged_task_invoke],
    by simp, hab, by simp [setWorker], rfl, ?_⟩
  intro s2 ts hab2 hpc2 hm2 hq2 hnd hpend
  obtain ⟨s3, h1, h2, h3, _, h5, h6, _⟩ := drain_spec w ts s2 hab2 hpc2 hm2 hq2 hnd hpend
  exact ⟨s3, h1, h2, h3, h5, h6⟩

/-- C5 witness: worker 0 invokes a task that throws `runtime_error("query failed")`; and two
turns of worker 0 on `queuedState` store the exception of task 8 and the value of task 9. -/
theorem failing_task_keeps_worker_running_witness :
    (run (drainSched 0 2) queuedState).map
        (fun s => (s.shared 8, s.shared 9, (s.workers 0).pc, s.aborted)) =
      some (SharedState.failed (Exn.runtime_error "query failed"), SharedState.ready "fine",
        WPc.lock, false) ∧
    ∃ s1, step (Label.worker 0) failingState = some s1 ∧
      s1.shared 7 = SharedState.failed (Exn.runtime_error "query failed") ∧
      s1.aborted = false ∧ (s1.workers 0).pc = WPc.lock ∧ s1.task_q = failingState.task_q ∧
      ∀ (s2 : State) (ts : List Task), s2.aborted = false → (s2.workers 0).pc = WPc.lock →
        s2.task_q_mutex = none → s2.task_q = ts → (ts.map Task.id).Nodup →
        (∀ t1 ∈ ts, s2.shared t1.id = SharedState.pending) →
        ∃ s3, run (drainSched 0 ts.length) s2 = some s3 ∧ s3.aborted = false ∧
          (s3.workers 0).pc = WPc.lock ∧ s3.task_q = [] ∧
          ∀ t1 ∈ ts, s3.shared t1.id = resolveWith t1.fn :=
  ⟨by decide,
    failing_task_keeps_worker_running failingState 0
      ⟨7, Except.error (Exn.runtime_error "query failed")⟩ (Exn.runtime_error "query failed")
      rfl rfl rfl rfl rfl⟩

/-- The loop of `worker_thread` as it is written: in every reachable state no worker has returned
from `worker_thread`; a worker that has run its task goes back to the head of its loop; a worker
that finds the queue empty releases the mutex and blocks in the wait. -/
theorem worker_loop_has_no_exit (s : State) (hr : Reachable s) :
    (∀ w, (s.workers w).pc ≠ WPc.finished) ∧
    (∀ w s1, step (Label.worker w) s = some s1 →
      (s1.workers w).pc ≠ WPc.finished ∧
      ((s.workers w).pc = WPc.run → (s1.workers w).pc = WPc.lock) ∧
      ((s.workers w).pc = WPc.check → s.task_q = [] →
        (s1.workers w).pc = WPc.waiting ∧ s1.task_q_mutex = none)) := by
  refine ⟨(spawnInv s hr).2.2, ?_⟩
  intro w s1 hst
  have hr1 : Reachable s1 := Reachable.step _ s s1 hr hst
  refine ⟨(spawnInv s1 hr1).2.2 w, ?_, ?_⟩
  · intro hpc
    have hab := not_aborted s hr
    have hab1 := not_aborted s1 hr1
    have h := worker_thread_sound w s s1 hab (by simpa [step, hab] using hst)
    cases h <;> simp_all [setWorker]
  · intro hpc hq
    have hab := not_aborted s hr
    have h := worker_thread_sound w s s1 hab (by simpa [step, hab] using hst)
    cases h <;> simp_all [setWorker]

/-- In the state reached by `schedHold` worker 0 is about to run task 1; its step leads back to
the head of the loop. -/
theorem worker_loop_has_no_exit_witness :
    ((runD schedHold init).workers 0).pc = WPc.run ∧
    (step (Label.worker 0) (runD schedHold init)).map (fun s => (s.workers 0).pc)
      = some WPc.lock ∧
    ((∀ w, ((runD schedHold init).workers w).pc ≠ WPc.finished) ∧
    (∀ w s1, step (Label.worker w) (runD schedHold init) = some s1 →
      (s1.workers w).pc ≠ WPc.finished ∧
      (((runD schedHold init).workers w).pc = WPc.run → (s1.workers w).pc = WPc.lock) ∧
      (((runD schedHold init).workers w).pc = WPc.check → (runD schedHold init).task_q = [] →
        (s1.workers w).pc = WPc.waiting ∧ s1.task_q_mutex = none))) :=
  ⟨by decide, by decide,
    worker_loop_has_no_exit (runD schedHold init)
      (reachable_runD schedHold init Reachable.init)⟩

/-- C7: the run on which the code fails the claim. After `schedAll` no more work will arrive (all
five tasks are done, the queue is empty, main is in the join loop of l.72-74, which the comment
of l.71 says waits for all worker threads to finish) and the three workers are blocked in the
wait; from there on, whatever is scheduled, no worker ever returns and main never reaches
`return 0`. -/
theorem workers_never_return :
    ∃ s, run schedAll init = some s ∧ s.task_q = [] ∧ s.mainPc = MPc.joinLoop ∧
      (∀ w, w < num_workers → (s.workers w).pc = WPc.waiting) ∧
      ∀ ls s1, run ls s = some s1 →
        s1.mainPc ≠ MPc.ret ∧ ∀ w, (s1.workers w).pc ≠ WPc.finished := by
  refine ⟨runD schedAll init, run_runD schedAll init (by decide),
    List.length_eq_zero.1 (by decide), by decide, by decide, ?_⟩
  intro ls s1 h
  have hr : Reachable s1 :=
    reachable_run ls _ s1 (reachable_runD schedAll init Reachable.init) h
  exact ⟨(joinInv s1 hr).2, (spawnInv s1 hr).2.2⟩

/-- Whenever main is in its final join loop, no task is queued and each of the five tasks has
been invoked and its shared state holds the result. -/
theorem all_tasks_done_before_join (s : State) (hr : Reachable s)
    (hpc : s.mainPc = MPc.joinLoop) :
    s.task_q.length = 0 ∧
    ∀ i, 1 ≤ i → i ≤ 5 →
      s.shared i = SharedState.ready (query_database i) ∧ i ∈ s.invoked.map Prod.snd := by
  have h := drained_at_join s hr hpc
  exact ⟨by simp [h.1], h.2⟩

/-- The state reached by `schedAll` is one in which main is in its final join loop. -/
theorem all_tasks_done_before_join_witness :
    (runD schedAll init).mainPc = MPc.joinLoop ∧
    ((runD schedAll init).task_q.length = 0 ∧
    ∀ i, 1 ≤ i → i ≤ 5 →
      (runD schedAll init).shared i = SharedState.ready (query_database i) ∧
      i ∈ (runD schedAll init).invoked.map Prod.snd) :=
  ⟨by decide,
    all_tasks_done_before_join (runD schedAll init)
      (reachable_runD schedAll init Reachable.init) (by decide)⟩

/-- Main does enter its final join loop (with zero tasks queued), and in no execution does it
ever get out of it: `return 0` is unreachable. -/
theorem join_phase_never_returns :
    (∃ s, run schedAll init = some s ∧ s.mainPc = MPc.joinLoop ∧ s.task_q.length = 0) ∧
    ¬ ∃ ls s, run ls init = some s ∧ s.mainPc = MPc.ret := by
  refine ⟨⟨runD schedAll init, run_runD schedAll init (by decide), by decide, by decide⟩, ?_⟩
  rintro ⟨ls, s, h, hpc⟩
  exact (joinInv s (reachable_run ls init s Reachable.init h)).2 hpc

/-- C9: in every reachable state each task's handle has been resolved at most once (its id occurs
at most once in the invocation log); a handle that is resolved is left unchanged by every step;
and an attempt to resolve an already resolved handle, by `packaged_task::operator()`,
`promise::set_value` or `promise::set_exception`, raises
`future_error(promise_already_satisfied)` and leaves the stored outcome unchanged: a worker doing
so takes the exception (the process aborts) with every shared state as before. -/
theorem handle_resolved_at_most_once (s : State) (hr : Reachable s) :
    (∀ i, (s.invoked.map Prod.snd).count i ≤ 1) ∧
    (∀ l s1 i, step l s = some s1 → s.shared i ≠ SharedState.pending →
      s1.shared i = s.shared i) ∧
    (∀ (sh : SharedState String) (fn : Except Exn String), sh ≠ SharedState.pending →
      packaged_task_invoke sh fn =
        (sh, Except.error (Exn.future_error future_errc.promise_already_satisfied))) ∧
    (∀ (sh : SharedState String) (v : String), sh ≠ SharedState.pending →
      promise_set_value sh v =
        (sh, Except.error (Exn.future_error future_errc.promise_already_satisfied))) ∧
    (∀ (sh : SharedState String) (e : Exn), sh ≠ SharedState.pending →
      promise_set_exception sh e =
        (sh, Except.error (Exn.future_error future_errc.promise_already_satisfied))) ∧
    (∀ (s0 : State) (w : Nat) (t : Task), s0.aborted = false → (s0.workers w).pc = WPc.run →
      (s0.workers w).task = some t → s0.shared t.id ≠ SharedState.pending →
      ∃ s1, step (Label.worker w) s0 = some s1 ∧ s1.shared = s0.shared ∧ s1.aborted = true) := by
  refine ⟨fun i => List.nodup_iff_count_le_one.1 (onceInv s hr).2.2 i,
    fun l s1 i => resolved_is_stable l s s1 i, ?_, ?_, ?_, ?_⟩
  · intro sh fn h
    cases sh <;> simp_all [packaged_task_invoke]
  · intro sh v h
    cases sh <;> simp_all [promise_set_value]
  · intro sh e h
    cases sh <;> simp_all [promise_set_exception]
  · intro s0 w t hab hpc ht hsh
    refine ⟨{ s0 with aborted := true }, ?_, rfl, rfl⟩
    cases hsh1 : s0.shared t.id with
    | pending => exact absurd hsh1 hsh
    | ready v => simp [step, worker_thread, hab, hpc, ht, hsh1, packaged_task_invoke]
    | failed e => simp [step, worker_thread, hab, hpc, ht, hsh1, packaged_task_invoke]

/-- C9 witness: after `schedAll` the five handles have each been resolved once. -/
theorem handle_resolved_at_most_once_witness :
    (runD schedAll init).invoked.map Prod.snd = [1, 2, 3, 4, 5] ∧
    ((∀ i, ((runD schedAll init).invoked.map Prod.snd).count i ≤ 1) ∧
    (∀ l s1 i, step l (runD schedAll init) = some s1 →
      (runD schedAll init).shared i ≠ SharedState.pending →
      s1.shared i = (runD schedAll init).shared i) ∧
    (∀ (sh : SharedState String) (fn : Except Exn String), sh ≠ SharedState.pending →
      packaged_task_invoke sh fn =
        (sh, Except.error (Exn.future_error future_errc.promise_already_satisfied))) ∧
    (∀ (sh : SharedState String) (v : String), sh ≠ SharedState.pending →
      promise_set_value sh v =
        (sh, Except.error (Exn.future_error future_errc.promise_already_satisfied))) ∧
    (∀ (sh : SharedState String) (e : Exn), sh ≠ SharedState.pending →
      promise_set_exception sh e =
        (sh, Except.error (Exn.future_error future_errc.promise_already_satisfied))) ∧
    (∀ (s0 : State) (w : Nat) (t : Task), s0.aborted = false → (s0.workers w).pc = WPc.run →
      (s0.workers w).task = some t → s0.shared t.id ≠ SharedState.pending →
      ∃ s1, step (Label.worker w) s0 = some s1 ∧ s1.shared = s0.shared ∧ s1.aborted = true)) :=
  ⟨by decide,
    handle_resolved_at_most_once (runD schedAll init)
      (reachable_runD schedAll init Reachable.init)⟩

/-- C10 (as amended): no lost wake-up. In every reachable state: (1) if the queue is non-empty then main is
still about to execute the `notify_one()` of its push or some worker is not blocked in the wait;
(2) a `notify_one()` executed while workers are blocked in the wait does wake one of them (any
blocked worker can be the one, and the call cannot complete without waking one); (3) if the queue
is non-empty, a few steps, none of them a spurious wake-up, lead to a state in which a worker has
removed its head. -/
theorem no_lost_wakeup (s : State) (hr : Reachable s) :
    (s.task_q ≠ [] →
      (s.mainPc = MPc.unlock ∨ s.mainPc = MPc.notify) ∨
      ∃ w, w < num_workers ∧ (s.workers w).pc.awake) ∧
    (s.mainPc = MPc.notify → ∀ w, w < num_workers → (s.workers w).pc = WPc.waiting →
      step Label.main s = none ∧
      ∃ s1, step (Label.notifyOne w) s = some s1 ∧ (s1.workers w).pc = WPc.woken) ∧
    (s.task_q ≠ [] → ∃ ls s1, (∀ l ∈ ls, ∀ w, l ≠ Label.spurious w) ∧ run ls s = some s1 ∧
      s1.popped.length = s.popped.length + 1) := by
  refine ⟨wakeInv s hr, ?_, ?_⟩
  · intro hpc w hw hwt
    have hab := not_aborted s hr
    have hn : noWaiter s = false := by
      cases h : noWaiter s with
      | false => rfl
      | true =>
        have := List.all_eq_true.1 h w (List.mem_range.2 hw)
        simp [hwt] at this
    exact ⟨by simp [step, main, hab, hpc, hn],
      { setWorker s w WPc.woken none with mainPc := MPc.print },
      by simp [step, hab, hpc, hw, hwt], by simp [setWorker]⟩
  · intro hq
    obtain ⟨ls, h1, s1, h2, h3⟩ := removes_of_nonempty s hr hq
    exact ⟨ls, s1, h1, h2, h3⟩

/-- C10 witness: the state reached by `schedNotify`: task 1 is queued, every worker is blocked in
the wait, and main is at `notify_one()`. -/
theorem no_lost_wakeup_witness :
    (runD schedNotify init).task_q.map Task.id = [1] ∧
    (runD schedNotify init).mainPc = MPc.notify ∧
    (∀ w, w < num_workers → ((runD schedNotify init).workers w).pc = WPc.waiting) ∧
    (((runD schedNotify init).task_q ≠ [] →
      ((runD schedNotify init).mainPc = MPc.unlock ∨ (runD schedNotify init).mainPc = MPc.notify) ∨
      ∃ w, w < num_workers ∧ ((runD schedNotify init).workers w).pc.awake) ∧
    ((runD schedNotify init).mainPc = MPc.notify → ∀ w, w < num_workers →
      ((runD schedNotify init).workers w).pc = WPc.waiting →
      step Label.main (runD schedNotify init) = none ∧
      ∃ s1, step (Label.notifyOne w) (runD schedNotify init) = some s1 ∧
        (s1.workers w).pc = WPc.woken) ∧
    ((runD schedNotify init).task_q ≠ [] →
      ∃ ls s1, (∀ l ∈ ls, ∀ w, l ≠ Label.spurious w) ∧ run ls (runD schedNotify init) = some s1 ∧
        s1.popped.length = (runD schedNotify init).popped.length + 1)) :=
  ⟨by decide, by decide, by decide,
    no_lost_wakeup (runD schedNotify init) (reachable_runD schedNotify init Reachable.init)⟩

/-- C10 counterexample: task 2 is pushed while workers 1 and 2 are blocked in the wait on the empty
queue and worker 0 is not. `notify_one()` wakes worker 1, but worker 0 gets the mutex first
and removes the task; worker 1 re-checks the predicate, finds the queue empty and blocks again.
Neither of the workers that were blocked has removed the task. -/
theorem woken_worker_need_not_remove :
    (run schedStealPush init).isSome = true ∧
    (runD schedStealPush init).task_q.map Task.id = [2] ∧
    (runD schedStealPush init).mainPc = MPc.notify ∧
    ((runD schedStealPush init).workers 0).pc = WPc.lock ∧
    ((runD schedStealPush init).workers 1).pc = WPc.waiting ∧
    ((runD schedStealPush init).workers 2).pc = WPc.waiting ∧
    (run schedStealRest (runD schedStealPush init)).isSome = true ∧
    (step (Label.notifyOne 1) (runD schedStealPush init)).map (fun s => (s.workers 1).pc)
      = some WPc.woken ∧
    (runD schedStealRest (runD schedStealPush init)).popped = [(0, 1), (0, 2)] ∧
    (runD schedStealRest (runD schedStealPush init)).task_q.length = 0 ∧
    ((runD schedStealRest (runD schedStealPush init)).workers 1).pc = WPc.waiting ∧
    ((runD schedStealRest (runD schedStealPush init)).workers 2).pc = WPc.waiting := by
  decide

end TaskPool

/-! ## The claims about promise and future -/

namespace FuturePromise

/-- C6: reading a resolved handle returns what was stored. A promise resolved with the value `v`
makes `get()` return `v`; a promise resolved with an exception makes `get()` raise that exception
and return no value; `get()` on a pending handle blocks. In 0x01-example the child reads the 4
that main stored, so `fut.get()` returns 24; in 0x02-example the child's `f.get()` raises
`runtime_error("Promise broken")`, the exception main stored, and `factorial` returns nothing. -/
theorem get_returns_what_was_stored :
    (∀ v : Int, future_get (promise_set_value SharedState.pending v).1 = GetResult.returned v) ∧
    (∀ e : Exn, future_get (promise_set_exception (SharedState.pending : SharedState Int) e).1
      = GetResult.raised e) ∧
    future_get (SharedState.pending : SharedState Int) = GetResult.blocked ∧
    factorial SharedState.pending = some (GetResult.blocked, []) ∧
    Ex01.main = some ⟨SharedState.ready 4, GetResult.returned 24, SharedState.ready 24,
      some (GetResult.returned 24), ["The result is: 24", "Factorial of 4 is 24"]⟩ ∧
    Ex02.main = some ⟨SharedState.failed (Exn.runtime_error "Promise broken"),
      GetResult.raised (Exn.runtime_error "Promise broken"),
      SharedState.failed (Exn.runtime_error "Promise broken"), none, []⟩ :=
  ⟨fun _ => rfl, fun _ => rfl, rfl, rfl, by decide, by decide⟩

end FuturePromise

namespace TaskPool

/-- C11: no thread holds the queue lock across a blocking or long-running step. In every
reachable state a worker owns `task_q_mutex` only at the predicate check of the wait, at the pop
and at the end of the scope of its lock; it does not own it while it waits for the mutex, while
it is blocked in the condition variable, nor when it runs the task. Main owns it only at the
push and at the end of the scope of its `lock_guard`; it does not own it when it notifies, when
it blocks in `f.get()`, nor when it joins. No thread holds more than one lock. -/
theorem lock_not_held_across_blocking (s : State) (hr : Reachable s) :
    (∀ w, s.task_q_mutex = some (Tid.worker w) →
      (s.workers w).pc = WPc.check ∨ (s.workers w).pc = WPc.pop ∨
      (s.workers w).pc = WPc.unlock) ∧
    (∀ w, (s.workers w).pc = WPc.run ∨ (s.workers w).pc = WPc.waiting ∨
        (s.workers w).pc = WPc.lock ∨ (s.workers w).pc = WPc.woken →
      s.task_q_mutex ≠ some (Tid.worker w)) ∧
    (s.task_q_mutex = some Tid.main → s.mainPc = MPc.push ∨ s.mainPc = MPc.unlock) ∧
    (s.mainPc = MPc.notify ∨ s.mainPc = MPc.print ∨ s.mainPc = MPc.get ∨
        s.mainPc = MPc.lock ∨ s.mainPc = MPc.joinLoop →
      s.task_q_mutex ≠ some Tid.main) ∧
    (∀ t, locksHeld s t ≤ 1) := by
  obtain ⟨hw, hm⟩ := mutexInv s hr
  refine ⟨fun w h => (hw w).1 h, ?_, fun h => hm.1 h, ?_, ?_⟩
  · intro w hpc h
    have := (hw w).1 h
    unfold WPc.holdsLock at this
    rcases hpc with hpc | hpc | hpc | hpc <;> simp [hpc] at this
  · intro hpc h
    have := hm.1 h
    unfold MPc.holdsLock at this
    rcases hpc with hpc | hpc | hpc | hpc | hpc <;> simp [hpc] at this
  · intro t
    unfold locksHeld
    split <;> simp

/-- C11 witness: in the state reached by `schedHold` worker 0 is about to run task 1 and the
mutex is free; in the state reached by `schedMid` main is blocked in `f.get()` and the mutex is
free. -/
theorem lock_not_held_across_blocking_witness :
    ((runD schedHold init).workers 0).pc = WPc.run ∧
    (runD schedHold init).task_q_mutex = none ∧
    (runD schedMid init).mainPc = MPc.get ∧
    (runD schedMid init).task_q_mutex = none ∧
    ((∀ w, (runD schedHold init).task_q_mutex = some (Tid.worker w) →
      ((runD schedHold init).workers w).pc = WPc.check ∨
      ((runD schedHold init).workers w).pc = WPc.pop ∨
      ((runD schedHold init).workers w).pc = WPc.unlock) ∧
    (∀ w, ((runD schedHold init).workers w).pc = WPc.run ∨
        ((runD schedHold init).workers w).pc = WPc.waiting ∨
        ((runD schedHold init).workers w).pc = WPc.lock ∨
        ((runD schedHold init).workers w).pc = WPc.woken →
      (runD schedHold init).task_q_mutex ≠ some (Tid.worker w)) ∧
    ((runD schedHold init).task_q_mutex = some Tid.main →
      (runD schedHold init).mainPc = MPc.push ∨ (runD schedHold init).mainPc = MPc.unlock) ∧
    ((runD schedHold init).mainPc = MPc.notify ∨ (runD schedHold init).mainPc = MPc.print ∨
        (runD schedHold init).mainPc = MPc.get ∨ (runD schedHold init).mainPc = MPc.lock ∨
        (runD schedHold init).mainPc = MPc.joinLoop →
      (runD schedHold init).task_q_mutex ≠ some Tid.main) ∧
    (∀ t, locksHeld (runD schedHold init) t ≤ 1)) :=
  ⟨by decide, by decide, by decide, by decide,
    lock_not_held_across_blocking (runD schedHold init)
      (reachable_runD schedHold init Reachable.init)⟩

end TaskPool

/-! ## The claims about `factorial` -/

namespace FuturePromise

theorem inInt_of_bounds (x : Int) (h0 : 0 ≤ x) (h1 : x ≤ INT_MAX) : inInt x = true := by
  simp only [inInt, INT_MIN, INT_MAX, decide_eq_true_eq] at *
  omega

/-- The loop invariant of `factorial`: entered with `i = k + 1` and `res = k!`, the loop leaves
with `n!`, provided `n!` fits in `int`. -/
theorem factorialLoop_spec (n : Nat) (hf : (n.factorial : Int) ≤ INT_MAX) :
    ∀ d k : Nat, k + d = n →
      factorialLoop (d + 1) n (k + 1) k.factorial = some (n.factorial : Int) := by
  have hn : (n : Int) + 1 ≤ INT_MAX := by
    have h1 : n ≤ n.factorial := Nat.self_le_factorial n
    by_cases h2 : n.factorial = n
    · -- only n = 1 and n = 2 are their own factorial
      have : n ≤ 2 := by
        by_contra h3
        have h4 : 3 ≤ n := by omega
        have := Nat.lt_factorial_self h4
        omega
      unfold INT_MAX
      omega
    · have h3 : n < n.factorial := lt_of_le_of_ne h1 (Ne.symm h2)
      have : ((n : Int) + 1 : Int) ≤ (n.factorial : Int) := by exact_mod_cast h3
      omega
  intro d
  induction d with
  | zero =>
    intro k hk
    simp only [Nat.add_zero] at hk
    subst hk
    simp [factorialLoop]
  | succ d ih =>
    intro k hk
    have hle : (k : Int) + 1 ≤ n := by omega
    have hfac : ((k.factorial : Int)) * ((k : Int) + 1) = ((k + 1).factorial : Int) := by
      rw [Nat.factorial_succ]
      push_cast
      ring
    have hmono : ((k + 1).factorial : Int) ≤ (n.factorial : Int) := by
      exact_mod_cast Nat.factorial_le (by omega : k + 1 ≤ n)
    have h1 : inInt ((k.factorial : Int) * ((k : Int) + 1)) = true := by
      rw [hfac]
      exact inInt_of_bounds _ (by positivity) (le_trans hmono hf)
    have h2 : inInt ((k : Int) + 1 + 1) = true :=
      inInt_of_bounds _ (by positivity) (by omega)
    have := ih (k + 1) (by omega)
    rw [factorialLoop, if_pos hle, h1, h2]
    simp only [Bool.and_self, if_true]
    rw [hfac]
    exact_mod_cast this

end FuturePromise

/-- C12: for every `int` `n` with `0 ≤ n ≤ 12`, `factorial(n)` of 0x18-packaged_task.cpp and of
0x00-example.cpp returns the mathematical factorial `n!` (no product overflows `int`), and the
latter prints it. -/
theorem factorial_returns_factorial (n : Int) (h0 : 0 ≤ n) (h12 : n ≤ 12) :
    PackagedTask.factorial n = some (n.toNat.factorial : Int) ∧
    FuturePromise.Ex00.factorial n =
      some ((n.toNat.factorial : Int),
        ["The result is: " ++ to_string (n.toNat.factorial : Int)]) := by
  obtain ⟨m, rfl⟩ : ∃ m : Nat, n = m := ⟨n.toNat, by omega⟩
  have hm : m ≤ 12 := by omega
  have hf : (m.factorial : Int) ≤ FuturePromise.INT_MAX := by
    have h1 : m.factorial ≤ Nat.factorial 12 := Nat.factorial_le hm
    have h2 : Nat.factorial 12 = 479001600 := by decide
    unfold FuturePromise.INT_MAX
    omega
  have key := FuturePromise.factorialLoop_spec m hf m 0 (by omega)
  simp only [Nat.factorial_zero, Nat.cast_one, Nat.cast_zero, zero_add] at key
  simp [PackagedTask.factorial, FuturePromise.Ex00.factorial, key]

/-- C12 witness: `factorial(0) = 1`, `factorial(4) = 24`, `factorial(5) = 120`,
`factorial(6) = 720`, `factorial(12) = 479001600`, the next product overflows, and the two
programs print 24. -/
theorem factorial_returns_factorial_witness :
    PackagedTask.factorial 0 = some 1 ∧ PackagedTask.factorial 4 = some 24 ∧
    PackagedTask.factorial 5 = some 120 ∧ PackagedTask.factorial 6 = some 720 ∧
    PackagedTask.factorial 12 = some 479001600 ∧ PackagedTask.factorial 13 = none ∧
    PackagedTask.main = some ["24"] ∧
    FuturePromise.Ex00.main = some (24, ["The result is: 24", "Factorial of 4 is 24"]) ∧
    (PackagedTask.factorial 6 = some (((6 : Int).toNat.factorial : Nat) : Int) ∧
      FuturePromise.Ex00.factorial 6 =
        some ((((6 : Int).toNat.factorial : Nat) : Int),
          ["The result is: " ++ to_string (((6 : Int).toNat.factorial : Nat) : Int)])) :=
  ⟨by decide, by decide, by decide, by decide, by decide, by decide, by decide, by decide,
    factorial_returns_factorial 6 (by decide) (by decide)⟩

/-! ## 0x14-future_async_promise/0x03-example.cpp -/

theorem readTimes_ready {α : Type} (v : α) : ∀ k : Nat,
    readTimes k (SharedState.ready v) =
      (List.replicate k (GetResult.returned v), SharedState.ready v) := by
  intro k
  induction k with
  | zero => rfl
  | succ k ih => simp [readTimes, shared_future_get, future_get, ih, List.replicate_succ]

namespace FuturePromise

namespace Ex03

theorem readInv_step (l : Label) (s s1 : State) (hinv : ReadInv s) (hst : step l s = some s1) :
    ReadInv s1 := by
  obtain ⟨h1, h2, h3, h4, h5, h6, h7⟩ := hinv
  unfold step at hst
  rw [h7] at hst
  simp only [Bool.false_eq_true, if_false] at hst
  cases l with
  | main =>
    simp only [main] at hst
    split at hst
    · rename_i hpc
      split at hst
      · simp only [Option.some.injEq] at hst
        subst hst
        refine ⟨by simp_all, by simp [hpc], h3, fun c => ?_, fun c => ?_, h6, h7⟩
        · have := h4 c
          simp only [Function.update_apply]
          split_ifs <;> simp_all
        · have := h5 c
          simp only [Function.update_apply]
          split_ifs <;> simp_all
      · simp only [Option.some.injEq] at hst
        subst hst
        exact ⟨by simp_all, by simp, h3, h4, h5, h6, h7⟩
    · rename_i hpc
      have hp := h1 (Or.inr hpc)
      rw [hp] at hst
      simp only [promise_set_value, Option.some.injEq] at hst
      subst hst
      exact ⟨by simp, by simp, h3, h4, h5, h6, h7⟩
    · rename_i hpc
      split at hst
      · split at hst
        · simp only [Option.some.injEq] at hst
          subst hst
          exact ⟨by simp [hpc], by simp_all, h3, h4, h5, h6, h7⟩
        · simp at hst
      · simp only [Option.some.injEq] at hst
        subst hst
        exact ⟨by simp, by simp_all, h3, h4, h5, h6, h7⟩
    · simp at hst
  | child c =>
    have hp : s.prom = SharedState.pending ∨ s.prom = SharedState.ready 4 := by
      cases hm : s.mainPc with
      | spawn => exact Or.inl (h1 (Or.inl hm))
      | setValue => exact Or.inl (h1 (Or.inr hm))
      | dtor => exact Or.inr (h2 (Or.inl hm))
      | ret => exact Or.inr (h2 (Or.inr hm))
    simp only [factorial] at hst
    split at hst
    · simp at hst
    · rcases hp with hp | hp
      · simp [hp, shared_future_get, future_get] at hst
      · simp only [hp, shared_future_get, future_get, Option.some.injEq] at hst
        subst hst
        refine ⟨by simpa [hp] using h1, fun _ => rfl, ?_, fun c1 => ?_, fun c1 => ?_, h6, h7⟩
        · intro x hx
          simp only [List.mem_append, List.mem_singleton] at hx
          rcases hx with hx | rfl
          · exact h3 x hx
          · rfl
        · have := h4 c1
          simp only [Function.update_apply]
          split_ifs <;> simp_all
        · have := h5 c1
          simp only [Function.update_apply]
          split_ifs <;> simp_all
    · rename_i hpc
      have hn := h4 c hpc
      rw [hn] at hst
      have hl : factorialLoop ((4 : Int).toNat + 1) 4 1 1 = some 24 := by decide
      simp only [hl, Option.some.injEq] at hst
      subst hst
      refine ⟨h1, h2, h3, fun c1 => ?_, fun c1 => ?_, h6, h7⟩
      · have := h4 c1
        simp only [Function.update_apply]
        split_ifs <;> simp_all
      · have := h5 c1
        simp only [Function.update_apply]
        split_ifs <;> simp_all
    · simp at hst

theorem readInv : ∀ s, Reachable s → ReadInv s := by
  intro s hr
  induction hr with
  | init => simp [ReadInv, init]
  | step l s s1 _ hst ih => exact readInv_step l s s1 ih hst

theorem shared_reachable_run (ls : List Label) : ∀ (s s1 : State), Reachable s →
    run ls s = some s1 → Reachable s1 := by
  induction ls with
  | nil =>
    intro s s1 hr h
    simp only [run, Option.some.injEq] at h
    subst h
    exact hr
  | cons l ls ih =>
    intro s s1 hr h
    simp only [run] at h
    cases hst : step l s with
    | none => simp [hst] at h
    | some s2 =>
      simp only [hst] at h
      exact ih s2 s1 (Reachable.step l s s2 hr hst) h

theorem shared_reachable_runD (ls : List Label) (s : State) (hr : Reachable s) :
    Reachable (runD ls s) := by
  unfold runD
  cases h : run ls s with
  | none => simpa using hr
  | some s1 => simpa using shared_reachable_run ls s s1 hr h

/-- A `get()` changes neither the shared state nor what any other reader has read. -/
theorem get_keeps_state (c : Nat) (s s1 : State) (hst : step (Label.child c) s = some s1) :
    s1.prom = s.prom := by
  unfold step at hst
  split at hst
  · simp at hst
  · simp only [factorial] at hst
    split at hst
    · simp at hst
    · cases hp : s.prom <;>
        simp [hp, shared_future_get, future_get] at hst <;> subst hst <;> simp [hp]
    · split at hst
      · simp only [Option.some.injEq] at hst
        subst hst
        rfl
      · split at hst <;> simp only [Option.some.injEq] at hst <;> subst hst <;> rfl
    · simp at hst

end Ex03

end FuturePromise

namespace FuturePromise

namespace Ex03

theorem liveInv_step (l : Label) (s s1 : State) (hr : ReadInv s) (hinv : LiveInv s)
    (hst : step l s = some s1) : LiveInv s1 := by
  obtain ⟨h1, h2, h3, h4, h5, h6, h7⟩ := hr
  obtain ⟨g1, g2, g3, g4⟩ := hinv
  unfold step at hst
  rw [h7] at hst
  simp only [Bool.false_eq_true, if_false] at hst
  cases l with
  | main =>
    simp only [main] at hst
    split at hst
    · rename_i hpc
      obtain ⟨gi, ga, gb⟩ := g1 hpc
      split at hst
      · simp only [Option.some.injEq] at hst
        subst hst
        refine ⟨fun _ => ⟨by simp; omega, fun c hc => ?_, fun c hc => ?_⟩, by simp [hpc],
          by simp [hpc], by simp [hpc]⟩
        · simp only [Function.update_apply]
          split_ifs with h
          · rfl
          · exact ga c (by simp at hc; omega)
        · simp only [Function.update_apply]
          split_ifs with h
          · simp at hc; omega
          · exact gb c (by simp at hc; omega)
      · simp only [Option.some.injEq] at hst
        subst hst
        refine ⟨by simp, fun _ c hc => ga c (by simp at *; omega), by simp, by simp⟩
    · rename_i hpc
      have hp := h1 (Or.inr hpc)
      rw [hp] at hst
      simp only [promise_set_value, Option.some.injEq] at hst
      subst hst
      refine ⟨by simp, by simp, fun _ => ⟨le_refl _, fun c hc => ?_, fun c hc hc3 => ?_⟩, by simp⟩
      · simp [g2 hpc c hc]
      · simp at hc; omega
    · rename_i hpc
      obtain ⟨gi, ga, gb⟩ := g3 hpc
      split at hst
      · split at hst
        · rename_i hpos hfin
          simp only [Option.some.injEq] at hst
          subst hst
          refine ⟨by simp [hpc], by simp [hpc], fun _ => ⟨by simp; omega, ga, fun c hc hc3 => ?_⟩,
            by simp [hpc]⟩
          simp only at hc
          by_cases hce : c = s.i - 1
          · subst hce; exact hfin
          · exact gb c (by omega) hc3
        · simp at hst
      · rename_i hpos
        simp only [Option.some.injEq] at hst
        subst hst
        exact ⟨by simp, by simp, by simp, fun _ c hc => gb c (by omega) hc⟩
    · simp at hst
  | child c =>
    have hp : s.prom = SharedState.pending ∨ s.prom = SharedState.ready 4 := by
      cases hm : s.mainPc with
      | spawn => exact Or.inl (h1 (Or.inl hm))
      | setValue => exact Or.inl (h1 (Or.inr hm))
      | dtor => exact Or.inr (h2 (Or.inl hm))
      | ret => exact Or.inr (h2 (Or.inr hm))
    simp only [factorial] at hst
    split at hst
    · simp at hst
    · rename_i hpc
      rcases hp with hp | hp
      · simp [hp, shared_future_get, future_get] at hst
      · simp only [hp, shared_future_get, future_get, Option.some.injEq] at hst
        subst hst
        have hm : s.mainPc = MPc.dtor ∨ s.mainPc = MPc.ret := by
          cases hm : s.mainPc with
          | spawn => have := h1 (Or.inl hm); simp [hp] at this
          | setValue => have := h1 (Or.inr hm); simp [hp] at this
          | dtor => exact Or.inl rfl
          | ret => exact Or.inr rfl
        rcases hm with hm | hm
        · obtain ⟨gi, ga, gb⟩ := g3 hm
          refine ⟨by simp [hm], by simp [hm], fun _ => ⟨gi, fun c1 hc1 => ?_, fun c1 hc1 hc3 => ?_⟩,
            by simp [hm]⟩
          · simp only [Function.update_apply]
            split_ifs
            · simp
            · exact ga c1 hc1
          · simp only [Function.update_apply]
            split_ifs with h
            · subst h
              have := gb c1 hc1 hc3
              simp [hpc] at this
            · exact gb c1 hc1 hc3
        · refine ⟨by simp [hm], by simp [hm], by simp [hm], fun _ c1 hc1 => ?_⟩
          simp only [Function.update_apply]
          split_ifs with h
          · subst h
            have := g4 hm c1 hc1
            simp [hpc] at this
          · exact g4 hm c1 hc1
    · rename_i hpc
      have hn := h4 c hpc
      rw [hn] at hst
      have hl : factorialLoop ((4 : Int).toNat + 1) 4 1 1 = some 24 := by decide
      simp only [hl, Option.some.injEq] at hst
      subst hst
      refine ⟨fun hm => ?_, fun hm c1 hc1 => ?_, fun hm => ?_, fun hm c1 hc1 => ?_⟩
      · obtain ⟨gi, ga, gb⟩ := g1 hm
        by_cases hci : c < s.i
        · have := ga c hci
          simp [hpc] at this
        · have := gb c (by omega)
          simp [hpc] at this
      · by_cases hc3 : c < 3
        · have := g2 hm c hc3
          simp [hpc] at this
        · simp only [Function.update_apply]
          split_ifs with h
          · omega
          · exact g2 hm c1 hc1
      · obtain ⟨gi, ga, gb⟩ := g3 hm
        refine ⟨gi, fun c1 hc1 => ?_, fun c1 hc1 hc3 => ?_⟩
        · simp only [Function.update_apply]
          split_ifs
          · simp
          · exact ga c1 hc1
        · simp only [Function.update_apply]
          split_ifs
          · rfl
          · exact gb c1 hc1 hc3
      · simp only [Function.update_apply]
        split_ifs
        · rfl
        · exact g4 hm c1 hc1
    · simp at hst

theorem liveInv : ∀ s, Reachable s → LiveInv s := by
  intro s hr
  induction hr with
  | init => simp [LiveInv, init]
  | step l s s1 hr hst ih => exact liveInv_step l s s1 (readInv s hr) ih hst

theorem shared_progress (s : State) (hr : Reachable s) (hn : ¬ Completed s) :
    ∃ l s1, step l s = some s1 ∧ remaining s1 < remaining s := by
  obtain ⟨h1, h2, h3, h4, h5, h6, h7⟩ := readInv s hr
  obtain ⟨g1, g2, g3, g4⟩ := liveInv s hr
  have childStep : ∀ c, c < 3 → s.prom = SharedState.ready 4 →
      (s.children c).pc = CPc.get ∨ (s.children c).pc = CPc.loop →
      ∃ l s1, step l s = some s1 ∧ remaining s1 < remaining s := by
    intro c hc hp hpc
    have hl : factorialLoop ((4 : Int).toNat + 1) 4 1 1 = some 24 := by decide
    rcases hpc with hpc | hpc
    · refine ⟨Label.child c, _, by
        simp only [step, h7, factorial, hpc, hp, shared_future_get, future_get]; rfl, ?_⟩
      interval_cases c <;> simp [remaining, CPc.remaining, hpc]
    · refine ⟨Label.child c, _, by
        simp only [step, h7, factorial, hpc, h4 c hpc, hl]; rfl, ?_⟩
      interval_cases c <;> simp [remaining, CPc.remaining, hpc]
  cases hm : s.mainPc with
  | spawn =>
    obtain ⟨gi, ga, gb⟩ := g1 hm
    by_cases hi : s.i < 3
    · refine ⟨Label.main, _, by simp only [step, h7, main, hm, hi]; rfl, ?_⟩
      have hns := gb s.i (le_refl _)
      have : s.i = 0 ∨ s.i = 1 ∨ s.i = 2 := by omega
      rcases this with h | h | h <;> rw [h] at hns <;>
        simp [remaining, CPc.remaining, hm, h, hns, Function.update_apply]
    · refine ⟨Label.main, _, by simp only [step, h7, main, hm, hi]; rfl, ?_⟩
      simp [remaining, hm]
  | setValue =>
    refine ⟨Label.main, _, by
      simp only [step, h7, main, hm, h1 (Or.inr hm), promise_set_value]; rfl, ?_⟩
    simp [remaining, hm]
  | dtor =>
    obtain ⟨gi, ga, gb⟩ := g3 hm
    have hp := h2 (Or.inl hm)
    by_cases hi : 0 < s.i
    · by_cases hf : (s.children (s.i - 1)).pc = CPc.finished
      · refine ⟨Label.main, _, by simp only [step, h7, main, hm, hi, hf]; rfl, ?_⟩
        simp [remaining, hm]
        omega
      · have hns := ga (s.i - 1) (by omega)
        refine childStep (s.i - 1) (by omega) hp ?_
        cases hpc : (s.children (s.i - 1)).pc <;> simp_all
    · refine ⟨Label.main, _, by simp only [step, h7, main, hm, hi]; rfl, ?_⟩
      simp [remaining, hm]
  | ret => exact absurd ⟨hm, g4 hm⟩ hn

theorem shared_run_append (ls ms : List Label) : ∀ s s1 : State, run ls s = some s1 →
    run (ls ++ ms) s = run ms s1 := by
  induction ls with
  | nil =>
    intro s s1 h
    simp only [run, Option.some.injEq] at h
    subst h
    rfl
  | cons l ls ih =>
    intro s s1 h
    simp only [run, List.cons_append] at h ⊢
    cases hst : step l s with
    | none => simp [hst] at h
    | some s2 =>
      simp only [hst] at h ⊢
      exact ih s2 s1 h

theorem can_complete_aux : ∀ (k : Nat) (s : State), Reachable s → remaining s ≤ k →
    ∃ ls s1, run ls s = some s1 ∧ Completed s1 := by
  intro k
  induction k with
  | zero =>
    intro s hr hk
    by_cases hc : Completed s
    · exact ⟨[], s, rfl, hc⟩
    · obtain ⟨l, s1, _, hlt⟩ := shared_progress s hr hc
      omega
  | succ k ih =>
    intro s hr hk
    by_cases hc : Completed s
    · exact ⟨[], s, rfl, hc⟩
    · obtain ⟨l, s1, hst, hlt⟩ := shared_progress s hr hc
      obtain ⟨ls, s2, hrun, hc2⟩ := ih s1 (Reachable.step l s s1 hr hst) (by omega)
      exact ⟨l :: ls, s2, by simp [run, hst, hrun], hc2⟩

end Ex03

end FuturePromise

/-! ## Claims about the shared result handle -/

namespace FuturePromise

namespace Ex03

/-- C13: reading a resolved shared result handle is repeatable. Any number of `get()` calls on a
shared state holding `v` return `v` each and leave the shared state holding `v`; in
0x03-example.cpp a `get()` of a child never changes the shared state, every value read by any of
the three `factorial` calls is 4, every call that has finished returned 24, no loop overflows and
no exception leaves main; and from every reachable state the program can run to its end, where
each of the three calls has read 4 and returned 24. -/
theorem shared_result_read_is_repeatable (s : State) (hr : Reachable s) :
    (∀ (v : Int) (k : Nat), readTimes k (SharedState.ready v) =
      (List.replicate k (GetResult.returned v), SharedState.ready v)) ∧
    (∀ c s1, step (Label.child c) s = some s1 → s1.prom = s.prom) ∧
    (∀ x ∈ s.reads, x.2 = 4) ∧
    (∀ c, (s.children c).pc = CPc.loop → (s.children c).n = some 4) ∧
    (∀ c, (s.children c).pc = CPc.finished →
      (s.children c).n = some 4 ∧ (s.children c).res = some 24) ∧
    s.ub = false ∧ s.aborted = false ∧
    (∃ ls s1, run ls s = some s1 ∧ Completed s1 ∧
      ∀ c, c < 3 → (s1.children c).n = some 4 ∧ (s1.children c).res = some 24) := by
  obtain ⟨_, _, h3, h4, h5, h6, h7⟩ := readInv s hr
  refine ⟨fun v k => readTimes_ready v k, fun c s1 h => get_keeps_state c s s1 h, h3, h4, h5,
    h6, h7, ?_⟩
  obtain ⟨ls, s1, hrun, hc⟩ := can_complete_aux (remaining s) s hr (le_refl _)
  have hr1 := shared_reachable_run ls s s1 hr hrun
  exact ⟨ls, s1, hrun, hc, fun c hc3 => (readInv s1 hr1).2.2.2.2.1 c (hc.2 c hc3)⟩

/-- C13 witness: on the run in which all three children block before the promise is kept: the
reads are 4, 4 and 4, the three calls return 24 and print it, and main returns; after the first
read the shared state still holds 4 for the two readers that have not read yet. -/
theorem shared_result_read_is_repeatable_witness :
    (runD schedAll init).mainPc = MPc.ret ∧
    (runD schedAll init).reads = [(2, 4), (0, 4), (1, 4)] ∧
    (runD schedAll init).prom = SharedState.ready 4 ∧
    ((runD schedAll init).children 0).res = some 24 ∧
    ((runD schedAll init).children 1).res = some 24 ∧
    ((runD schedAll init).children 2).res = some 24 ∧
    (runD schedAll init).out =
      ["The result is: 24", "The result is: 24", "The result is: 24"] ∧
    (runD schedOneRead init).reads = [(2, 4)] ∧
    (runD schedOneRead init).prom = SharedState.ready 4 ∧
    ((runD schedOneRead init).children 0).pc = CPc.get ∧
    ((∀ (v : Int) (k : Nat), readTimes k (SharedState.ready v) =
      (List.replicate k (GetResult.returned v), SharedState.ready v)) ∧
    (∀ c s1, step (Label.child c) (runD schedOneRead init) = some s1 →
      s1.prom = (runD schedOneRead init).prom) ∧
    (∀ x ∈ (runD schedOneRead init).reads, x.2 = 4) ∧
    (∀ c, ((runD schedOneRead init).children c).pc = CPc.loop →
      ((runD schedOneRead init).children c).n = some 4) ∧
    (∀ c, ((runD schedOneRead init).children c).pc = CPc.finished →
      ((runD schedOneRead init).children c).n = some 4 ∧
      ((runD schedOneRead init).children c).res = some 24) ∧
    (runD schedOneRead init).ub = false ∧ (runD schedOneRead init).aborted = false ∧
    (∃ ls s1, run ls (runD schedOneRead init) = some s1 ∧ Completed s1 ∧
      ∀ c, c < 3 → (s1.children c).n = some 4 ∧ (s1.children c).res = some 24)) :=
  ⟨by decide, by decide, by decide, by decide, by decide, by decide, by decide, by decide,
    by decide, by decide,
    shared_result_read_is_repeatable (runD schedOneRead init)
      (shared_reachable_runD schedOneRead init Reachable.init)⟩

end Ex03

end FuturePromise

/-! ## Claims about the thread wrapper -/

namespace ThreadWrapper

/-- C14 (as amended): the destructor of a ThreadRAII whose thread is joinable detaches the thread
when the action is `detach`, and joins it when the action is `join` and the thread that runs the
destructor is not the wrapped thread; in these cases the thread is not joinable afterwards and
destroying the wrapper does not call `std::terminate`; a thread that is not joinable is left
untouched. -/
theorem dtor_joins_or_detaches (caller : Nat) (self : ThreadRAII) :
    (∀ i, self.t_.id = some i → self.action_ = DtorAction.join → i ≠ caller →
      self.dtor caller = ({ self with t_ := ⟨none⟩ }, [Event.joined i])) ∧
    (∀ i, self.t_.id = some i → self.action_ = DtorAction.detach →
      self.dtor caller = ({ self with t_ := ⟨none⟩ }, [Event.detached i])) ∧
    ((self.action_ = DtorAction.join → self.t_.id ≠ some caller) →
      (self.dtor caller).1.t_.joinable = false ∧ Event.terminate ∉ self.destroy caller) ∧
    (self.t_.joinable = false → self.dtor caller = (self, [])) := by
  obtain ⟨⟨id⟩, a⟩ := self
  cases id with
  | none =>
    cases a <;>
      simp [ThreadRAII.dtor, ThreadRAII.destroy, Thread.joinable, Thread.join, Thread.detach,
        Thread.dtor]
  | some i =>
    cases a with
    | detach =>
      simp [ThreadRAII.dtor, ThreadRAII.destroy, Thread.joinable, Thread.join, Thread.detach,
        Thread.dtor]
    | join =>
      by_cases h : i = caller
      · subst h
        simp [ThreadRAII.dtor, Thread.joinable, Thread.join]
      · simp [ThreadRAII.dtor, ThreadRAII.destroy, Thread.joinable, Thread.join, Thread.dtor, h]

/-- C14 witness: the wrapper of `main`, destroyed by main (thread 1), joins thread 7; a wrapper
with `detach` detaches it, also when thread 7 itself destroys it; a moved-from wrapper does
nothing. -/
theorem dtor_joins_or_detaches_witness :
    (ThreadRAII.dtor 1 ⟨⟨some 7⟩, DtorAction.join⟩).2 = [Event.joined 7] ∧
    (ThreadRAII.dtor 1 ⟨⟨some 7⟩, DtorAction.detach⟩).2 = [Event.detached 7] ∧
    (ThreadRAII.dtor 7 ⟨⟨some 7⟩, DtorAction.detach⟩).2 = [Event.detached 7] ∧
    ThreadRAII.destroy 1 (ThreadRAII.moveCtor ⟨⟨some 7⟩, DtorAction.join⟩).2 = [] ∧
    main 1 (Except.ok 7) =
      ⟨exampleFunction 7 ++ ["Hello from main thread: 1\n"], [], [Event.joined 7]⟩ ∧
    ((∀ i, (some 7 : Option Nat) = some i → DtorAction.join = DtorAction.join → i ≠ 1 →
      ThreadRAII.dtor 1 ⟨⟨some 7⟩, DtorAction.join⟩ =
        (⟨⟨none⟩, DtorAction.join⟩, [Event.joined i])) ∧
    (∀ i, (some 7 : Option Nat) = some i → DtorAction.join = DtorAction.detach →
      ThreadRAII.dtor 1 ⟨⟨some 7⟩, DtorAction.join⟩ =
        (⟨⟨none⟩, DtorAction.join⟩, [Event.detached i])) ∧
    ((DtorAction.join = DtorAction.join → (some 7 : Option Nat) ≠ some 1) →
      (ThreadRAII.dtor 1 ⟨⟨some 7⟩, DtorAction.join⟩).1.t_.joinable = false ∧
      Event.terminate ∉ ThreadRAII.destroy 1 ⟨⟨some 7⟩, DtorAction.join⟩) ∧
    (Thread.joinable ⟨some 7⟩ = false →
      ThreadRAII.dtor 1 ⟨⟨some 7⟩, DtorAction.join⟩ = (⟨⟨some 7⟩, DtorAction.join⟩, []))) :=
  ⟨by decide, by decide, by decide, by decide, by decide,
    dtor_joins_or_detaches 1 ⟨⟨some 7⟩, DtorAction.join⟩⟩

/-- C14 counterexample: a wrapper of thread 7 with the action `join` whose destructor is run by
thread 7 itself. The thread is joinable, yet the destructor does not join it: `join()` throws
inside the destructor, `std::terminate` is called, and the thread is still joinable. -/
theorem self_join_terminates :
    Thread.joinable (ThreadRAII.t_ ⟨⟨some 7⟩, DtorAction.join⟩) = true ∧
    ThreadRAII.dtor 7 ⟨⟨some 7⟩, DtorAction.join⟩ =
      (⟨⟨some 7⟩, DtorAction.join⟩, [Event.terminate]) ∧
    Event.joined 7 ∉ (ThreadRAII.dtor 7 ⟨⟨some 7⟩, DtorAction.join⟩).2 ∧
    (ThreadRAII.dtor 7 ⟨⟨some 7⟩, DtorAction.join⟩).1.t_.joinable = true ∧
    ThreadRAII.destroy 7 ⟨⟨some 7⟩, DtorAction.join⟩ = [Event.terminate] := by
  decide

/-- C15: the constructor of ThreadRAII throws `logic_error("No thread to manage")` exactly when
the thread passed to it is not joinable, and throws nothing else; when the thread is joinable the
construction succeeds and the wrapper holds that thread and the given action. -/
theorem ctor_throws_iff_not_joinable (t : Thread) (action : DtorAction) :
    (ThreadRAII.ctor t action = Except.error (StdException.logic_error "No thread to manage") ↔
      t.joinable = false) ∧
    (∀ ex, ThreadRAII.ctor t action = Except.error ex →
      ex = StdException.logic_error "No thread to manage") ∧
    (t.joinable = true → ThreadRAII.ctor t action = Except.ok ⟨t, action⟩) := by
  obtain ⟨id⟩ := t
  cases id <;> simp [ThreadRAII.ctor, Thread.joinable, Thread.move]

/-- C15 witness: a default-constructed `std::thread` is refused, a running one is accepted. -/
theorem ctor_throws_iff_not_joinable_witness :
    ThreadRAII.ctor ⟨none⟩ DtorAction.join =
      Except.error (StdException.logic_error "No thread to manage") ∧
    ThreadRAII.ctor ⟨some 7⟩ DtorAction.detach = Except.ok ⟨⟨some 7⟩, DtorAction.detach⟩ ∧
    ((ThreadRAII.ctor ⟨some 7⟩ DtorAction.detach =
        Except.error (StdException.logic_error "No thread to manage") ↔
      Thread.joinable ⟨some 7⟩ = false) ∧
    (∀ ex, ThreadRAII.ctor ⟨some 7⟩ DtorAction.detach = Except.error ex →
      ex = StdException.logic_error "No thread to manage") ∧
    (Thread.joinable ⟨some 7⟩ = true →
      ThreadRAII.ctor ⟨some 7⟩ DtorAction.detach = Except.ok ⟨⟨some 7⟩, DtorAction.detach⟩)) :=
  ⟨rfl, rfl, ctor_throws_iff_not_joinable ⟨some 7⟩ DtorAction.detach⟩

end ThreadWrapper

/-! ## Claims about the fixed-size array -/

namespace TemplateArray

/-- C16: for `MyArray<T, N>` and every index, `at(index)` throws
`out_of_range("Index out of bounds")` exactly when `index >= N` and throws nothing else;
otherwise it refers to the same element as `operator[](index)`, the one at `index`; and an
assignment through `at` that throws leaves the array as it was. -/
theorem at_throws_iff_out_of_bounds {T : Type} {N : Nat} (a : MyArray T N) (index : Nat) :
    (a.at_ index = Except.error (StdException.out_of_range "Index out of bounds") ↔
      index ≥ N) ∧
    (∀ e, a.at_ index = Except.error e → e = StdException.out_of_range "Index out of bounds") ∧
    (index < N → a.at_ index = Except.ok ⟨index⟩ ∧ a.subscript index = some ⟨index⟩) ∧
    (index ≥ N → ∀ v, a.assignAt index v =
      (a, some (StdException.out_of_range "Index out of bounds"))) := by
  by_cases h : index ≥ N
  · have h1 : ¬ index < N := by omega
    simp [MyArray.at_, MyArray.assignAt, h, h1]
  · have h1 : index < N := by omega
    simp [MyArray.at_, MyArray.subscript, h, h1]

/-- C16 witness: in `main`, `arr.at(5)` on the 5-element array throws and the array keeps 10 20 30
40 50, which the loop has printed; `at(4)` and `operator[](4)` are the same element. -/
theorem at_throws_iff_out_of_bounds_witness :
    main = some ⟨["10 ", "20 ", "30 ", "40 ", "50 "], ["Index out of bounds", "\n"],
      [some 10, some 20, some 30, some 40, some 50]⟩ ∧
    ((MyArray.ctor : MyArray Int 5).at_ 4 = Except.ok ⟨4⟩ ∧
      (MyArray.ctor : MyArray Int 5).subscript 4 = some ⟨4⟩) ∧
    (((MyArray.ctor : MyArray Int 5).at_ 5 =
        Except.error (StdException.out_of_range "Index out of bounds") ↔ 5 ≥ 5) ∧
    (∀ e, (MyArray.ctor : MyArray Int 5).at_ 5 = Except.error e →
      e = StdException.out_of_range "Index out of bounds") ∧
    (5 < 5 → (MyArray.ctor : MyArray Int 5).at_ 5 = Except.ok ⟨5⟩ ∧
      (MyArray.ctor : MyArray Int 5).subscript 5 = some ⟨5⟩) ∧
    (5 ≥ 5 → ∀ v, (MyArray.ctor : MyArray Int 5).assignAt 5 v =
      (MyArray.ctor, some (StdException.out_of_range "Index out of bounds")))) :=
  ⟨by decide, ((at_throws_iff_out_of_bounds (MyArray.ctor : MyArray Int 5) 4).2.2.1 (by decide)),
    at_throws_iff_out_of_bounds (MyArray.ctor : MyArray Int 5) 5⟩

end TemplateArray

/-! ## 0x07-allocators/0x00-my_vector.cpp -/

namespace AllocVector

variable {T : Type}

theorem get?_append_cons (pre : List (Option T)) (a : Option T) (rest : List (Option T)) :
    (pre ++ a :: rest).get? pre.length = some a := by
  induction pre with
  | nil => rfl
  | cons p pre ih => simpa using ih

theorem set_append_cons (pre : List (Option T)) (a b : Option T) (rest : List (Option T)) :
    (pre ++ a :: rest).set pre.length b = pre ++ b :: rest := by
  induction pre with
  | nil => rfl
  | cons p pre ih => simp

theorem load_append_cons (pre : List (Option T)) (x : T) (rest : List (Option T)) :
    load (pre ++ some x :: rest) pre.length = Except.ok x := by
  simp only [load, get?_append_cons]

theorem destroy_append_cons (pre : List (Option T)) (x : T) (rest : List (Option T)) :
    destroy (pre ++ some x :: rest) pre.length = Except.ok (pre ++ none :: rest) := by
  simp only [destroy, get?_append_cons, set_append_cons]

theorem construct_append_cons (pre : List (Option T)) (a : Option T) (x : T)
    (rest : List (Option T)) :
    construct (pre ++ a :: rest) pre.length x = Except.ok (pre ++ some x :: rest) := by
  simp [construct, set_append_cons]

theorem moveLoop_spec : ∀ (ys : List T) (pre post npre nrest : List (Option T)),
    npre.length = pre.length → ys.length ≤ nrest.length →
    moveLoop ys.length pre.length (pre ++ ys.map some ++ post) (npre ++ nrest) =
      Except.ok (pre ++ List.replicate ys.length none ++ post,
        npre ++ ys.map some ++ nrest.drop ys.length) := by
  intro ys
  induction ys with
  | nil => intro pre post npre nrest _ _; simp [moveLoop]
  | cons y ys ih =>
    intro pre post npre nrest hl hle
    cases nrest with
    | nil => simp at hle
    | cons z nrest =>
      have h1 : pre ++ List.map some (y :: ys) ++ post =
          pre ++ some y :: (List.map some ys ++ post) := by simp
      have h2 := ih (pre ++ [none]) post (npre ++ [some y]) nrest (by simp [hl])
        (by simpa using hle)
      simp only [List.length_cons, moveLoop, h1, load_append_cons, destroy_append_cons]
      rw [← hl, construct_append_cons]
      simp only [List.length_append, List.length_singleton, List.append_assoc,
        List.singleton_append] at h2
      rw [hl]
      simpa [List.replicate_succ] using h2

theorem construct_rep (xs : List T) (c : Nat) (x : T) (h : xs.length < c) :
    construct (xs.map some ++ List.replicate (c - xs.length) none) xs.length x =
      Except.ok ((xs ++ [x]).map some ++ List.replicate (c - (xs.length + 1)) none) := by
  obtain ⟨m, hm⟩ : ∃ m, c - xs.length = m + 1 := ⟨c - xs.length - 1, by omega⟩
  have hm1 : c - (xs.length + 1) = m := by omega
  rw [hm, hm1, List.replicate_succ]
  have := construct_append_cons (xs.map some) none x (List.replicate m none)
  simp only [List.length_map] at this
  rw [this]
  simp

theorem load_rep (xs : List T) (c i : Nat) (hi : i < xs.length) :
    load (xs.map some ++ List.replicate (c - xs.length) none) i =
      Except.ok (xs.get ⟨i, hi⟩) := by
  simp [load, List.getElem?_append_left, hi]

theorem resize_eq (limit : Nat) (v : MyVector T) (xs : List T) (nc : Nat) (hrep : Rep v xs)
    (hnc : xs.length ≤ nc) :
    v.resize limit nc =
      if nc ≤ limit ∧ nc ≤ max_size then
        Except.ok ⟨xs.map some ++ List.replicate (nc - xs.length) none, xs.length, nc⟩
      else Except.error (Fault.thrown StdException.bad_alloc) := by
  obtain ⟨hd, hs, hc, hm⟩ := hrep
  unfold MyVector.resize allocate
  split_ifs with h
  · have hml := moveLoop_spec xs [] (List.replicate (v.capacity_ - xs.length) none) []
      (List.replicate nc none) rfl (by simpa using hnc)
    simp only [List.nil_append, List.length_nil] at hml
    simp only [hs, hd, hml, deallocate]
    simp [hc]
  · rfl

theorem push_back_eq (limit : Nat) (v : MyVector T) (xs : List T) (x : T) (hrep : Rep v xs) :
    v.push_back limit (ValueRef.outside x) =
      if xs.length < v.capacity_ then
        Except.ok ⟨(xs ++ [x]).map some ++
          List.replicate (v.capacity_ - (xs.length + 1)) none, xs.length + 1, v.capacity_⟩
      else if 2 * v.capacity_ ≤ limit ∧ 2 * v.capacity_ ≤ max_size then
        if v.capacity_ = 0 then Except.error Fault.undefined
        else Except.ok ⟨(xs ++ [x]).map some ++
          List.replicate (2 * v.capacity_ - (xs.length + 1)) none, xs.length + 1,
          2 * v.capacity_⟩
      else Except.error (Fault.thrown StdException.bad_alloc) := by
  have hrep1 := hrep
  obtain ⟨hd, hs, hc, hm⟩ := hrep
  have hmax : max_size = 9223372036854775807 := rfl
  have hmod : SIZE_MOD = 18446744073709551616 := rfl
  unfold MyVector.push_back
  simp only [ValueRef.read]
  by_cases hlt : xs.length < v.capacity_
  · have hne : ¬ v.size_ = v.capacity_ := by omega
    have hsz : (xs.length + 1) % SIZE_MOD = xs.length + 1 := Nat.mod_eq_of_lt (by omega)
    rw [if_neg hne, if_pos hlt]
    simp only [hs, hd, construct_rep xs v.capacity_ x hlt, hsz]
  · have heq : v.size_ = v.capacity_ := by omega
    have hdbl : v.capacity_ * 2 % SIZE_MOD = 2 * v.capacity_ := by
      rw [Nat.mod_eq_of_lt (by omega)]; omega
    rw [if_pos heq, if_neg hlt, hdbl, resize_eq limit v xs (2 * v.capacity_) hrep1 (by omega)]
    split_ifs with h h0
    · have hx : xs = [] := List.length_eq_zero.1 (by omega)
      subst hx
      simp [construct, h0]
    · have hlt2 : xs.length < 2 * v.capacity_ := by omega
      have hsz : (xs.length + 1) % SIZE_MOD = xs.length + 1 := Nat.mod_eq_of_lt (by omega)
      simp only [construct_rep xs (2 * v.capacity_) x hlt2, hsz]
    · rfl

theorem push_back_rep (limit : Nat) (v v1 : MyVector T) (xs : List T) (x : T) (hrep : Rep v xs)
    (h : v.push_back limit (ValueRef.outside x) = Except.ok v1) : Rep v1 (xs ++ [x]) := by
  rw [push_back_eq limit v xs x hrep] at h
  obtain ⟨hd, hs, hc, hm⟩ := hrep
  split_ifs at h with h1 h2 h3
  · simp only [Except.ok.injEq] at h
    subst h
    exact ⟨by simp, by simp, by simpa using h1, hm⟩
  · simp only [Except.ok.injEq] at h
    subst h
    refine ⟨by simp, by simp, ?_, h2.2⟩
    simp only [List.length_append, List.length_singleton]
    omega

theorem push_back_ok (limit : Nat) (v : MyVector T) (xs : List T) (x : T) (hrep : Rep v xs)
    (h1 : 1 ≤ v.capacity_) (ht : v.capacity_ ≤ max 1 (2 * xs.length))
    (hl : 2 * (xs.length + 1) ≤ limit) (hmx : 2 * (xs.length + 1) ≤ max_size) :
    ∃ v1, v.push_back limit (ValueRef.outside x) = Except.ok v1 ∧ 1 ≤ v1.capacity_ ∧
      v1.capacity_ ≤ max 1 (2 * (xs.length + 1)) := by
  rw [push_back_eq limit v xs x hrep]
  obtain ⟨hd, hs, hc, hm⟩ := hrep
  have hcap : v.capacity_ ≤ 1 ∨ v.capacity_ ≤ 2 * xs.length := by
    rcases le_max_iff.1 ht with h | h
    · exact Or.inl h
    · exact Or.inr h
  have hmax : max 1 (2 * (xs.length + 1)) = 2 * (xs.length + 1) := max_eq_right (by omega)
  rw [hmax]
  split_ifs with h2 h3 h4
  · exact ⟨_, rfl, h1, by simp only; omega⟩
  · omega
  · exact ⟨_, rfl, by simp only; omega, by simp only; omega⟩
  · exfalso
    apply h3
    constructor <;> omega

theorem pushList_rep (limit : Nat) : ∀ (xs ys : List T) (v v1 : MyVector T), Rep v ys →
    pushList limit v (xs.map ValueRef.outside) = Except.ok v1 → Rep v1 (ys ++ xs) := by
  intro xs
  induction xs with
  | nil =>
    intro ys v v1 hrep h
    simp only [List.map_nil, pushList, Except.ok.injEq] at h
    subst h
    simpa using hrep
  | cons x xs ih =>
    intro ys v v1 hrep h
    simp only [List.map_cons, pushList] at h
    cases hp : v.push_back limit (ValueRef.outside x) with
    | error e => simp [hp] at h
    | ok v2 =>
      simp only [hp] at h
      have := ih (ys ++ [x]) v2 v1 (push_back_rep limit v v2 ys x hrep hp) h
      simpa using this

theorem pushList_ok (limit : Nat) : ∀ (xs ys : List T) (v : MyVector T), Rep v ys →
    1 ≤ v.capacity_ → v.capacity_ ≤ max 1 (2 * ys.length) →
    2 * (ys.length + xs.length) ≤ limit → 2 * (ys.length + xs.length) ≤ max_size →
    ∃ v1, pushList limit v (xs.map ValueRef.outside) = Except.ok v1 := by
  intro xs
  induction xs with
  | nil => intro ys v _ _ _ _ _; exact ⟨v, rfl⟩
  | cons x xs ih =>
    intro ys v hrep h1 ht hl hmx
    simp only [List.length_cons] at hl hmx
    obtain ⟨v2, hp, h12, ht2⟩ := push_back_ok limit v ys x hrep h1 ht (by omega) (by omega)
    have hrep2 := push_back_rep limit v v2 ys x hrep hp
    obtain ⟨v1, hv1⟩ := ih (ys ++ [x]) v2 hrep2 h12 (by simpa using ht2)
      (by simp only [List.length_append, List.length_singleton]; omega)
      (by simp only [List.length_append, List.length_singleton]; omega)
    exact ⟨v1, by simp only [List.map_cons, pushList, hp, hv1]⟩

theorem ctor_eq (limit : Nat) : (MyVector.ctor limit : Except Fault (MyVector T)) =
    if 1 ≤ limit then Except.ok ⟨[none], 0, 1⟩
    else Except.error (Fault.thrown StdException.bad_alloc) := by
  have hmax : (1 : Nat) ≤ max_size := by decide
  unfold MyVector.ctor allocate
  split_ifs with h1 h2 h3
  · rfl
  · exact absurd h1.1 h2
  · exact absurd ⟨h3, hmax⟩ h1
  · rfl

theorem rep_ctor : Rep (⟨[none], 0, 1⟩ : MyVector T) [] :=
  ⟨rfl, rfl, by simp, by simp [max_size]⟩

theorem subscript_rep (v : MyVector T) (xs : List T) (hrep : Rep v xs) (i : Nat)
    (hi : i < xs.length) : v.subscript i = Except.ok (xs.get ⟨i, hi⟩) := by
  obtain ⟨hd, hs, hc, hm⟩ := hrep
  have : ¬ i ≥ v.size_ := by omega
  simp only [MyVector.subscript, this, if_false, hd, load_rep xs v.capacity_ i hi]

theorem destroyLoop_spec : ∀ (ys : List T) (pre post : List (Option T)),
    destroyLoop ys.length pre.length (pre ++ ys.map some ++ post) =
      Except.ok (pre ++ List.replicate ys.length none ++ post) := by
  intro ys
  induction ys with
  | nil => intro pre post; simp [destroyLoop]
  | cons y ys ih =>
    intro pre post
    have h1 : pre ++ List.map some (y :: ys) ++ post =
        pre ++ some y :: (List.map some ys ++ post) := by simp
    have h2 := ih (pre ++ [none]) post
    simp only [List.length_append, List.length_singleton, List.append_assoc,
      List.singleton_append] at h2
    simp only [List.length_cons, destroyLoop, h1, destroy_append_cons]
    simpa [List.replicate_succ] using h2

theorem clear_eq (v : MyVector T) (xs : List T) (hrep : Rep v xs) :
    v.clear = Except.ok ⟨List.replicate v.capacity_ none, 0, v.capacity_⟩ := by
  obtain ⟨hd, hs, hc, hm⟩ := hrep
  have h := destroyLoop_spec xs [] (List.replicate (v.capacity_ - xs.length) none)
  simp only [List.nil_append, List.length_nil] at h
  simp only [MyVector.clear, hs, hd, h]
  congr 2
  rw [← List.replicate_add]
  congr 1
  omega

theorem clear_size (v v1 : MyVector T) (h : v.clear = Except.ok v1) : v1.size_ = 0 := by
  unfold MyVector.clear at h
  split at h
  · simp at h
  · simp only [Except.ok.injEq] at h
    subst h
    rfl

end AllocVector

/-! ## Claims about the allocator-based vector -/

namespace AllocVector

/-- The vector of `main` after its ten `push_back` calls, with 16 elements of memory. -/
theorem pushAll_ten :
    pushAll 16 ((List.range 10).map fun i => ValueRef.outside (Int.ofNat i)) =
    Except.ok ⟨[some 0, some 1, some 2, some 3, some 4, some 5, some 6, some 7, some 8, some 9,
      none, none, none, none, none, none], 10, 16⟩ := by
  rfl

/-- What holds of `push_back` when no argument refers to an element of the vector: a
default-constructed vector followed by `push_back` of the values of `xs` in that order has
`size()` equal to the number of values and `operator[](i)` returns the value pushed at position
`i`, whatever capacity doublings occur on the way; and the calls do complete when the memory
holds twice as many elements as are pushed. -/
theorem push_back_of_outside_values {T : Type} (limit : Nat) (xs : List T) :
    (∀ v, pushAll limit (xs.map ValueRef.outside) = Except.ok v →
      v.size = xs.length ∧
      ∀ i (hi : i < xs.length), v.subscript i = Except.ok (xs.get ⟨i, hi⟩)) ∧
    (1 ≤ limit → 2 * xs.length ≤ limit → 2 * xs.length ≤ max_size →
      ∃ v, pushAll limit (xs.map ValueRef.outside) = Except.ok v) := by
  constructor
  · intro v h
    unfold pushAll at h
    rw [ctor_eq] at h
    split_ifs at h with h1
    have hrep := pushList_rep limit xs [] _ v rep_ctor h
    simp only [List.nil_append] at hrep
    exact ⟨hrep.2.1, fun i hi => subscript_rep v xs hrep i hi⟩
  · intro h1 h2 h3
    unfold pushAll
    rw [ctor_eq, if_pos h1]
    exact pushList_ok limit xs [] _ rep_ctor (by simp) (by simp) (by simpa using h2)
      (by simpa using h3)

/-- In `main` the values 0..9 are pushed from the loop variable: the size is 10, `vec[i]` is
`i`, the capacity went through 1, 2, 4, 8, 16; with less memory than 16 elements the ninth
`push_back` throws. -/
theorem main_pushes_ten :
    main 16 = Except.ok ["vec[0] = 0\n", "vec[1] = 1\n", "vec[2] = 2\n", "vec[3] = 3\n",
      "vec[4] = 4\n", "vec[5] = 5\n", "vec[6] = 6\n", "vec[7] = 7\n", "vec[8] = 8\n",
      "vec[9] = 9\n", "Size after clearing: 0\n"] ∧
    main 15 = Except.error (Fault.thrown StdException.bad_alloc) :=
  ⟨by rfl, by rfl⟩

/-- A `push_back` whose argument is an element of the vector itself: without a capacity doubling
it appends a copy of that element; with one it never completes, since the element is read after
`resize` has destroyed and deallocated the storage it lies in. -/
theorem push_back_of_own_element {T : Type} (limit : Nat) (v : MyVector T) (i : Nat) :
    (∀ xs (hi : i < xs.length), Rep v xs → xs.length < v.capacity_ →
      v.push_back limit (ValueRef.element i) =
        v.push_back limit (ValueRef.outside (xs.get ⟨i, hi⟩))) ∧
    (v.size_ = v.capacity_ → ∀ v1, v.push_back limit (ValueRef.element i) ≠ Except.ok v1) ∧
    (∀ xs, Rep v xs → v.size_ = v.capacity_ → 1 ≤ v.capacity_ →
      2 * v.capacity_ ≤ limit → 2 * v.capacity_ ≤ max_size →
      v.push_back limit (ValueRef.element i) = Except.error Fault.undefined) := by
  refine ⟨?_, ?_, ?_⟩
  · intro xs hi hrep hlt
    obtain ⟨hd, hs, hc, hm⟩ := hrep
    have hne : ¬ v.size_ = v.capacity_ := by omega
    unfold MyVector.push_back
    rw [if_neg hne]
    simp only [ValueRef.read, hne, decide_False, Bool.false_eq_true, if_false]
    rw [hd, load_rep xs v.capacity_ i hi]
  · intro heq v1 h
    unfold MyVector.push_back at h
    rw [if_pos heq] at h
    simp only [ValueRef.read, heq, decide_True, if_true] at h
    split at h <;> simp at h
  · intro xs hrep heq h1 hl hmx
    have hrep1 := hrep
    obtain ⟨hd, hs, hc, hm⟩ := hrep
    have hmax : max_size = 9223372036854775807 := rfl
    have hmod : SIZE_MOD = 18446744073709551616 := rfl
    have hdbl : v.capacity_ * 2 % SIZE_MOD = 2 * v.capacity_ := by
      rw [Nat.mod_eq_of_lt (by omega)]; omega
    unfold MyVector.push_back
    rw [if_pos heq, hdbl, resize_eq limit v xs (2 * v.capacity_) hrep1 (by omega),
      if_pos ⟨hl, hmx⟩]
    simp only [ValueRef.read, heq, decide_True, if_true]

/-- C17: the failing input `MyVector<int> v; v.push_back(5); v.push_back(v[0]);`. After the
first call the vector holds 5 with size 1 and capacity 1. The second call doubles the capacity:
`resize` destroys and deallocates the storage that `value` refers to before l.30 reads it, so
the behaviour is undefined, where pushing the values 5, 5 from outside gives size 2 and 5 at
both indices. -/
theorem push_back_own_element_at_doubling_is_undefined :
    pushAll 16 [ValueRef.outside (5 : Int)] = Except.ok ⟨[some 5], 1, 1⟩ ∧
    MyVector.subscript (⟨[some 5], 1, 1⟩ : MyVector Int) 0 = Except.ok 5 ∧
    pushAll 16 [ValueRef.outside (5 : Int), ValueRef.element 0] =
      Except.error Fault.undefined ∧
    pushAll 16 [ValueRef.outside (5 : Int), ValueRef.outside 5] =
      Except.ok ⟨[some 5, some 5], 2, 2⟩ ∧
    pushAll 16 [ValueRef.outside (5 : Int), ValueRef.outside 6, ValueRef.outside 7,
        ValueRef.element 0] =
      Except.ok ⟨[some 5, some 6, some 7, some 5], 4, 4⟩ :=
  ⟨rfl, rfl, rfl, rfl, rfl⟩

/-- C18: `operator[]` of the allocator-based MyVector throws
`out_of_range("Index out of range")` exactly when `index >= size()` and throws nothing else;
on a vector holding the values `xs` it returns the element at the index otherwise; after
`clear()` the size is 0 and every index throws, and `clear()` does complete on a vector holding
values. -/
theorem subscript_throws_iff_out_of_range {T : Type} (v : MyVector T) (index : Nat) :
    (v.subscript index =
        Except.error (Fault.thrown (StdException.out_of_range "Index out of range")) ↔
      index ≥ v.size) ∧
    (∀ e, v.subscript index = Except.error (Fault.thrown e) →
      e = StdException.out_of_range "Index out of range") ∧
    (∀ xs, Rep v xs → ∀ hi : index < xs.length,
      v.subscript index = Except.ok (xs.get ⟨index, hi⟩)) ∧
    (∀ v1, v.clear = Except.ok v1 → v1.size = 0 ∧ ∀ i, v1.subscript i =
      Except.error (Fault.thrown (StdException.out_of_range "Index out of range"))) ∧
    (∀ xs, Rep v xs → ∃ v1, v.clear = Except.ok v1) := by
  have hload : ∀ e, load v.data_ index ≠ Except.error (Fault.thrown e) := by
    intro e h
    unfold load at h
    split at h <;> simp at h
  refine ⟨?_, ?_, fun xs hrep hi => subscript_rep v xs hrep index hi, ?_,
    fun xs hrep => ⟨_, clear_eq v xs hrep⟩⟩
  · unfold MyVector.subscript MyVector.size
    split_ifs with h
    · simp [h]
    · simp only [h, iff_false]
      exact hload _
  · intro e h
    unfold MyVector.subscript at h
    split_ifs at h with h1
    · simp only [Except.error.injEq, Fault.thrown.injEq] at h
      exact h.symm
    · exact absurd h (hload e)
  · intro v1 h
    have hs := clear_size v v1 h
    refine ⟨hs, fun i => ?_⟩
    simp [MyVector.subscript, hs]

/-- C18 witness: on a vector holding 7 and 8 in storage for four elements: index 1 gives 8, index
2 throws, and `clear()` leaves four raw slots and size 0. -/
theorem subscript_throws_iff_out_of_range_witness :
    MyVector.subscript (⟨[some 7, some 8, none, none], 2, 4⟩ : MyVector Int) 1 = Except.ok 8 ∧
    MyVector.subscript (⟨[some 7, some 8, none, none], 2, 4⟩ : MyVector Int) 2 =
      Except.error (Fault.thrown (StdException.out_of_range "Index out of range")) ∧
    MyVector.clear (⟨[some 7, some 8, none, none], 2, 4⟩ : MyVector Int) =
      Except.ok ⟨[none, none, none, none], 0, 4⟩ ∧
    Rep (⟨[some 7, some 8, none, none], 2, 4⟩ : MyVector Int) [7, 8] ∧
    ((MyVector.subscript (⟨[some 7, some 8, none, none], 2, 4⟩ : MyVector Int) 2 =
        Except.error (Fault.thrown (StdException.out_of_range "Index out of range")) ↔
      2 ≥ MyVector.size (⟨[some 7, some 8, none, none], 2, 4⟩ : MyVector Int)) ∧
    (∀ e, MyVector.subscript (⟨[some 7, some 8, none, none], 2, 4⟩ : MyVector Int) 2 =
        Except.error (Fault.thrown e) →
      e = StdException.out_of_range "Index out of range") ∧
    (∀ xs, Rep (⟨[some 7, some 8, none, none], 2, 4⟩ : MyVector Int) xs →
      ∀ hi : 2 < xs.length,
      MyVector.subscript (⟨[some 7, some 8, none, none], 2, 4⟩ : MyVector Int) 2 =
        Except.ok (xs.get ⟨2, hi⟩)) ∧
    (∀ v1, MyVector.clear (⟨[some 7, some 8, none, none], 2, 4⟩ : MyVector Int) = Except.ok v1 →
      v1.size = 0 ∧ ∀ i, v1.subscript i =
        Except.error (Fault.thrown (StdException.out_of_range "Index out of range"))) ∧
    (∀ xs, Rep (⟨[some 7, some 8, none, none], 2, 4⟩ : MyVector Int) xs →
      ∃ v1, MyVector.clear (⟨[some 7, some 8, none, none], 2, 4⟩ : MyVector Int) =
        Except.ok v1)) :=
  ⟨rfl, rfl, rfl, ⟨rfl, rfl, by decide, by decide⟩,
    subscript_throws_iff_out_of_range ⟨[some 7, some 8, none, none], 2, 4⟩ 2⟩

end AllocVector

/-! ## 0x00-sequence_containers/myVector.hpp -/

namespace HeapVector

variable {T : Type}

theorem copyLoop_spec (dst src : Nat) (hne : dst ≠ src) :
    ∀ (ys : List T) (spre spost dpre drest : List (Option T)) (st : State T),
    st.heap src = some (spre ++ ys.map some ++ spost) →
    st.heap dst = some (dpre ++ drest) →
    dpre.length = spre.length → ys.length ≤ drest.length →
    copyLoop ys.length spre.length dst src st =
      Except.ok { st with
        heap := Function.update st.heap dst
          (some (dpre ++ ys.map some ++ drest.drop ys.length)) } := by
  intro ys
  induction ys with
  | nil =>
    intro spre spost dpre drest st _ hd _ _
    simp only [List.length_nil, copyLoop, List.map_nil, List.append_nil, List.drop_zero]
    rw [← hd, Function.update_eq_self]
  | cons y ys ih =>
    intro spre spost dpre drest st hs hd hl hle
    cases drest with
    | nil => simp at hle
    | cons z drest =>
      have hs1 : st.heap src = some (spre ++ some y :: (ys.map some ++ spost)) := by
        simpa using hs
      have hload : load st src spre.length = Except.ok y := by
        simp only [load, hs1, AllocVector.get?_append_cons]
      have hstore : store st dst spre.length y =
          Except.ok { st with
            heap := Function.update st.heap dst (some (dpre ++ some y :: drest)) } := by
        simp only [store, hd]
        rw [← hl, AllocVector.set_append_cons]
        simp
      have h2 := ih (spre ++ [some y]) spost (dpre ++ [some y]) drest
        { st with heap := Function.update st.heap dst (some (dpre ++ some y :: drest)) }
        (by simp [Function.update_noteq (Ne.symm hne), hs1])
        (by simp) (by simp [hl]) (by simpa using hle)
      simp only [List.length_cons, copyLoop, hload, hstore]
      simp only [List.length_append, List.length_singleton] at h2
      rw [h2]
      simp

theorem copyLoop_fresh (dst src : Nat) (xs : List T) (cap : Nat) (st : State T)
    (hd : st.heap dst = some (List.replicate cap none)) (hle : xs.length ≤ cap)
    (hs : xs = [] ∨ (dst ≠ src ∧ ∃ rest, st.heap src = some (xs.map some ++ rest))) :
    copyLoop xs.length 0 dst src st =
      Except.ok { st with
        heap := Function.update st.heap dst
          (some (xs.map some ++ List.replicate (cap - xs.length) none)) } := by
  rcases hs with hs | ⟨hne, rest, hs⟩
  · subst hs
    simp only [List.length_nil, copyLoop, List.map_nil, List.nil_append, Nat.sub_zero]
    rw [← hd, Function.update_eq_self]
  · have := copyLoop_spec dst src hne xs [] rest [] (List.replicate cap none) st
      (by simpa using hs) (by simpa using hd) rfl (by simpa using hle)
    simpa using this

theorem holds_observable (st : State T) (this : Nat) (xs : List T) (h : Holds st this xs) :
    getSize st this = Except.ok xs.length ∧
    ∀ i (hi : i < xs.length), at_ st this i = Except.ok (xs.get ⟨i, hi⟩) := by
  obtain ⟨o, ho, hsz, _, hd⟩ := h
  refine ⟨by simp [getSize, ho, hsz], fun i hi => ?_⟩
  rcases hd with hd | ⟨rest, hd⟩
  · subst hd
    simp at hi
  · have hlt : ¬ i ≥ o.size := by omega
    simp [at_, ho, hlt, load, hd, List.getElem?_append_left, hi]

theorem copy_ctor_eq (st : State T) (this other : Nat) (o : MyVector) (xs : List T)
    (ho : st.objs other = some o) (hsz : o.size = xs.length) (hcap : o.size ≤ o.capacity)
    (hsrc : xs = [] ∨ ∃ rest, st.heap o.data = some (xs.map some ++ rest)) (hok : HeapOk st) :
    copy_ctor st this other =
      if o.capacity ≤ st.limit then
        Except.ok {
          heap := Function.update st.heap st.next
            (some (xs.map some ++ List.replicate (o.capacity - xs.length) none))
          next := st.next + 1
          objs := Function.update st.objs this (some ⟨st.next, o.capacity, o.size⟩)
          out := st.out ++ ["copy constructor\n"]
          limit := st.limit }
      else Except.error (Fault.thrown StdException.bad_alloc) := by
  have hfresh : st.heap st.next = none := hok.2 st.next (le_refl _)
  unfold copy_ctor new_array
  simp only [ho]
  split_ifs with hl
  · simp only [hsz]
    rw [copyLoop_fresh st.next o.data xs o.capacity _ (by simp [print_text, setObj])
      (by omega) ?_]
    · simp [print_text, setObj]
    · rcases hsrc with h | ⟨rest, h⟩
      · exact Or.inl h
      · have hne : st.next ≠ o.data := by
          intro heq
          rw [← heq, hfresh] at h
          simp at h
        exact Or.inr ⟨hne, rest, by simp [print_text, setObj, Function.update_noteq hne.symm, h]⟩
  · rfl

/-- The heap after `delete[] p`. -/
theorem delete_array_eq (st : State T) (p : Nat) (h : p = 0 ∨ st.heap p ≠ none) :
    delete_array st p =
      Except.ok { st with heap := if p = 0 then st.heap else Function.update st.heap p none } := by
  unfold delete_array
  split_ifs with hp
  · rfl
  · rcases h with h | h
    · exact absurd h hp
    · cases hh : st.heap p with
      | none => exact absurd hh h
      | some blk => rfl

theorem copy_assign_eq (st : State T) (this other : Nat) (t o : MyVector) (xs : List T)
    (hne : this ≠ other) (ht : st.objs this = some t)
    (hdel : t.data = 0 ∨ (st.heap t.data ≠ none ∧ t.data ≠ o.data))
    (ho : st.objs other = some o) (hsz : o.size = xs.length) (hcap : o.size ≤ o.capacity)
    (hsrc : xs = [] ∨ ∃ rest, st.heap o.data = some (xs.map some ++ rest)) (hok : HeapOk st) :
    copy_assign st this other =
      if o.capacity ≤ st.limit then
        Except.ok {
          heap := Function.update
            (if t.data = 0 then st.heap else Function.update st.heap t.data none) st.next
            (some (xs.map some ++ List.replicate (o.capacity - xs.length) none))
          next := st.next + 1
          objs := Function.update st.objs this (some ⟨st.next, o.capacity, o.size⟩)
          out := st.out ++ ["copy assignment\n"]
          limit := st.limit }
      else Except.error (Fault.thrown StdException.bad_alloc) := by
  have hfresh : st.heap st.next = none := hok.2 st.next (le_refl _)
  have hdel1 : t.data = 0 ∨ st.heap t.data ≠ none := by
    rcases hdel with h | h
    · exact Or.inl h
    · exact Or.inr h.1
  unfold copy_assign
  simp only [print_text, ht, ho, hne, ne_eq, not_false_eq_true, if_true]
  rw [delete_array_eq _ _ (by simpa using hdel1)]
  unfold new_array
  simp only
  split_ifs with hl h0
  · simp only [hsz]
    rw [copyLoop_fresh st.next o.data xs o.capacity _ (by simp [setObj]) (by omega) ?_]
    · simp [setObj]
    · rcases hsrc with h | ⟨rest, h⟩
      · exact Or.inl h
      · have hne1 : st.next ≠ o.data := by
          intro heq
          rw [← heq, hfresh] at h
          simp at h
        exact Or.inr ⟨hne1, rest, by simp [setObj, Function.update_noteq hne1.symm, h]⟩
  · simp only [hsz]
    rw [copyLoop_fresh st.next o.data xs o.capacity _ (by simp [setObj]) (by omega) ?_]
    · simp [setObj]
    · rcases hsrc with h | ⟨rest, h⟩
      · exact Or.inl h
      · have hne1 : st.next ≠ o.data := by
          intro heq
          rw [← heq, hfresh] at h
          simp at h
        have hne2 : o.data ≠ t.data := by
          rcases hdel with h1 | h1
          · exact absurd h1 h0
          · exact Ne.symm h1.2
        exact Or.inr ⟨hne1, rest, by
          simp [setObj, Function.update_noteq hne1.symm, Function.update_noteq hne2, h]⟩
  · rfl

theorem main_output : output (main 10) = some
    ["default initialization\n", "v1.getSize(): 0\n", "v1 = ", "\n",
     "initializer_list\n", "v2.getSize(): 5\n", "v2 = ", "1 ", "2 ", "3 ", "4 ", "5 ", "\n",
     "size constructor\n", "v3.getSize(): 10\n", "v3 = ",
       "0 ", "0 ", "0 ", "0 ", "0 ", "0 ", "0 ", "0 ", "0 ", "0 ", "\n",
     "copy constructor\n", "v4.getSize(): 5\n", "v4 = ", "1 ", "2 ", "3 ", "4 ", "5 ", "\n",
     "copy constructor\n", "v5.getSize(): 5\n", "v5 = ", "1 ", "2 ", "3 ", "4 ", "5 ", "\n",
     "initializer_list\n", "v6.getSize(): 5\n", "v6 = ", "1 ", "2 ", "3 ", "4 ", "5 ", "\n",
     "move constructor\n", "v7.getSize(): 5\n", "v7 = ", "1 ", "2 ", "3 ", "4 ", "5 ", "\n",
     "copy assignment\n", "v5.getSize(): 5\n", "v5 = ", "1 ", "2 ", "3 ", "4 ", "5 ", "\n",
     "move assignment\n", "v5.getSize(): 0\n", "v5 = ", "\n", "v6.getSize(): 0\n", "v6 = ", "\n",
     "fill constructor\n", "v10.getSize(): 10\n", "v10 = ",
       "5 ", "5 ", "5 ", "5 ", "5 ", "5 ", "5 ", "5 ", "5 ", "5 ", "\n",
     "destructor\n", "destructor\n", "destructor\n", "destructor\n", "destructor\n",
     "destructor\n", "destructor\n", "destructor\n"] := by
  rfl

end HeapVector

/-! ## Claims about the vector of myVector.hpp -/

namespace HeapVector

theorem sample_heapOk : HeapOk sample := by
  refine ⟨by decide, fun p hp => ?_⟩
  have h1 : p ≠ 1 := by simp only [sample] at hp; omega
  have h2 : p ≠ 2 := by simp only [sample] at hp; omega
  simp [sample, h1, h2]

theorem sample_holds : Holds sample 2 [1, 2, 3] :=
  ⟨⟨1, 3, 3⟩, rfl, rfl, by decide, Or.inr ⟨[], rfl⟩⟩

theorem sample_disposable : Disposable sample 5 2 :=
  ⟨⟨2, 1, 1⟩, ⟨1, 3, 3⟩, rfl, rfl, Or.inr ⟨by simp [sample], by decide⟩⟩

/-- C19: for the MyVector of myVector.hpp, with a source vector holding the values `xs` and a
target that is another object: a copy construction that completes leaves the target holding `xs`
and the source as it was, and it completes when the memory allows the source's capacity; the same
holds for copy assignment, whatever the target held before, as long as the target's array can be
deleted; assigning a vector to itself changes neither the objects nor the arrays; and a vector
that holds `xs` reports their number as its size and `at(i)` gives the i-th of them. -/
theorem copy_gives_equal_vector {T : Type} (st : State T) (this other : Nat) (xs : List T)
    (hsrc : Holds st other xs) (hok : HeapOk st) (hne : this ≠ other) :
    (∀ st1, copy_ctor st this other = Except.ok st1 →
      Holds st1 this xs ∧ Holds st1 other xs ∧ st1.objs other = st.objs other) ∧
    (∀ o, st.objs other = some o → o.capacity ≤ st.limit →
      ∃ st1, copy_ctor st this other = Except.ok st1) ∧
    (Disposable st this other → ∀ st1, copy_assign st this other = Except.ok st1 →
      Holds st1 this xs ∧ Holds st1 other xs ∧ st1.objs other = st.objs other) ∧
    (Disposable st this other → ∀ o, st.objs other = some o → o.capacity ≤ st.limit →
      ∃ st1, copy_assign st this other = Except.ok st1) ∧
    (∃ st1, copy_assign st other other = Except.ok st1 ∧ st1.objs = st.objs ∧
      st1.heap = st.heap ∧ Holds st1 other xs) ∧
    (∀ (s : State T) a ys, Holds s a ys → getSize s a = Except.ok ys.length ∧
      ∀ i (hi : i < ys.length), at_ s a i = Except.ok (ys.get ⟨i, hi⟩)) := by
  have hsrc0 := hsrc
  obtain ⟨o, ho, hsz, hcap, hd⟩ := hsrc
  have hfresh : st.heap st.next = none := hok.2 st.next (le_refl _)
  have hnext : ∀ rest, st.heap o.data = some (xs.map some ++ rest) → o.data ≠ st.next := by
    intro rest h heq
    rw [heq, hfresh] at h
    simp at h
  refine ⟨?_, ?_, ?_, ?_, ?_, fun s a ys h => holds_observable s a ys h⟩
  · intro st1 h
    rw [copy_ctor_eq st this other o xs ho hsz hcap hd hok] at h
    split_ifs at h
    simp only [Except.ok.injEq] at h
    subst h
    refine ⟨⟨⟨st.next, o.capacity, o.size⟩, by simp, hsz, hcap,
        Or.inr ⟨List.replicate (o.capacity - xs.length) none, by simp⟩⟩,
      ⟨o, by simp [Function.update_noteq hne.symm, ho], hsz, hcap, ?_⟩,
      by simp [Function.update_noteq hne.symm]⟩
    rcases hd with hd | ⟨rest, hd⟩
    · exact Or.inl hd
    · exact Or.inr ⟨rest, by simp [Function.update_noteq (hnext rest hd), hd]⟩
  · intro o1 ho1 hl
    rw [ho] at ho1
    simp only [Option.some.injEq] at ho1
    subst ho1
    rw [copy_ctor_eq st this other o xs ho hsz hcap hd hok, if_pos hl]
    exact ⟨_, rfl⟩
  · rintro ⟨t, o1, ht, ho1, hdel⟩ st1 h
    rw [ho] at ho1
    simp only [Option.some.injEq] at ho1
    subst ho1
    rw [copy_assign_eq st this other t o xs hne ht hdel ho hsz hcap hd hok] at h
    split_ifs at h with hl h0 <;> simp only [Except.ok.injEq] at h <;> subst h
    · refine ⟨⟨⟨st.next, o.capacity, o.size⟩, by simp, hsz, hcap,
        Or.inr ⟨List.replicate (o.capacity - xs.length) none, by simp⟩⟩,
        ⟨o, by simp [Function.update_noteq hne.symm, ho], hsz, hcap, ?_⟩,
        by simp [Function.update_noteq hne.symm]⟩
      rcases hd with hd | ⟨rest, hd⟩
      · exact Or.inl hd
      · exact Or.inr ⟨rest, by simp [Function.update_noteq (hnext rest hd), hd]⟩
    · refine ⟨⟨⟨st.next, o.capacity, o.size⟩, by simp, hsz, hcap,
        Or.inr ⟨List.replicate (o.capacity - xs.length) none, by simp⟩⟩,
        ⟨o, by simp [Function.update_noteq hne.symm, ho], hsz, hcap, ?_⟩,
        by simp [Function.update_noteq hne.symm]⟩
      rcases hd with hd | ⟨rest, hd⟩
      · exact Or.inl hd
      · have hne2 : o.data ≠ t.data := by
          rcases hdel with h1 | h1
          · exact absurd h1 h0
          · exact Ne.symm h1.2
        exact Or.inr ⟨rest, by
          simp [Function.update_noteq (hnext rest hd), Function.update_noteq hne2, hd]⟩
  · rintro ⟨t, o1, ht, ho1, hdel⟩ o2 ho2 hl
    rw [ho] at ho1 ho2
    simp only [Option.some.injEq] at ho1 ho2
    subst ho1
    subst ho2
    rw [copy_assign_eq st this other t o xs hne ht hdel ho hsz hcap hd hok, if_pos hl]
    exact ⟨_, rfl⟩
  · refine ⟨print_text st "copy assignment\n", by simp [copy_assign], rfl, rfl, ?_⟩
    exact ⟨o, ho, hsz, hcap, hd⟩

/-- C19 witness: on the state with the vectors 1 2 3 at address 2 and 9 at address 5: copy
construction at address 4 and copy assignment to the vector at 5 both give 1 2 3 and leave the
source 1 2 3; self-assignment leaves 1 2 3. -/
theorem copy_gives_equal_vector_witness :
    contentsAfter (copy_ctor sample 4 2) 4 = some [1, 2, 3] ∧
    contentsAfter (copy_ctor sample 4 2) 2 = some [1, 2, 3] ∧
    contents sample 5 = some [9] ∧
    contentsAfter (copy_assign sample 5 2) 5 = some [1, 2, 3] ∧
    contentsAfter (copy_assign sample 5 2) 2 = some [1, 2, 3] ∧
    contentsAfter (copy_assign sample 2 2) 2 = some [1, 2, 3] ∧
    Disposable sample 5 2 ∧
    ((∀ st1, copy_ctor sample 5 2 = Except.ok st1 →
      Holds st1 5 [1, 2, 3] ∧ Holds st1 2 [1, 2, 3] ∧ st1.objs 2 = sample.objs 2) ∧
    (∀ o, sample.objs 2 = some o → o.capacity ≤ sample.limit →
      ∃ st1, copy_ctor sample 5 2 = Except.ok st1) ∧
    (Disposable sample 5 2 → ∀ st1, copy_assign sample 5 2 = Except.ok st1 →
      Holds st1 5 [1, 2, 3] ∧ Holds st1 2 [1, 2, 3] ∧ st1.objs 2 = sample.objs 2) ∧
    (Disposable sample 5 2 → ∀ o, sample.objs 2 = some o → o.capacity ≤ sample.limit →
      ∃ st1, copy_assign sample 5 2 = Except.ok st1) ∧
    (∃ st1, copy_assign sample 2 2 = Except.ok st1 ∧ st1.objs = sample.objs ∧
      st1.heap = sample.heap ∧ Holds st1 2 [1, 2, 3]) ∧
    (∀ (s : State Int) a ys, Holds s a ys → getSize s a = Except.ok ys.length ∧
      ∀ i (hi : i < ys.length), at_ s a i = Except.ok (ys.get ⟨i, hi⟩))) :=
  ⟨by decide, by decide, by decide, by decide, by decide, by decide, sample_disposable,
    copy_gives_equal_vector sample 5 2 [1, 2, 3] sample_holds sample_heapOk (by decide)⟩

/-- C20: for the MyVector of myVector.hpp, with a source vector holding the values `xs` and a
target that is another object: move construction completes, the target then holds `xs` (its
size is their number and `at(i)` gives the i-th of them), and the source has size 0, capacity 0
and no array; the same holds for move assignment when the target's array can be deleted; and
when the source is already moved-from, the target has size 0 after either operation. -/
theorem move_transfers_contents {T : Type} (st : State T) (this other : Nat) (xs : List T)
    (hsrc : Holds st other xs) (hne : this ≠ other) :
    (∃ st1, move_ctor st this other = Except.ok st1 ∧ Holds st1 this xs ∧
      getSize st1 this = Except.ok xs.length ∧
      (∀ i (hi : i < xs.length), at_ st1 this i = Except.ok (xs.get ⟨i, hi⟩)) ∧
      st1.objs other = some ⟨0, 0, 0⟩ ∧ getSize st1 other = Except.ok 0) ∧
    (Disposable st this other →
      ∃ st1, move_assign st this other = Except.ok st1 ∧ Holds st1 this xs ∧
        getSize st1 this = Except.ok xs.length ∧
        (∀ i (hi : i < xs.length), at_ st1 this i = Except.ok (xs.get ⟨i, hi⟩)) ∧
        st1.objs other = some ⟨0, 0, 0⟩ ∧ getSize st1 other = Except.ok 0) ∧
    (st.objs other = some ⟨0, 0, 0⟩ →
      (∀ st1, move_ctor st this other = Except.ok st1 → getSize st1 this = Except.ok 0) ∧
      (∀ st1, move_assign st this other = Except.ok st1 → getSize st1 this = Except.ok 0)) := by
  obtain ⟨o, ho, hsz, hcap, hd⟩ := hsrc
  have hctor : move_ctor st this other = Except.ok
      (setObj (print_text (setObj st this ⟨o.data, o.capacity, o.size⟩) "move constructor\n")
        other ⟨0, 0, 0⟩) := by
    simp [move_ctor, ho, print_text, setObj, Function.update_noteq hne.symm]
  have hassign : ∀ t, st.objs this = some t →
      (t.data = 0 ∨ (st.heap t.data ≠ none ∧ t.data ≠ o.data)) →
      move_assign st this other = Except.ok
        (setObj (setObj { print_text st "move assignment\n" with
          heap := if t.data = 0 then st.heap else Function.update st.heap t.data none }
          this ⟨o.data, o.capacity, o.size⟩) other ⟨0, 0, 0⟩) := by
    intro t ht hdel
    have hdel1 : t.data = 0 ∨ (print_text st "move assignment\n").heap t.data ≠ none := by
      rcases hdel with h | h
      · exact Or.inl h
      · exact Or.inr h.1
    unfold move_assign
    simp only [hne, ne_eq, not_false_eq_true, if_true]
    have ht1 : (print_text st "move assignment\n").objs this = some t := ht
    have ho1 : (print_text st "move assignment\n").objs other = some o := ho
    simp only [ht1, ho1]
    rw [delete_array_eq _ _ hdel1]
    rfl
  refine ⟨?_, ?_, ?_⟩
  · have hh : Holds (setObj (print_text (setObj st this ⟨o.data, o.capacity, o.size⟩)
        "move constructor\n") other ⟨0, 0, 0⟩) this xs := by
      refine ⟨⟨o.data, o.capacity, o.size⟩, by
        simp [setObj, print_text, Function.update_noteq hne], hsz, hcap, ?_⟩
      rcases hd with hd | ⟨rest, hd⟩
      · exact Or.inl hd
      · exact Or.inr ⟨rest, by simpa [setObj, print_text] using hd⟩
    refine ⟨_, hctor, hh, (holds_observable _ _ _ hh).1, (holds_observable _ _ _ hh).2, ?_, ?_⟩
    · simp [setObj]
    · simp [getSize, setObj]
  · rintro ⟨t, o1, ht, ho1, hdel⟩
    rw [ho] at ho1
    simp only [Option.some.injEq] at ho1
    subst ho1
    have hh : Holds (setObj (setObj { print_text st "move assignment\n" with
          heap := if t.data = 0 then st.heap else Function.update st.heap t.data none }
          this ⟨o.data, o.capacity, o.size⟩) other ⟨0, 0, 0⟩) this xs := by
      refine ⟨⟨o.data, o.capacity, o.size⟩, by
        simp [setObj, print_text, Function.update_noteq hne], hsz, hcap, ?_⟩
      rcases hd with hd | ⟨rest, hd⟩
      · exact Or.inl hd
      · refine Or.inr ⟨rest, ?_⟩
        rcases hdel with h0 | ⟨_, h1⟩
        · simpa [setObj, print_text, h0] using hd
        · by_cases h0 : t.data = 0
          · simpa [setObj, print_text, h0] using hd
          · simpa [setObj, print_text, h0, Function.update_noteq (Ne.symm h1)] using hd
    refine ⟨_, hassign t ht hdel, hh, (holds_observable _ _ _ hh).1,
      (holds_observable _ _ _ hh).2, ?_, ?_⟩
    · simp [setObj]
    · simp [getSize, setObj]
  · intro hmoved
    rw [ho] at hmoved
    simp only [Option.some.injEq] at hmoved
    subst hmoved
    constructor
    · intro st1 h
      rw [hctor] at h
      simp only [Except.ok.injEq] at h
      subst h
      simp [getSize, setObj, print_text, Function.update_noteq hne]
    · intro st1 h
      unfold move_assign at h
      simp only [hne, ne_eq, not_false_eq_true, if_true] at h
      have ho1 : (print_text st "move assignment\n").objs other = some ⟨0, 0, 0⟩ := ho
      cases ht : (print_text st "move assignment\n").objs this with
      | none => simp [ht] at h
      | some t =>
        simp only [ht, ho1] at h
        cases hdl : delete_array (print_text st "move assignment\n") t.data with
        | error e => simp [hdl] at h
        | ok st2 =>
          simp only [hdl, Except.ok.injEq] at h
          subst h
          simp [getSize, setObj, Function.update_noteq hne]

/-- C20 witness: on the state with the vectors 1 2 3 at address 2 and 9 at address 5: move
construction at address 7 and move assignment to the vector at 5 both give 1 2 3 and leave the
source empty; and as in `main`, a move assignment from the vector that was already moved from
gives size 0. -/
theorem move_transfers_contents_witness :
    contentsAfter (move_ctor sample 7 2) 7 = some [1, 2, 3] ∧
    contentsAfter (move_ctor sample 7 2) 2 = some [] ∧
    contentsAfter (move_assign sample 5 2) 5 = some [1, 2, 3] ∧
    contentsAfter (move_assign sample 5 2) 2 = some [] ∧
    contentsAfter (seq [fun st => move_ctor st 7 2, fun st => move_assign st 5 2] sample) 5 =
      some [] ∧
    Disposable sample 5 2 ∧
    ((∃ st1, move_ctor sample 5 2 = Except.ok st1 ∧ Holds st1 5 [1, 2, 3] ∧
      getSize st1 5 = Except.ok [1, 2, 3].length ∧
      (∀ i (hi : i < [1, 2, 3].length), at_ st1 5 i = Except.ok ([1, 2, 3].get ⟨i, hi⟩)) ∧
      st1.objs 2 = some ⟨0, 0, 0⟩ ∧ getSize st1 2 = Except.ok 0) ∧
    (Disposable sample 5 2 →
      ∃ st1, move_assign sample 5 2 = Except.ok st1 ∧ Holds st1 5 [1, 2, 3] ∧
        getSize st1 5 = Except.ok [1, 2, 3].length ∧
        (∀ i (hi : i < [1, 2, 3].length), at_ st1 5 i = Except.ok ([1, 2, 3].get ⟨i, hi⟩)) ∧
        st1.objs 2 = some ⟨0, 0, 0⟩ ∧ getSize st1 2 = Except.ok 0) ∧
    (sample.objs 2 = some ⟨0, 0, 0⟩ →
      (∀ st1, move_ctor sample 5 2 = Except.ok st1 → getSize st1 5 = Except.ok 0) ∧
      (∀ st1, move_assign sample 5 2 = Except.ok st1 → getSize st1 5 = Except.ok 0))) :=
  ⟨by decide, by decide, by decide, by decide, by decide, sample_disposable,
    move_transfers_contents sample 5 2 [1, 2, 3] sample_holds (by decide)⟩

end HeapVector

/-! ## Claims about the array iterator -/

namespace IterArray

theorem iterate_spec {T : Type} (a : MyArray T) (post : Bool) :
    ∀ (k i fuel : Nat) (visited : List Nat) (steps : Nat), i + k = a.capacity → k < fuel →
    iterate a post fuel ⟨a.data + i⟩ visited steps =
      LoopResult.left (visited ++ List.range' i k) (steps + k) := by
  intro k
  induction k with
  | zero =>
    intro i fuel visited steps hi hf
    obtain ⟨f, rfl⟩ : ∃ f, fuel = f + 1 := ⟨fuel - 1, by omega⟩
    have hi1 : i = a.capacity := by omega
    simp [iterate, iterator.ne, MyArray.end_, hi1]
  | succ k ih =>
    intro i fuel visited steps hi hf
    obtain ⟨f, rfl⟩ : ∃ f, fuel = f + 1 := ⟨fuel - 1, by omega⟩
    have hne : ¬ i = a.capacity := by omega
    have hlt : i < a.capacity := by omega
    have h := ih (i + 1) f (visited ++ [i]) (steps + 1) (by omega) (by omega)
    cases post <;>
      simp [iterate, iterator.ne, MyArray.end_, iterator.deref, iterator.preInc,
        iterator.postInc, hne, hlt, Nat.add_assoc, h, List.range'_succ] <;> omega

theorem iterate_short {T : Type} (a : MyArray T) (post : Bool) :
    ∀ (fuel i : Nat) (visited : List Nat) (steps : Nat), i + fuel ≤ a.capacity →
    iterate a post fuel ⟨a.data + i⟩ visited steps = LoopResult.outOfFuel := by
  intro fuel
  induction fuel with
  | zero => intro i visited steps _; rfl
  | succ f ih =>
    intro i visited steps hi
    have hne : ¬ i = a.capacity := by omega
    have hlt : i < a.capacity := by omega
    have h := ih (i + 1) (visited ++ [i]) (steps + 1) (by omega)
    cases post <;>
      simp [iterate, iterator.ne, MyArray.end_, iterator.deref, iterator.preInc,
        iterator.postInc, hne, hlt, Nat.add_assoc, h]

/-- C21: for every MyArray, the loop that starts at `begin()`, runs while the iterator
`!= end()` and advances with `++it` or `it++` is left after exactly `capacity` executions of its
body, which dereference the elements with the indices 0, 1, ..., capacity-1 in that order, and
its behaviour is never undefined; the loop needs its `capacity + 1` tests, no fewer. -/
theorem iterator_loop_visits_all {T : Type} (a : MyArray T) (post : Bool) (fuel : Nat) :
    (a.capacity < fuel →
      forEach a post fuel = LoopResult.left (List.range a.capacity) a.capacity) ∧
    (fuel ≤ a.capacity → forEach a post fuel = LoopResult.outOfFuel) := by
  constructor
  · intro hf
    have h := iterate_spec a post a.capacity 0 fuel [] 0 (by omega) hf
    simpa [forEach, MyArray.begin_, List.range_eq_range'] using h
  · intro hf
    have h := iterate_short a post fuel 0 [] 0 (by omega)
    simpa [forEach, MyArray.begin_] using h

/-- C21 witness: the 5-element array of `main` at address 1000: both forms of the loop visit the
indices 0 to 4 in 5 steps and print 10 20 30 40 50; `main` prints the three arrays. -/
theorem iterator_loop_visits_all_witness :
    (filled 8 1000 ([10, 20, 30, 40, 50] : List Int)).map (fun a => forEach a false 6) =
      some (LoopResult.left [0, 1, 2, 3, 4] 5) ∧
    (filled 8 1000 ([10, 20, 30, 40, 50] : List Int)).map (fun a => forEach a true 6) =
      some (LoopResult.left [0, 1, 2, 3, 4] 5) ∧
    (filled 8 1000 ([10, 20, 30, 40, 50] : List Int)).bind
        (fun a => printVisited to_string a (forEach a false 6)) =
      some ["10 ", "20 ", "30 ", "40 ", "50 ", "\n"] ∧
    main 8 1000 2000 3000 =
      some ["10 ", "20 ", "30 ", "40 ", "50 ", "\n", "apple ", "banana ", "cherry ", "date ",
        "\n", "a ", "b ", "c ", "\n"] ∧
    ((MyArray.capacity (⟨1000, 5, [some 10, some 20, some 30, some 40, some 50]⟩ :
          MyArray Int) < 6 →
      forEach (⟨1000, 5, [some 10, some 20, some 30, some 40, some 50]⟩ : MyArray Int) true 6 =
        LoopResult.left (List.range (MyArray.capacity
          (⟨1000, 5, [some 10, some 20, some 30, some 40, some 50]⟩ : MyArray Int)))
          (MyArray.capacity (⟨1000, 5, [some 10, some 20, some 30, some 40, some 50]⟩ :
            MyArray Int))) ∧
    (6 ≤ MyArray.capacity (⟨1000, 5, [some 10, some 20, some 30, some 40, some 50]⟩ :
          MyArray Int) →
      forEach (⟨1000, 5, [some 10, some 20, some 30, some 40, some 50]⟩ : MyArray Int) true 6 =
        LoopResult.outOfFuel)) :=
  ⟨by decide, by decide, by decide, by decide,
    iterator_loop_visits_all ⟨1000, 5, [some 10, some 20, some 30, some 40, some 50]⟩ true 6⟩

end IterArray

/-! ## Claims about the stack -/

namespace StackInterfaces

theorem vector_back_push_back {T : Type} (v : List T) (x : T) :
    vector_back (vector_push_back v x) = some x := by
  simp [vector_back, vector_push_back]

theorem vector_back_ne_none {T : Type} (v : List T) (h : vector_empty v = false) :
    ∃ x, vector_back v = some x := by
  cases v with
  | nil => simp [vector_empty] at h
  | cons a v =>
    cases hb : vector_back (a :: v) with
    | none => simp [vector_back] at hb
    | some x => exact ⟨x, rfl⟩

/-- C22: ArrayStack is last-in-first-out: for every stack `s` and value `v`, `push(v)` followed
by `pop()` returns `v` and leaves the stack exactly as `s` was; `peek()` after the `push(v)`
returns `v` as well. -/
theorem push_then_pop_restores {T : Type} (s : ArrayStack T) (v : T) :
    (s.push v).pop = (s, Except.ok v) ∧ (s.push v).peek = Except.ok v ∧
    (s.push v).isEmpty = false := by
  obtain ⟨l⟩ := s
  have he : vector_empty (vector_push_back l v) = false := by
    simp [vector_empty, vector_push_back]
  refine ⟨?_, ?_, he⟩
  · simp only [ArrayStack.pop, ArrayStack.push, ArrayStack.isEmpty, he, vector_back_push_back]
    simp [vector_pop_back, vector_push_back]
  · simp only [ArrayStack.peek, ArrayStack.push, ArrayStack.isEmpty, he, vector_back_push_back]
    simp

/-- C22 witness: pushing 10, 20, 30 and popping once returns 30 and leaves 10 20, as `main`
prints. -/
theorem push_then_pop_restores_witness :
    (((ArrayStack.ctor.push 10).push 20).push (30 : Int)).pop = (⟨[10, 20]⟩, Except.ok 30) ∧
    main = some ["Integer stack:", "\n", "Stack contents: ", "10 ", "20 ", "30 ", "\n",
      "After popping one element:", "\n", "Stack contents: ", "10 ", "20 ", "\n",
      "\nString stack:", "\n", "Stack contents: ", "Hello ", "World ", "\n",
      "After popping one element:", "\n", "Stack contents: ", "Hello ", "\n"] ∧
    ((ArrayStack.push ⟨[10, 20]⟩ (30 : Int)).pop = (⟨[10, 20]⟩, Except.ok 30) ∧
      (ArrayStack.push ⟨[10, 20]⟩ (30 : Int)).peek = Except.ok 30 ∧
      (ArrayStack.push ⟨[10, 20]⟩ (30 : Int)).isEmpty = false) :=
  ⟨rfl, by decide, push_then_pop_restores ⟨[10, 20]⟩ 30⟩

/-- C23: `pop()` and `peek()` of ArrayStack throw `out_of_range("Stack is empty!")` exactly when
the stack is empty, and the `pop()` that throws leaves the stack as it was, empty; on a stack
that is not empty both return its last element, so neither throws nor is undefined, and `peek()`
never changes the stack. -/
theorem pop_peek_throw_iff_empty {T : Type} (s : ArrayStack T) :
    ((s.pop).2 = Except.error (Fault.thrown (StdException.out_of_range "Stack is empty!")) ↔
      s.isEmpty = true) ∧
    (s.peek = Except.error (Fault.thrown (StdException.out_of_range "Stack is empty!")) ↔
      s.isEmpty = true) ∧
    (s.isEmpty = true → (s.pop).1 = s ∧ (s.pop).1.isEmpty = true) ∧
    (s.isEmpty = false → ∃ v, (s.pop).2 = Except.ok v ∧ s.peek = Except.ok v ∧
      (s.pop).1.stack ++ [v] = s.stack) ∧
    (∀ e, (s.pop).2 = Except.error e ∨ s.peek = Except.error e →
      e = Fault.thrown (StdException.out_of_range "Stack is empty!")) := by
  obtain ⟨l⟩ := s
  cases he : vector_empty l with
  | true =>
    simp only [ArrayStack.pop, ArrayStack.peek, ArrayStack.isEmpty, he]
    simp [he]
  | false =>
    obtain ⟨x, hx⟩ := vector_back_ne_none l he
    have hl : l.dropLast ++ [x] = l := by
      have hne : l ≠ [] := by
        intro h
        subst h
        simp [vector_empty] at he
      simp only [vector_back] at hx
      rw [List.getLast?_eq_getLast _ hne] at hx
      simp only [Option.some.injEq] at hx
      rw [← hx]
      exact List.dropLast_append_getLast hne
    simp only [ArrayStack.pop, ArrayStack.peek, ArrayStack.isEmpty, he, hx]
    simp [vector_pop_back, hl]

/-- C23 witness: on the empty stack `pop()` and `peek()` throw and the stack stays empty; on the
stack 10 20 they return 20. -/
theorem pop_peek_throw_iff_empty_witness :
    (ArrayStack.ctor : ArrayStack Int).pop =
      (⟨[]⟩, Except.error (Fault.thrown (StdException.out_of_range "Stack is empty!"))) ∧
    (ArrayStack.ctor : ArrayStack Int).peek =
      Except.error (Fault.thrown (StdException.out_of_range "Stack is empty!")) ∧
    (⟨[10, 20]⟩ : ArrayStack Int).pop = (⟨[10]⟩, Except.ok 20) ∧
    (⟨[10, 20]⟩ : ArrayStack Int).peek = Except.ok 20 ∧
    ((((ArrayStack.ctor : ArrayStack Int).pop).2 =
        Except.error (Fault.thrown (StdException.out_of_range "Stack is empty!")) ↔
      (ArrayStack.ctor : ArrayStack Int).isEmpty = true) ∧
    ((ArrayStack.ctor : ArrayStack Int).peek =
        Except.error (Fault.thrown (StdException.out_of_range "Stack is empty!")) ↔
      (ArrayStack.ctor : ArrayStack Int).isEmpty = true) ∧
    ((ArrayStack.ctor : ArrayStack Int).isEmpty = true →
      ((ArrayStack.ctor : ArrayStack Int).pop).1 = ArrayStack.ctor ∧
      ((ArrayStack.ctor : ArrayStack Int).pop).1.isEmpty = true) ∧
    ((ArrayStack.ctor : ArrayStack Int).isEmpty = false →
      ∃ v, ((ArrayStack.ctor : ArrayStack Int).pop).2 = Except.ok v ∧
        (ArrayStack.ctor : ArrayStack Int).peek = Except.ok v ∧
        ((ArrayStack.ctor : ArrayStack Int).pop).1.stack ++ [v] =
          (ArrayStack.ctor : ArrayStack Int).stack) ∧
    (∀ e, ((ArrayStack.ctor : ArrayStack Int).pop).2 = Except.error e ∨
        (ArrayStack.ctor : ArrayStack Int).peek = Except.error e →
      e = Fault.thrown (StdException.out_of_range "Stack is empty!"))) :=
  ⟨rfl, rfl, rfl, rfl, pop_peek_throw_iff_empty ArrayStack.ctor⟩

end StackInterfaces

/-! ## 0x13-condition_variables.cpp : FIFO order -/

namespace ProducerConsumer

theorem expected_push (n k : Nat) (hk : k ≤ n) (hn : n < 10) :
    push_front (((expected.take n).drop k).reverse) (10 - (n : Int)) =
      ((expected.take (n + 1)).drop k).reverse := by
  interval_cases n <;> interval_cases k <;> rfl

theorem expected_pop (n k : Nat) (hk : k < n) (hn : n ≤ 10) :
    back (((expected.take n).drop k).reverse) = some (11 - ((k + 1 : Nat) : Int)) ∧
    pop_back (((expected.take n).drop k).reverse) =
      ((expected.take n).drop (k + 1)).reverse := by
  interval_cases n <;> interval_cases k <;> exact ⟨rfl, rfl⟩

theorem expected_print (k : Nat) (h1 : 1 ≤ k) (hk : k ≤ 10) :
    (expected.take (k - 1)).map lineOf ++ [lineOf (11 - (k : Int))] =
      (expected.take k).map lineOf := by
  interval_cases k <;> rfl

theorem expected_empty (n k : Nat) (hk : k ≤ n) (hn : n ≤ 10) :
    empty (((expected.take n).drop k).reverse) = true ↔ k = n := by
  interval_cases n <;> interval_cases k <;> simp [empty, expected]

theorem mainInv_step (l : Label) (s s1 : State) (hinv : MainInv s) (hst : step l s = some s1) :
    MainInv s1 := by
  obtain ⟨h1, h2, h3, h4⟩ := hinv
  cases l with
  | main =>
    simp only [step, main] at hst
    split at hst <;> (try split at hst) <;> simp at hst <;> subst hst <;>
      simp_all [MainInv]
  | producer =>
    simp only [step, function1] at hst
    split at hst <;> (try split at hst) <;> simp at hst <;> subst hst <;>
      simp_all [MainInv]
  | consumer =>
    simp only [step, function2] at hst
    split at hst <;> (try split at hst) <;> simp at hst <;> subst hst <;>
      simp_all [MainInv]
  | spurious =>
    simp only [step] at hst
    split at hst <;> simp at hst
    subst hst
    simp_all [MainInv]

theorem mainInv : ∀ s, Reachable s → MainInv s := by
  intro s hr
  induction hr with
  | init => simp [MainInv, init]
  | step l s s1 _ hst ih => exact mainInv_step l s s1 ih hst

theorem consOk_of (c : CPc) (p p1 : PPc) (n n1 k : Nat) (h : consOk c p n k)
    (hw : c = CPc.waiting → (k = n ∨ p = PPc.unlock ∨ p = PPc.notify) →
      (k = n1 ∨ p1 = PPc.unlock ∨ p1 = PPc.notify))
    (hp : c = CPc.pop → k < n → k < n1) : consOk c p1 n1 k := by
  cases c <;> simp_all [consOk]

theorem printed_of_ne (c : CPc) (k : Nat) (h1 : c ≠ CPc.unlock) (h2 : c ≠ CPc.print) :
    printed c k = k := by
  cases c <;> simp_all [printed]

theorem fifoInv_producer (s s1 : State) (hinv : FifoInv s)
    (hst : function1 s = some s1) : FifoInv s1 := by
  obtain ⟨n, k, hkn, hn, hbuf, hout, hdata, hp, hc⟩ := hinv
  simp only [function1] at hst
  cases hpp : s.ppc <;> simp only [hpp] at hst hp hc
  · simp at hst
  · -- loopTest
    simp only [prodOk] at hp
    split at hst <;> simp only [Option.some.injEq] at hst <;> subst hst
    · exact ⟨n, k, hkn, hn, hbuf, hout, hdata, ⟨hp, by omega⟩,
        consOk_of _ _ _ n n k hc (by intro _ h; simpa using h) (fun _ h => h)⟩
    · exact ⟨n, k, hkn, hn, hbuf, hout, hdata, (by simp only [prodOk]; omega),
        consOk_of _ _ _ n n k hc (by intro _ h; simpa using h) (fun _ h => h)⟩
  · -- lock
    split at hst
    · simp only [Option.some.injEq] at hst
      subst hst
      exact ⟨n, k, hkn, hn, hbuf, hout, hdata, hp,
        consOk_of _ _ _ n n k hc (by intro _ h; simpa using h) (fun _ h => h)⟩
    · simp at hst
  · -- push
    simp only [Option.some.injEq] at hst
    subst hst
    simp only [prodOk] at hp
    refine ⟨n + 1, k, by omega, by omega, ?_, hout, hdata, ?_,
      consOk_of _ _ _ n (n + 1) k hc (fun _ _ => Or.inr (Or.inl rfl)) (fun _ h => by omega)⟩
    · simp only [hbuf, hp.1]
      exact expected_push n k hkn hp.2
    · simp only [prodOk]
      refine ⟨?_, by omega⟩
      rw [hp.1]
      push_cast
      omega
  · -- unlock
    simp only [Option.some.injEq] at hst
    subst hst
    exact ⟨n, k, hkn, hn, hbuf, hout, hdata, hp,
      consOk_of _ _ _ n n k hc (fun _ _ => Or.inr (Or.inr rfl)) (fun _ h => h)⟩
  · -- notify
    split at hst <;> simp only [Option.some.injEq] at hst <;> subst hst
    · rename_i hw
      simp only [hw, consOk] at hc
      refine ⟨n, k, hkn, hn, hbuf, ?_, hdata, hp, by simp only [consOk]; exact hc.1⟩
      simpa [hw, printed] using hout
    · rename_i hw
      exact ⟨n, k, hkn, hn, hbuf, hout, hdata, hp,
        consOk_of _ _ _ n n k hc (fun h => absurd h hw) (fun _ h => h)⟩
  · -- sleep
    simp only [Option.some.injEq] at hst
    subst hst
    simp only [prodOk] at hp
    refine ⟨n, k, hkn, hn, hbuf, hout, hdata, ?_,
      consOk_of _ _ _ n n k hc (by intro _ h; simpa using h) (fun _ h => h)⟩
    simp only [prodOk]
    omega
  · simp at hst

theorem fifoInv_consumer (s s1 : State) (hinv : FifoInv s)
    (hst : function2 s = some s1) : FifoInv s1 := by
  obtain ⟨n, k, hkn, hn, hbuf, hout, hdata, hp, hc⟩ := hinv
  simp only [function2] at hst
  cases hcc : s.cpc <;> simp only [hcc] at hst hc hout
  · simp at hst
  · -- loopTest
    split at hst <;> simp only [Option.some.injEq] at hst <;> subst hst
    · rename_i hd
      refine ⟨n, k, hkn, hn, hbuf, hout, hdata, hp, ?_⟩
      simp only [consOk]
      rw [hdata] at hd
      split at hd <;> omega
    · rename_i hd
      refine ⟨n, k, hkn, hn, hbuf, hout, hdata, hp, ?_⟩
      simp only [consOk]
      rw [hdata] at hd
      split at hd
      · simp at hd
      · omega
  · -- lock
    split at hst
    · simp only [Option.some.injEq] at hst
      subst hst
      exact ⟨n, k, hkn, hn, hbuf, hout, hdata, hp, hc⟩
    · simp at hst
  · -- check
    split at hst <;> simp only [Option.some.injEq] at hst <;> subst hst
    · rename_i he
      rw [hbuf] at he
      have hk := (expected_empty n k hkn hn).1 he
      exact ⟨n, k, hkn, hn, hbuf, hout, hdata, hp, ⟨hc, Or.inl hk⟩⟩
    · rename_i he
      rw [hbuf] at he
      have hk : k ≠ n := fun h => he ((expected_empty n k hkn hn).2 h)
      refine ⟨n, k, hkn, hn, hbuf, hout, hdata, hp, ?_⟩
      simp only [consOk]
      omega
  · simp at hst
  · -- woken
    split at hst
    · simp only [Option.some.injEq] at hst
      subst hst
      exact ⟨n, k, hkn, hn, hbuf, hout, hdata, hp, hc⟩
    · simp at hst
  · -- pop
    simp only [consOk] at hc
    obtain ⟨hb, hpb⟩ := expected_pop n k hc hn
    rw [hbuf, hb] at hst
    simp only [Option.some.injEq] at hst
    subst hst
    refine ⟨n, k + 1, by omega, hn, ?_, ?_, ?_, hp, ?_⟩
    · simp only [hpb]
    · simpa [printed] using hout
    · simp
    · simp [consOk]
  · -- unlock
    simp only [Option.some.injEq] at hst
    subst hst
    exact ⟨n, k, hkn, hn, hbuf, hout, hdata, hp, hc⟩
  · -- print
    simp only [Option.some.injEq] at hst
    subst hst
    simp only [consOk] at hc
    refine ⟨n, k, hkn, hn, hbuf, ?_, hdata, hp, by simp [consOk]⟩
    have hk0 : ¬ k = 0 := by omega
    have hl := expected_print k hc (by omega)
    simp only [printed, hout, hdata, hk0, if_false]
    exact hl
  · simp at hst

theorem fifoInv_step (l : Label) (s s1 : State) (hs : SafeInv s) (hinv : FifoInv s)
    (hst : step l s = some s1) : FifoInv s1 := by
  cases l with
  | producer => exact fifoInv_producer s s1 hinv hst
  | consumer => exact fifoInv_consumer s s1 hinv hst
  | main =>
    obtain ⟨n, k, hkn, hn, hbuf, hout, hdata, hp, hc⟩ := hinv
    obtain ⟨h0, h1, _, _, _, _⟩ := hs
    simp only [step, main] at hst
    cases hm : s.mainPc <;> simp only [hm] at hst
    · -- spawn1
      simp only [Option.some.injEq] at hst
      subst hst
      have hpp := h0 hm
      have hcc := h1 (Or.inl hm)
      rw [hpp] at hp
      rw [hcc] at hc hout
      simp only [prodOk] at hp
      subst hp
      refine ⟨0, k, hkn, hn, hbuf, ?_, hdata, by simp [prodOk], ?_⟩
      · simpa [hcc] using hout
      · simpa [hcc, consOk] using hc
    · -- spawn2
      simp only [Option.some.injEq] at hst
      subst hst
      have hcc := h1 (Or.inr hm)
      rw [hcc] at hc hout
      simp only [consOk] at hc
      subst hc
      refine ⟨n, 0, hkn, hn, hbuf, ?_, by simp, hp, by simp [consOk]⟩
      simpa [printed] using hout
    · split at hst
      · simp only [Option.some.injEq] at hst
        subst hst
        exact ⟨n, k, hkn, hn, hbuf, hout, hdata, hp, hc⟩
      · simp at hst
    · split at hst
      · simp only [Option.some.injEq] at hst
        subst hst
        exact ⟨n, k, hkn, hn, hbuf, hout, hdata, hp, hc⟩
      · simp at hst
    · simp at hst
  | spurious =>
    obtain ⟨n, k, hkn, hn, hbuf, hout, hdata, hp, hc⟩ := hinv
    simp only [step] at hst
    split at hst
    · rename_i hw
      simp only [Option.some.injEq] at hst
      subst hst
      rw [hw] at hc hout
      simp only [consOk] at hc
      refine ⟨n, k, hkn, hn, hbuf, ?_, hdata, hp, by simp only [consOk]; exact hc.1⟩
      simpa [printed] using hout
    · simp at hst

theorem fifoInv : ∀ s, Reachable s → FifoInv s := by
  intro s hr
  induction hr with
  | init => exact ⟨0, 0, le_refl _, by omega, rfl, rfl, rfl, rfl, rfl⟩
  | step l s s1 hr hst ih => exact fifoInv_step l s s1 (safeInv s hr) ih hst

end ProducerConsumer

namespace ProducerConsumer

theorem producer_progress (s : State) (hf : FifoInv s) (h1 : s.ppc ≠ PPc.notStarted)
    (h2 : s.ppc ≠ PPc.finished) (h3 : s.ppc = PPc.lock → s.mtx = none) :
    ∃ s1, step Label.producer s = some s1 ∧ remaining s1 < remaining s := by
  obtain ⟨n, k, hkn, hn, hbuf, hout, hdata, hp, hc⟩ := hf
  cases hpp : s.ppc <;> simp only [hpp, prodOk] at hp h1 h2 h3
  · exact absurd rfl h1
  · -- loopTest
    by_cases hcount : s.count > 0
    · refine ⟨_, by simp only [step, function1, hpp, hcount, if_true]; rfl, ?_⟩
      simp only [remaining, pRemaining, unpushed, hpp]
      omega
    · refine ⟨_, by simp only [step, function1, hpp, hcount, if_false]; rfl, ?_⟩
      simp only [remaining, pRemaining, unpushed, hpp]
      omega
  · -- lock
    have hm := h3 trivial
    refine ⟨_, by simp only [step, function1, hpp, hm, if_true]; rfl, ?_⟩
    simp only [remaining, pRemaining, unpushed, hpp]
    omega
  · -- push
    refine ⟨_, by simp only [step, function1, hpp]; rfl, ?_⟩
    simp only [remaining, pRemaining, unpushed, hpp, push_front, List.length_cons]
    omega
  · -- unlock
    refine ⟨_, by simp only [step, function1, hpp]; rfl, ?_⟩
    simp only [remaining, pRemaining, unpushed, hpp]
    omega
  · -- notify
    by_cases hw : s.cpc = CPc.waiting
    · refine ⟨_, by simp only [step, function1, hpp, hw, if_true]; rfl, ?_⟩
      simp only [remaining, pRemaining, unpushed, hpp, hw, cRank]
      omega
    · refine ⟨_, by simp only [step, function1, hpp, hw, if_false]; rfl, ?_⟩
      simp only [remaining, pRemaining, unpushed, hpp]
      omega
  · -- sleep
    refine ⟨_, by simp only [step, function1, hpp]; rfl, ?_⟩
    simp only [remaining, pRemaining, unpushed, hpp]
    omega
  · exact absurd rfl h2

theorem consumer_progress (s : State) (hs : SafeInv s) (h1 : s.cpc ≠ CPc.notStarted)
    (h2 : s.cpc ≠ CPc.finished) (h3 : s.cpc ≠ CPc.waiting)
    (h4 : s.cpc = CPc.lock ∨ s.cpc = CPc.woken → s.mtx = none) :
    ∃ s1, step Label.consumer s = some s1 ∧ remaining s1 < remaining s := by
  obtain ⟨_, _, _, _, hpop, _⟩ := hs
  cases hcc : s.cpc <;> simp only [hcc] at h1 h2 h3 h4 hpop
  · exact absurd rfl h1
  · -- loopTest
    by_cases hd : s.data ≠ 1
    · refine ⟨_, by simp only [step, function2, hcc]; rw [if_pos hd], ?_⟩
      simp only [remaining, cRank, hcc]
      omega
    · refine ⟨_, by simp only [step, function2, hcc]; rw [if_neg hd], ?_⟩
      simp only [remaining, cRank, hcc]
      omega
  · -- lock
    have hm := h4 (Or.inl trivial)
    refine ⟨_, by simp only [step, function2, hcc, hm, if_true]; rfl, ?_⟩
    simp only [remaining, cRank, hcc]
    omega
  · -- check
    by_cases he : empty s.buffer = true
    · refine ⟨_, by simp only [step, function2, hcc]; rw [if_pos he], ?_⟩
      simp only [remaining, cRank, hcc]
      omega
    · refine ⟨_, by simp only [step, function2, hcc]; rw [if_neg he], ?_⟩
      simp only [remaining, cRank, hcc]
      omega
  · exact absurd rfl h3
  · -- woken
    have hm := h4 (Or.inr trivial)
    refine ⟨_, by simp only [step, function2, hcc, hm, if_true]; rfl, ?_⟩
    simp only [remaining, cRank, hcc]
    omega
  · -- pop
    have hne := hpop trivial
    obtain ⟨x, hx⟩ : ∃ x, back s.buffer = some x := by
      cases hb : back s.buffer with
      | none => simp [back, hne] at hb
      | some x => exact ⟨x, rfl⟩
    refine ⟨_, by simp only [step, function2, hcc, hx]; rfl, ?_⟩
    have hlen : 0 < s.buffer.length := List.length_pos.2 hne
    simp only [remaining, cRank, hcc, pop_back, List.length_dropLast]
    omega
  · -- unlock
    refine ⟨_, by simp only [step, function2, hcc]; rfl, ?_⟩
    simp only [remaining, cRank, hcc]
    omega
  · -- print
    refine ⟨_, by simp only [step, function2, hcc]; rfl, ?_⟩
    simp only [remaining, cRank, hcc]
    omega
  · exact absurd rfl h2

theorem buffer_progress (s : State) (hr : Reachable s) (hn : ¬ Completed s) :
    ∃ l s1, step l s = some s1 ∧ remaining s1 < remaining s := by
  have hs := safeInv s hr
  have hf := fifoInv s hr
  obtain ⟨m1, m2, m3, m4⟩ := mainInv s hr
  obtain ⟨h0, h1, hmp, hmc, _, _⟩ := safeInv s hr
  have viaProducer : s.ppc ≠ PPc.notStarted → s.ppc ≠ PPc.finished →
      (s.ppc = PPc.lock → s.mtx = none) →
      ∃ l s1, step l s = some s1 ∧ remaining s1 < remaining s := by
    intro a b c
    obtain ⟨s1, h, hlt⟩ := producer_progress s hf a b c
    exact ⟨Label.producer, s1, h, hlt⟩
  have viaConsumer : s.cpc ≠ CPc.notStarted → s.cpc ≠ CPc.finished → s.cpc ≠ CPc.waiting →
      (s.cpc = CPc.lock ∨ s.cpc = CPc.woken → s.mtx = none) →
      ∃ l s1, step l s = some s1 ∧ remaining s1 < remaining s := by
    intro a b c d
    obtain ⟨s1, h, hlt⟩ := consumer_progress s hs a b c d
    exact ⟨Label.consumer, s1, h, hlt⟩
  -- a consumer that needs the mutex gets it, or the producer that holds it can move
  have contended : s.mainPc ≠ MPc.spawn1 → (s.cpc = CPc.lock ∨ s.cpc = CPc.woken) →
      ∃ l s1, step l s = some s1 ∧ remaining s1 < remaining s := by
    intro hm hc
    cases hmtx : s.mtx with
    | none =>
      refine viaConsumer ?_ ?_ ?_ (fun _ => hmtx) <;>
        rcases hc with hc | hc <;> simp [hc]
    | some t =>
      cases t with
      | consumer =>
        have := hmc.1 hmtx
        rcases hc with hc | hc <;> simp [hc] at this
      | producer =>
        have hp := hmp.1 hmtx
        refine viaProducer (m1 hm) ?_ ?_ <;> rcases hp with hp | hp <;> simp [hp]
  have started : s.mainPc = MPc.join1 ∨ s.mainPc = MPc.join2 →
      ∃ l s1, step l s = some s1 ∧ remaining s1 < remaining s := by
    intro hm
    have hm1 : s.mainPc ≠ MPc.spawn1 := by rcases hm with h | h <;> simp [h]
    have hcs := m2 (by rcases hm with h | h <;> simp [h])
    cases hcc : s.cpc with
    | notStarted => exact absurd hcc hcs
    | loopTest => exact viaConsumer (by simp [hcc]) (by simp [hcc]) (by simp [hcc]) (by simp [hcc])
    | lock => exact contended hm1 (Or.inl hcc)
    | check => exact viaConsumer (by simp [hcc]) (by simp [hcc]) (by simp [hcc]) (by simp [hcc])
    | woken => exact contended hm1 (Or.inr hcc)
    | pop => exact viaConsumer (by simp [hcc]) (by simp [hcc]) (by simp [hcc]) (by simp [hcc])
    | unlock => exact viaConsumer (by simp [hcc]) (by simp [hcc]) (by simp [hcc]) (by simp [hcc])
    | print => exact viaConsumer (by simp [hcc]) (by simp [hcc]) (by simp [hcc]) (by simp [hcc])
    | waiting =>
      obtain ⟨n, k, hkn, hn10, _, _, _, hp, hc⟩ := hf
      simp only [hcc, consOk] at hc
      refine viaProducer (m1 hm1) ?_ ?_
      · intro hfin
        simp only [hfin, prodOk] at hp
        rcases hc.2 with h | h | h
        · omega
        · simp [hfin] at h
        · simp [hfin] at h
      · intro hl
        cases hmtx : s.mtx with
        | none => rfl
        | some t =>
          cases t with
          | consumer =>
            have := hmc.1 hmtx
            simp [hcc] at this
          | producer =>
            have := hmp.1 hmtx
            simp [hl] at this
    | finished =>
      by_cases hpf : s.ppc = PPc.finished
      · rcases hm with hm | hm
        · refine ⟨Label.main, _, by simp only [step, main, hm]; rw [if_pos hpf], ?_⟩
          simp [remaining, mRank, hm]
        · refine ⟨Label.main, _, by simp only [step, main, hm]; rw [if_pos hcc], ?_⟩
          simp [remaining, mRank, hm]
      · refine viaProducer (m1 hm1) hpf ?_
        intro hl
        cases hmtx : s.mtx with
        | none => rfl
        | some t =>
          cases t with
          | consumer =>
            have := hmc.1 hmtx
            simp [hcc] at this
          | producer =>
            have := hmp.1 hmtx
            simp [hl] at this
  cases hm : s.mainPc with
  | spawn1 =>
    refine ⟨Label.main, _, by simp only [step, main, hm]; rfl, ?_⟩
    simp [remaining, mRank, pRemaining, unpushed, hm, h0 hm]
  | spawn2 =>
    refine ⟨Label.main, _, by simp only [step, main, hm]; rfl, ?_⟩
    simp [remaining, mRank, cRank, hm, h1 (Or.inr hm)]
  | join1 => exact started (Or.inl hm)
  | join2 => exact started (Or.inr hm)
  | ret => exact absurd ⟨hm, m3 (Or.inr hm), m4 hm⟩ hn

theorem buffer_can_complete : ∀ (b : Nat) (s : State), Reachable s → remaining s ≤ b →
    ∃ ls s1, run ls s = some s1 ∧ Completed s1 := by
  intro b
  induction b with
  | zero =>
    intro s hr hb
    by_cases hc : Completed s
    · exact ⟨[], s, rfl, hc⟩
    · obtain ⟨l, s1, _, hlt⟩ := buffer_progress s hr hc
      omega
  | succ b ih =>
    intro s hr hb
    by_cases hc : Completed s
    · exact ⟨[], s, rfl, hc⟩
    · obtain ⟨l, s1, hst, hlt⟩ := buffer_progress s hr hc
      obtain ⟨ls, s2, hrun, hc2⟩ := ih s1 (Reachable.step l s s1 hr hst) (by omega)
      exact ⟨l :: ls, s2, by simp [run, hst, hrun], hc2⟩

/-- What the invariant says once the consumer has finished: it has received all ten values,
the last one is 1, and the buffer is empty. -/
theorem finished_received_all (s : State) (hr : Reachable s) (hc : s.cpc = CPc.finished) :
    s.out = expected.map lineOf ∧ s.data = 1 ∧ s.buffer = [] := by
  obtain ⟨n, k, hkn, hn, hbuf, hout, hdata, hp, hco⟩ := fifoInv s hr
  simp only [hc, consOk] at hco
  subst hco
  have hn10 : n = 10 := by omega
  subst hn10
  refine ⟨by simpa [hc, printed, expected] using hout, by simpa using hdata, ?_⟩
  simpa [expected] using hbuf

end ProducerConsumer

/-! ## Claims about the producer/consumer buffer -/

namespace ProducerConsumer

/-- C24: in the producer/consumer example the buffer is a FIFO. In every state the program can
reach, under any interleaving and with spurious wake-ups: the lines the consumer has printed are
those of the first values of 10, 9, ..., 1, in that order; a consumer that has finished has
received all ten, the last being 1, and the buffer is empty; once the line of 1 is printed the
consumer is at its loop test or finished, and its only step leaves the loop without another
output; the buffer is empty when both threads have finished; `back()`/`pop_back()` never ran on
an empty buffer; and from every such state the program can run to its end, where all ten lines
are printed and the buffer is empty. -/
theorem consumer_receives_in_order (s : State) (hr : Reachable s) :
    (∃ k, k ≤ 10 ∧ s.out = (expected.take k).map lineOf) ∧
    (s.cpc = CPc.finished → s.out = expected.map lineOf ∧ s.data = 1 ∧ s.buffer = []) ∧
    (s.out = expected.map lineOf →
      (s.cpc = CPc.loopTest ∨ s.cpc = CPc.finished) ∧ s.data = 1 ∧
      ∀ s1, step Label.consumer s = some s1 → s1.cpc = CPc.finished ∧ s1.out = s.out) ∧
    (s.ppc = PPc.finished → s.cpc = CPc.finished → s.buffer = []) ∧
    s.ub = false ∧
    (∃ ls s1, run ls s = some s1 ∧ Completed s1 ∧ s1.out = expected.map lineOf ∧
      s1.buffer = []) := by
  refine ⟨?_, fun hc => finished_received_all s hr hc, ?_,
    fun _ hc => (finished_received_all s hr hc).2.2, (safeInv s hr).2.2.2.2.2, ?_⟩
  · obtain ⟨n, k, hkn, hn, _, hout, _, _, _⟩ := fifoInv s hr
    refine ⟨printed s.cpc k, ?_, hout⟩
    cases s.cpc <;> simp only [printed] <;> omega
  · intro hall
    obtain ⟨n, k, hkn, hn, _, hout, hdata, _, hco⟩ := fifoInv s hr
    have hlen : printed s.cpc k ≥ 10 := by
      have h := congrArg List.length (hout.symm.trans hall)
      simp only [List.length_map, List.length_take, expected, List.length_cons,
        List.length_nil] at h
      omega
    have hk : k = 10 := by
      cases hcc : s.cpc <;> simp only [hcc, printed] at hlen <;> omega
    subst hk
    have hd : s.data = 1 := by simpa using hdata
    have hpc : s.cpc = CPc.loopTest ∨ s.cpc = CPc.finished := by
      cases hcc : s.cpc <;> simp only [hcc, printed, consOk] at hlen hco <;>
        first | omega | simp
    refine ⟨hpc, hd, fun s1 hst => ?_⟩
    simp only [step, function2] at hst
    rcases hpc with hpc | hpc
    · simp only [hpc, hd, ne_eq, not_true_eq_false, if_false, Option.some.injEq] at hst
      subst hst
      exact ⟨rfl, rfl⟩
    · simp [hpc] at hst
  · obtain ⟨ls, s1, hrun, hc⟩ := buffer_can_complete (remaining s) s hr (le_refl _)
    have hr1 := buffer_reachable_run ls s s1 hr hrun
    have h := finished_received_all s1 hr1 hc.2.2
    exact ⟨ls, s1, hrun, hc, h.1, h.2.2⟩

/-- C24 witness: on the run `schedFifo`, in which the consumer first blocks on the empty buffer,
all ten lines are printed in the order 10, ..., 1 and the buffer ends empty; on the run
`schedThree` the values 10, 9, 8 are pushed, 10 is received first and 9 is at the back of the
buffer. -/
theorem consumer_receives_in_order_witness :
    (runD schedFifo init).mainPc = MPc.ret ∧ (runD schedFifo init).ppc = PPc.finished ∧
    (runD schedFifo init).cpc = CPc.finished ∧ (runD schedFifo init).buffer = [] ∧
    (runD schedFifo init).out =
      ["t2 got a value from t1: 10", "t2 got a value from t1: 9", "t2 got a value from t1: 8",
       "t2 got a value from t1: 7", "t2 got a value from t1: 6", "t2 got a value from t1: 5",
       "t2 got a value from t1: 4", "t2 got a value from t1: 3", "t2 got a value from t1: 2",
       "t2 got a value from t1: 1"] ∧
    (runD schedThree init).buffer = [8, 9] ∧
    (runD schedThree init).out = ["t2 got a value from t1: 10"] ∧
    ((∃ k, k ≤ 10 ∧ (runD schedThree init).out = (expected.take k).map lineOf) ∧
    ((runD schedThree init).cpc = CPc.finished →
      (runD schedThree init).out = expected.map lineOf ∧ (runD schedThree init).data = 1 ∧
      (runD schedThree init).buffer = []) ∧
    ((runD schedThree init).out = expected.map lineOf →
      ((runD schedThree init).cpc = CPc.loopTest ∨ (runD schedThree init).cpc = CPc.finished) ∧
      (runD schedThree init).data = 1 ∧
      ∀ s1, step Label.consumer (runD schedThree init) = some s1 →
        s1.cpc = CPc.finished ∧ s1.out = (runD schedThree init).out) ∧
    ((runD schedThree init).ppc = PPc.finished → (runD schedThree init).cpc = CPc.finished →
      (runD schedThree init).buffer = []) ∧
    (runD schedThree init).ub = false ∧
    (∃ ls s1, run ls (runD schedThree init) = some s1 ∧ Completed s1 ∧
      s1.out = expected.map lineOf ∧ s1.buffer = [])) :=
  ⟨by decide, by decide, by decide, by decide, by decide, by decide, by decide,
    consumer_receives_in_order (runD schedThree init)
      (buffer_reachable_runD schedThree init Reachable.init)⟩

end ProducerConsumer

end ModernCpp
